import Mathlib

/-! AllSpark controller: port allocator, reconcile functions, task queue and
tunnel-config handler

A shallow embedding of `pkg/api/meta.go` (the `PortBucket` allocator), of the
reconcile functions of `pkg/controller/allspark.go`, of the `TaskQueue` of
`pkg/controller/utils.go` and of `Handler.IngressToIni` of
`pkg/handlers/handlers.go`, with the properties of the specification stated
and proved over it.

Conventions of the embedding

* Go `int32` / `int` values are `Int`; no arithmetic on them occurs in the
  embedded code, only comparisons and map look-ups.
* A Go `map[K]V` read is total (zero value when the key is absent or the map
  is nil); an assignment through a nil map is a runtime panic, modelled by
  `Except Fault`.
* `for k, v := range m` visits the keys of `m` in an order the Go runtime
  chooses; the order is an explicit argument (`order : List Int`).
-/

namespace AllSpark

/-! ## Runtime faults -/

/-- Go runtime panics that the embedded code can raise. -/
inductive Fault where
  /-- The panic "assignment to entry in nil map". -/
  | nilMapAssign
  /-- The panic "index out of range". -/
  | indexOutOfRange
  /-- The panic "close of closed channel". -/
  | closeOfClosedChannel
  /-- The panic "invalid memory address or nil pointer dereference". -/
  | nilDereference
  deriving DecidableEq, Repr

/-! ## Kubernetes value objects (the fields the controller reads or writes) -/

/-- Go `map[string]string`; `none` is the nil map. -/
abbrev StrMap := Option (List (String × String))

/-- Map read `m[k]`: the zero value `""` when the key is absent or the map is nil. -/
def StrMap.get (m : StrMap) (k : String) : String :=
  match m with
  | none => ""
  | some kvs => (kvs.lookup k).getD ""

/-- The type `metav1.OwnerReference`. -/
structure OwnerReference where
  APIVersion : String
  Kind : String
  Name : String
  UID : String
  Controller : Option Bool
  BlockOwnerDeletion : Option Bool
  deriving DecidableEq, Repr

/-- The type `metav1.ObjectMeta`. -/
structure ObjectMeta where
  Name : String := ""
  Namespace : String := ""
  UID : String := ""
  ResourceVersion : String := ""
  Labels : StrMap := none
  Annotations : StrMap := none
  OwnerReferences : List OwnerReference := []
  deriving DecidableEq, Repr

/-- The type `v1.ServicePort`; `TargetPort` is always built with `intstr.FromString`. -/
structure ServicePort where
  Name : String := ""
  Protocol : String := ""
  Port : Int := 0
  TargetPort : String := ""
  deriving DecidableEq, Repr

/-- The type `v1.ServiceSpec`. -/
structure ServiceSpec where
  Ports : List ServicePort := []
  ExternalIPs : List String := []
  Selector : StrMap := none
  deriving DecidableEq, Repr

/-- The type `v1.Service`. -/
structure Service where
  ObjectMeta : ObjectMeta := {}
  Spec : ServiceSpec := {}
  deriving DecidableEq, Repr

/-! ## Port allocator (`pkg/api/meta.go`) -/

/-- Go `map[int32]bool`: `none` means the key is absent. -/
abbrev Table := Int → Option Bool

/-- The empty map, also what reading a nil `map[int32]bool` behaves like. -/
def emptyTable : Table := fun _ => none

/-- Map assignment `t[port] = v` on a non-nil inner map. -/
def Table.set (t : Table) (port : Int) (v : Bool) : Table :=
  fun q => if q = port then some v else t q

/-- The type `PortBucket`: `serviceLister` is what
`b.serviceLister.List(labels.Everything())` returns, `store` maps an IP to
its table (`none`: no inner map, i.e. nil). -/
structure PortBucket where
  serviceLister : Except String (List Service)
  «namespace» : String := ""
  store : String → Option Table

/-- The constructor `NewPortBucket`: an empty outer map. -/
def NewPortBucket (lister : Except String (List Service)) : PortBucket :=
  { serviceLister := lister, store := fun _ => none }

/-- Read `b.store[ip]`; a missing IP yields the nil map, which reads as empty. -/
def tableOf (b : PortBucket) (ip : String) : Table :=
  (b.store ip).getD emptyTable

/-- The statement `b.store[ip] = t`. -/
def setTable (b : PortBucket) (ip : String) (t : Table) : PortBucket :=
  { b with store := fun k => if k = ip then some t else b.store k }

/-- The statement `b.store[ip][port] = v`: panics when `b.store[ip]` is nil. -/
def assignEntry (b : PortBucket) (ip : String) (port : Int) (v : Bool) :
    Except Fault PortBucket :=
  match b.store ip with
  | none => .error .nilMapAssign
  | some t => .ok (setTable b ip (t.set port v))

/-- Inner loop of `Reload`: `for _, p := range svc.Spec.Ports`. -/
def markPorts (b : PortBucket) (externalIP : String) :
    List ServicePort → Except Fault PortBucket
  | [] => .ok b
  | p :: ps =>
    match assignEntry b externalIP p.Port false with
    | .error f => .error f
    | .ok b1 => markPorts b1 externalIP ps

/-- Middle loop of `Reload`: `for _, externalIP := range svc.Spec.ExternalIPs`. -/
def markExternalIPs (b : PortBucket) (ports : List ServicePort) :
    List String → Except Fault PortBucket
  | [] => .ok b
  | externalIP :: rest =>
    match markPorts b externalIP ports with
    | .error f => .error f
    | .ok b1 => markExternalIPs b1 ports rest

/-- Outer loop of `Reload`: `for _, svc := range services`. -/
def markServices (b : PortBucket) : List Service → Except Fault PortBucket
  | [] => .ok b
  | svc :: rest =>
    match markExternalIPs b svc.Spec.Ports svc.Spec.ExternalIPs with
    | .error f => .error f
    | .ok b1 => markServices b1 rest

/-- The loop `for i := 0; i <= 65535; i++ { b.store[ip][int32(i)] = true }`,
run for the first `n` values of `i`. -/
def fillFree (b : PortBucket) (ip : String) (n : Nat) : Except Fault PortBucket :=
  (List.range n).foldlM (fun acc i => assignEntry acc ip (Int.ofNat i) true) b

/-- The method `PortBucket.Reload`. The result is the returned `error`
(`none` is nil) with the allocator after the call, or the panic raised. -/
def Reload (b : PortBucket) (ip : String) : Except Fault (Option String × PortBucket) :=
  match b.serviceLister with
  | .error err => .ok (some ("Listing services error: " ++ err), b)
  | .ok services =>
    match fillFree (setTable b ip emptyTable) ip 65536 with
    | .error f => .error f
    | .ok b1 =>
      match markServices b1 services with
      | .error f => .error f
      | .ok b2 => .ok (none, b2)

/-- The loop of `Pop`: `order` lists the keys in the order `range b.store[ip]`
yields them. An entry of `order` that is not a key of the map is never
yielded by `range` and is skipped. -/
def popLoop (b : PortBucket) (ip : String) : List Int → Except Fault (Int × PortBucket)
  | [] => .ok (0, b)
  | port :: rest =>
    match tableOf b ip port with
    | none => popLoop b ip rest
    | some free =>
      if port ≥ 20000 ∧ port ≤ 21000 ∧ free = true then
        match assignEntry b ip port false with
        | .error f => .error f
        | .ok b1 => .ok (port, b1)
      else popLoop b ip rest

/-- The method `PortBucket.Pop`; `0` is the "no more ports" sentinel. -/
def Pop (order : List Int) (b : PortBucket) (ip : String) : Except Fault (Int × PortBucket) :=
  popLoop b ip order

/-- An enumeration order that `range t` can produce: every key exactly once. -/
def IsRangeOrder (order : List Int) (t : Table) : Prop :=
  order.Nodup ∧ ∀ p, p ∈ order ↔ (t p).isSome = true

/-- Go `append(ports, port)` on a possibly nil slice (`none`). -/
def goAppend (ports : Option (List Int)) (port : Int) : Option (List Int) :=
  match ports with
  | none => some [port]
  | some l => some (l ++ [port])

/-- The loop of `PopMany` with `k` iterations left; `i` is the loop counter and
`orders i` the enumeration order of the `i`-th call of `Pop`. -/
def popManyLoop (orders : Nat → List Int) (ip : String) :
    Nat → Nat → PortBucket → Option (List Int) → Except Fault (Option (List Int) × PortBucket)
  | _, 0, b, ports => .ok (ports, b)
  | i, k + 1, b, ports =>
    match Pop (orders i) b ip with
    | .error f => .error f
    | .ok (port, b1) =>
      if port = 0 then .ok (none, b1)
      else popManyLoop orders ip (i + 1) k b1 (goAppend ports port)

/-- The method `PortBucket.PopMany`; the result slice is `none` when nil. -/
def PopMany (orders : Nat → List Int) (b : PortBucket) (ip : String) (length : Int) :
    Except Fault (Option (List Int) × PortBucket) :=
  popManyLoop orders ip 0 length.toNat b none

/-- Some listed service with `ip` among its external IPs declares port `q`. -/
def declared (services : List Service) (ip : String) (q : Int) : Prop :=
  ∃ svc ∈ services, ip ∈ svc.Spec.ExternalIPs ∧ ∃ p ∈ svc.Spec.Ports, p.Port = q

instance (services : List Service) (ip : String) (q : Int) :
    Decidable (declared services ip q) := by
  unfold declared; infer_instance

/-- Port `p` can be handed out from `t`: it lies in [20000, 21000] and is marked available. -/
def cand (t : Table) (p : Int) : Prop :=
  20000 ≤ p ∧ p ≤ 21000 ∧ t p = some true

instance (t : Table) (p : Int) : Decidable (cand t p) := by
  unfold cand; infer_instance

/-- Offsets `i` such that port `20000 + i` of [20000, 21000] is marked available in `t`. -/
def freeSet (t : Table) : Finset Nat :=
  (Finset.range 1001).filter (fun i => t (20000 + (i : Int)) = some true)

/-- Number of ports of [20000, 21000] marked available in `t`. -/
def freeCount (t : Table) : Nat :=
  (freeSet t).card

/-! ## Objects and collaborators of the reconcile functions

`glog` calls do not change any state modelled here and are left out. -/

/-- The type `v1.ContainerPort`. -/
structure ContainerPort where
  Name : String := ""
  Protocol : String := ""
  ContainerPort : Int := 0
  deriving DecidableEq, Repr

/-- The type `v1.VolumeMount`. -/
structure VolumeMount where
  Name : String := ""
  ReadOnly : Bool := false
  MountPath : String := ""
  deriving DecidableEq, Repr

/-- The type `v1.EnvVar`. -/
structure EnvVar where
  Name : String := ""
  Value : String := ""
  deriving DecidableEq, Repr

/-- The type `v1.Container`. -/
structure Container where
  Name : String := ""
  Image : String := ""
  Command : List String := []
  Ports : List ContainerPort := []
  VolumeMounts : List VolumeMount := []
  Env : List EnvVar := []
  deriving DecidableEq, Repr

/-- The type `v1.Volume`; `EmptyDir` tells whether the source is an empty dir. -/
structure Volume where
  Name : String := ""
  EmptyDir : Bool := false
  deriving DecidableEq, Repr

/-- The type `v1.PodSpec`. -/
structure PodSpec where
  Containers : List Container := []
  Volumes : List Volume := []
  deriving DecidableEq, Repr

/-- The type `v1.PodStatus`. -/
structure PodStatus where
  Phase : String := ""
  deriving DecidableEq, Repr

/-- The type `v1.Pod`. -/
structure Pod where
  ObjectMeta : ObjectMeta := {}
  Spec : PodSpec := {}
  Status : PodStatus := {}
  deriving DecidableEq, Repr

/-- The type `v1.Namespace`. -/
structure Namespace where
  ObjectMeta : ObjectMeta := {}
  deriving DecidableEq, Repr

/-- The type `intstr.IntOrString`. -/
structure IntOrString where
  IntVal : Int := 0
  StrVal : String := ""
  deriving DecidableEq, Repr

/-- The type `extensions.IngressBackend`. -/
structure IngressBackend where
  ServiceName : String := ""
  ServicePort : IntOrString := {}
  deriving DecidableEq, Repr

/-- The type `extensions.HTTPIngressPath`. -/
structure HTTPIngressPath where
  Path : String := ""
  Backend : IngressBackend := {}
  deriving DecidableEq, Repr

/-- The type `extensions.HTTPIngressRuleValue`. -/
structure HTTPIngressRuleValue where
  Paths : List HTTPIngressPath := []
  deriving DecidableEq, Repr

/-- The type `extensions.IngressRule`; `HTTP` is a pointer, `none` is nil. -/
structure IngressRule where
  Host : String := ""
  HTTP : Option HTTPIngressRuleValue := none
  deriving DecidableEq, Repr

/-- The type `extensions.IngressSpec`, with the rules the handler reads. -/
structure IngressSpec where
  Rules : List IngressRule := []
  deriving DecidableEq, Repr

/-- The type `extensions.Ingress`, with the metadata the controller reads and
the rules the handler reads. -/
structure Ingress where
  ObjectMeta : ObjectMeta := {}
  Spec : IngressSpec := {}
  deriving DecidableEq, Repr

/-- The type `v1.Node`. -/
structure Node where
  ObjectMeta : ObjectMeta := {}
  deriving DecidableEq, Repr

/-- The type `conf.Config`. -/
structure Config where
  KubeConfigPath : String := ""
  MasterURL : String := ""
  PublicMasterURL : String := ""
  FRPCIniFile : String := ""
  FRPSAddress : String := ""
  FRPSPort : Int := 0
  WatchNamespace : String := ""
  ContainerImage : String := ""
  FRPSToken : String := ""
  FRPCIniServer : String := ""
  FRPSNodeIP : String := ""
  DefaultIniResync : Int := 0
  deriving DecidableEq, Repr

/-- The reason of an API status error, as far as the controller tells them apart. -/
inductive StatusReason where
  | NotFound
  | AlreadyExists
  | BadRequest
  | Unknown
  deriving DecidableEq, Repr

/-- An error returned by a lister or by the API server. -/
structure APIError where
  Reason : StatusReason
  Message : String
  deriving DecidableEq, Repr

/-- The test `apierrors.IsNotFound(err)`; `none` is the nil error. -/
def IsNotFound (err : Option APIError) : Bool :=
  match err with
  | some e => decide (e.Reason = StatusReason.NotFound)
  | none => false

/-! ## JSON merge patch, as the API server applies it -/

/-- A JSON value. -/
inductive Json where
  | null
  | bool (b : Bool)
  | num (n : Int)
  | str (s : String)
  | arr (items : List Json)
  | obj (members : List (String × Json))
  deriving Repr

/-- JSON white space at the head of the input is dropped. -/
def skipWs : List Char → List Char
  | ' ' :: rest => skipWs rest
  | '\n' :: rest => skipWs rest
  | '\t' :: rest => skipWs rest
  | '\r' :: rest => skipWs rest
  | cs => cs

/-- The characters of a JSON string after its opening quote, up to the closing
quote: the string read (`acc` holds what was read so far) and the rest of the
input. Control characters and the escape `\u` are refused. -/
def parseString : List Char → List Char → Option (String × List Char)
  | [], _ => none
  | '"' :: rest, acc => some (String.mk acc, rest)
  | '\\' :: c :: rest, acc =>
    if c = '"' ∨ c = '\\' ∨ c = '/' then parseString rest (acc ++ [c])
    else if c = 'n' then parseString rest (acc ++ ['\n'])
    else if c = 't' then parseString rest (acc ++ ['\t'])
    else if c = 'r' then parseString rest (acc ++ ['\r'])
    else none
  | c :: rest, acc =>
    if c.toNat < 32 then none else parseString rest (acc ++ [c])

/-- The digits at the head of the input, as a number (`acc` so far). -/
def parseDigits : List Char → Nat → Nat × List Char
  | c :: rest, acc =>
    if c.isDigit then parseDigits rest (acc * 10 + (c.toNat - '0'.toNat)) else (acc, c :: rest)
  | [], acc => (acc, [])

mutual
/-- A JSON value at the head of the input, nested at most `fuel` deep; of the
numbers only the integers are read. -/
def parseValue : Nat → List Char → Option (Json × List Char)
  | 0, _ => none
  | fuel + 1, cs =>
    match skipWs cs with
    | '"' :: rest =>
      match parseString rest [] with
      | some (s, rest1) => some (Json.str s, rest1)
      | none => none
    | '{' :: rest =>
      match skipWs rest with
      | '}' :: rest1 => some (Json.obj [], rest1)
      | rest1 => parseMembers fuel rest1 []
    | '[' :: rest =>
      match skipWs rest with
      | ']' :: rest1 => some (Json.arr [], rest1)
      | rest1 => parseItems fuel rest1 []
    | 'n' :: 'u' :: 'l' :: 'l' :: rest => some (Json.null, rest)
    | 't' :: 'r' :: 'u' :: 'e' :: rest => some (Json.bool true, rest)
    | 'f' :: 'a' :: 'l' :: 's' :: 'e' :: rest => some (Json.bool false, rest)
    | '-' :: c :: rest =>
      if c.isDigit then
        let (n, rest1) := parseDigits (c :: rest) 0
        some (Json.num (- (n : Int)), rest1)
      else none
    | c :: rest =>
      if c.isDigit then
        let (n, rest1) := parseDigits (c :: rest) 0
        some (Json.num n, rest1)
      else none
    | [] => none
/-- The members of a JSON object after its opening brace. -/
def parseMembers : Nat → List Char → List (String × Json) → Option (Json × List Char)
  | 0, _, _ => none
  | fuel + 1, cs, acc =>
    match skipWs cs with
    | '"' :: rest =>
      match parseString rest [] with
      | none => none
      | some (key, rest1) =>
        match skipWs rest1 with
        | ':' :: rest2 =>
          match parseValue fuel rest2 with
          | none => none
          | some (v, rest3) =>
            match skipWs rest3 with
            | ',' :: rest4 => parseMembers fuel rest4 (acc ++ [(key, v)])
            | '}' :: rest4 => some (Json.obj (acc ++ [(key, v)]), rest4)
            | _ => none
        | _ => none
    | _ => none
/-- The items of a JSON array after its opening bracket. -/
def parseItems : Nat → List Char → List Json → Option (Json × List Char)
  | 0, _, _ => none
  | fuel + 1, cs, acc =>
    match parseValue fuel cs with
    | none => none
    | some (v, rest) =>
      match skipWs rest with
      | ',' :: rest1 => parseItems fuel rest1 (acc ++ [v])
      | ']' :: rest1 => some (Json.arr (acc ++ [v]), rest1)
      | _ => none
end

/-- The JSON value a document holds, `none` when it is not well-formed (the
fuel, one more than the length of the document, bounds its nesting). -/
def parseJSON (doc : String) : Option Json :=
  match parseValue (doc.length + 1) doc.toList with
  | some (v, rest) => if skipWs rest = [] then some v else none
  | none => none

/-- The member `key` of a JSON object, the last one when the key is repeated. -/
def Json.member (members : List (String × Json)) (key : String) : Option Json :=
  members.reverse.lookup key

/-- Map write `m[k] = v`, on a map that is created when nil. -/
def StrMap.set (m : StrMap) (k v : String) : StrMap :=
  match m with
  | none => some [(k, v)]
  | some kvs =>
    if kvs.any (fun kv => kv.1 = k) then
      some (kvs.map (fun kv => if kv.1 = k then (k, v) else kv))
    else some (kvs ++ [(k, v)])

/-- Map delete `delete(m, k)`. -/
def StrMap.delete (m : StrMap) (k : String) : StrMap :=
  match m with
  | none => none
  | some kvs => some (kvs.filter (fun kv => kv.1 ≠ k))

/-- A JSON merge patch (RFC 7386) applied to a `map[string]string`: a string
member sets its key, a null member deletes it; `none` when a member is neither,
since the result does not decode into the map. -/
def mergeStringMap : StrMap → List (String × Json) → Option StrMap
  | m, [] => some m
  | m, (k, Json.str v) :: rest => mergeStringMap (m.set k v) rest
  | m, (k, Json.null) :: rest => mergeStringMap (m.delete k) rest
  | _, _ => none

/-- How the API server applies a JSON merge patch (RFC 7386) to a stored
service, as far as the selector goes: the member `spec.selector` of the
document is merged into `Spec.Selector`, a `map[string]string`: null removes
the map, an object is merged member by member, and any other value (a string
in particular) makes the patched object fail to decode, so the server rejects
the request. Other members of the document are not modelled. -/
def applyMergePatch (s : Service) (payload : String) : Except String Service :=
  match parseJSON payload with
  | some (Json.obj members) =>
    match Json.member members "spec" with
    | none => .ok s
    | some (Json.obj spec) =>
      match Json.member spec "selector" with
      | none => .ok s
      | some Json.null => .ok { s with Spec := { s.Spec with Selector := none } }
      | some (Json.obj selector) =>
        match mergeStringMap s.Spec.Selector selector with
        | some m => .ok { s with Spec := { s.Spec with Selector := m } }
        | none => .error "cannot unmarshal spec.selector into map[string]string"
      | some _ => .error "cannot unmarshal spec.selector into map[string]string"
    | some _ => .error "cannot unmarshal spec into v1.ServiceSpec"
  | _ => .error "the document is not a JSON object"

/-- A write request sent through `kubecli`. -/
inductive Write where
  | CreateService (ns : String) (svc : Service)
  | CreatePod (ns : String) (pod : Pod)
  | PatchService (ns : String) (name : String) (payload : String)
  deriving DecidableEq, Repr

/-- The calls the controller makes through `kubecli`. -/
inductive Verb where
  | GetService
  | CreateService
  | PatchService
  | GetPod
  | CreatePod
  deriving DecidableEq, Repr

/-- The API server behind `kubecli` (external collaborator): the services and
pods it stores, the upstream failure it answers a verb with (`Outage`, `none`
when the verb is served) and the write requests received so far. -/
structure Kube where
  Services : List Service := []
  Pods : List Pod := []
  Outage : Verb → Option String := fun _ => none
  Writes : List Write := []

/-- The call `kubecli.Core().Services(ns).Get(name, ...)` of the typed client:
on an error the returned object is the zero value. The name is that of a
cached object or a tenant label in use and is not empty (the client refuses an
empty name before sending, a case that is not modelled). -/
def Kube.GetService (k : Kube) (ns name : String) : Service × Option APIError :=
  match k.Outage Verb.GetService with
  | some msg => ({}, some ⟨StatusReason.Unknown, msg⟩)
  | none =>
    match k.Services.find? (fun s => decide (s.ObjectMeta.Namespace = ns ∧ s.ObjectMeta.Name = name)) with
    | some s => (s, none)
    | none => ({}, some ⟨StatusReason.NotFound, "services " ++ name.quote ++ " not found"⟩)

/-- The call `kubecli.Core().Pods(ns).Get(name, ...)` of the typed client.
The name is that of a cached ingress and is not empty (the client refuses an
empty name before sending, a case that is not modelled). -/
def Kube.GetPod (k : Kube) (ns name : String) : Pod × Option APIError :=
  match k.Outage Verb.GetPod with
  | some msg => ({}, some ⟨StatusReason.Unknown, msg⟩)
  | none =>
    match k.Pods.find? (fun s => decide (s.ObjectMeta.Namespace = ns ∧ s.ObjectMeta.Name = name)) with
    | some s => (s, none)
    | none => ({}, some ⟨StatusReason.NotFound, "pods " ++ name.quote ++ " not found"⟩)

/-- The call `kubecli.Core().Services(ns).Create(svc)`: the request is
recorded; it fails on an outage or when the name is taken, otherwise the
object is stored under the request namespace. -/
def Kube.CreateService (k : Kube) (ns : String) (svc : Service) :
    (Service × Option APIError) × Kube :=
  let k1 : Kube := { k with Writes := k.Writes ++ [Write.CreateService ns svc] }
  match k.Outage Verb.CreateService with
  | some msg => (({}, some ⟨StatusReason.Unknown, msg⟩), k1)
  | none =>
    if k.Services.any (fun s => decide (s.ObjectMeta.Namespace = ns ∧
        s.ObjectMeta.Name = svc.ObjectMeta.Name)) then
      (({}, some ⟨StatusReason.AlreadyExists,
        "services " ++ svc.ObjectMeta.Name.quote ++ " already exists"⟩), k1)
    else
      let stored : Service := { svc with ObjectMeta := { svc.ObjectMeta with Namespace := ns } }
      ((stored, none), { k1 with Services := k.Services ++ [stored] })

/-- The call `kubecli.Core().Pods(ns).Create(pod)`. -/
def Kube.CreatePod (k : Kube) (ns : String) (pod : Pod) : (Pod × Option APIError) × Kube :=
  let k1 : Kube := { k with Writes := k.Writes ++ [Write.CreatePod ns pod] }
  match k.Outage Verb.CreatePod with
  | some msg => (({}, some ⟨StatusReason.Unknown, msg⟩), k1)
  | none =>
    if k.Pods.any (fun s => decide (s.ObjectMeta.Namespace = ns ∧
        s.ObjectMeta.Name = pod.ObjectMeta.Name)) then
      (({}, some ⟨StatusReason.AlreadyExists,
        "pods " ++ pod.ObjectMeta.Name.quote ++ " already exists"⟩), k1)
    else
      let stored : Pod := { pod with ObjectMeta := { pod.ObjectMeta with Namespace := ns } }
      ((stored, none), { k1 with Pods := k.Pods ++ [stored] })

/-- The call `kubecli.Core().Services(ns).Patch(name, types.MergePatchType,
payload)`: the request is recorded; it fails on an outage, when the service is
absent or when the server rejects the document (`applyMergePatch`), otherwise
the patched object replaces the stored one. -/
def Kube.PatchService (k : Kube) (ns name payload : String) :
    (Service × Option APIError) × Kube :=
  let k1 : Kube := { k with Writes := k.Writes ++ [Write.PatchService ns name payload] }
  match k.Outage Verb.PatchService with
  | some msg => (({}, some ⟨StatusReason.Unknown, msg⟩), k1)
  | none =>
    match k.Services.find? (fun s => decide (s.ObjectMeta.Namespace = ns ∧ s.ObjectMeta.Name = name)) with
    | none => (({}, some ⟨StatusReason.NotFound, "services " ++ name.quote ++ " not found"⟩), k1)
    | some s =>
      match applyMergePatch s payload with
      | .error msg => (({}, some ⟨StatusReason.BadRequest, msg⟩), k1)
      | .ok patched =>
        ((patched, none),
          { k1 with Services := k.Services.map (fun x =>
              if x.ObjectMeta.Namespace = ns ∧ x.ObjectMeta.Name = name then patched else x) })

/-- The helper `metav1.NewControllerRef(owner, gvk)`; `apiVersion` is
`gvk.GroupVersion().String()`. -/
def NewControllerRef (owner : ObjectMeta) (apiVersion kind : String) : OwnerReference :=
  { APIVersion := apiVersion, Kind := kind, Name := owner.Name, UID := owner.UID,
    Controller := some true, BlockOwnerDeletion := some true }

/-- The type `ASController`, with the fields the reconcile functions use:
`NamespaceLister` is the `Get` of the informer cache, `POD_NAMESPACE` the value
of `os.Getenv("POD_NAMESPACE")`. The client `kubecli` is the `Kube` argument of
the reconcile functions. -/
structure ASController where
  NamespaceLister : String → Except APIError Namespace
  portBucket : PortBucket
  cfg : Config
  POD_NAMESPACE : String
  /-- The call `IngressLister.Ingresses(namespace).Get(name)` of the informer cache. -/
  IngressLister : String → String → Except APIError Ingress :=
    fun _ name => .error ⟨StatusReason.NotFound, "ingress " ++ name.quote ++ " not found"⟩
  /-- The call `NodeLister.Get(name)` of the informer cache. -/
  NodeLister : String → Except APIError Node :=
    fun name => .error ⟨StatusReason.NotFound, "node " ++ name.quote ++ " not found"⟩
  /-- The call `ServiceLister.Services(namespace).Get(name)` of the informer cache. -/
  ServiceLister : String → String → Except APIError Service :=
    fun _ name => .error ⟨StatusReason.NotFound, "service " ++ name.quote ++ " not found"⟩

/-- The function `newFRPSService`. -/
def newFRPSService (podNamespace : String) (refNS : Namespace) (tenant nodeIP : String)
    (frps http https : Int) : Service :=
  { ObjectMeta :=
      { Name := tenant
        Namespace := podNamespace
        OwnerReferences := [NewControllerRef refNS.ObjectMeta "v1" "Namespace"] }
    Spec :=
      { Ports :=
          [ { Name := "frps", Protocol := "TCP", Port := frps, TargetPort := "frps" },
            { Name := "http", Protocol := "TCP", Port := http, TargetPort := "http" },
            { Name := "https", Protocol := "TCP", Port := https, TargetPort := "https" } ]
        ExternalIPs := [nodeIP]
        Selector := some [("tenant", tenant)] } }

/-- The method `ASController.newFRPSPod`. -/
def newFRPSPod (c : ASController) (refNS : Namespace) (tenant : String) : Pod :=
  { ObjectMeta :=
      { Name := tenant
        Namespace := c.POD_NAMESPACE
        Labels := some [("tenant", tenant)]
        OwnerReferences := [NewControllerRef refNS.ObjectMeta "v1" "Namespace"] }
    Spec :=
      { Containers :=
          [ { Name := "frps"
              Image := c.cfg.ContainerImage
              Command := ["frps", "--vhost_http_port=80", "--vhost_https_port=443"]
              Ports :=
                [ { Name := "frps", Protocol := "TCP", ContainerPort := 7000 },
                  { Name := "http", Protocol := "TCP", ContainerPort := 80 },
                  { Name := "https", Protocol := "TCP", ContainerPort := 443 } ] } ] } }

/-- The block "Sync Pod FRPS" of `syncNamespaces` (allspark.go:196-214). -/
def syncFRPSPod (c : ASController) (k : Kube) (ns : Namespace) (tenant : String) :
    Option String × Kube :=
  let newPod := newFRPSPod c ns tenant
  let (_, err) := k.GetPod c.POD_NAMESPACE tenant
  if IsNotFound err then
    match k.CreatePod c.POD_NAMESPACE newPod with
    | ((_, some e), k1) => (some ("Creating FRPS pod error: " ++ e.Message), k1)
    | ((_, none), k1) => (none, k1)
  else
    match err with
    | some e => (some ("Failed retrieving FPRS service " ++ tenant.quote ++ ": " ++ e.Message), k)
    | none => (none, k)

/-- The block "Sync FRPS Service" of `syncNamespaces` (allspark.go:178-194);
the branch for differing ports has an empty body. -/
def syncFRPSService (c : ASController) (k : Kube) (ns : Namespace) (tenant : String)
    (p0 p1 p2 : Int) : Option String × Kube :=
  let newService := newFRPSService c.POD_NAMESPACE ns tenant c.cfg.FRPSNodeIP p0 p1 p2
  let (_, err) := k.GetService c.POD_NAMESPACE tenant
  if IsNotFound err then
    match k.CreateService c.POD_NAMESPACE newService with
    | ((_, some e), k1) => (some ("Creating FRPS service error: " ++ e.Message), k1)
    | ((_, none), k1) => (none, k1)
  else
    match err with
    | some e => (some ("Failed retrieving service " ++ tenant.quote ++ ": " ++ e.Message), k)
    | none => (none, k)

/-- The method `ASController.syncNamespaces`. The result is the returned
`error` (`none` is nil), the controller (its allocator) and the API server
after the call, or the panic raised. `orders i` is the enumeration order of
the `i`-th `Pop`. -/
def syncNamespaces (orders : Nat → List Int) (c : ASController) (k : Kube) (key : String) :
    Except Fault (Option String × ASController × Kube) :=
  match c.NamespaceLister key with
  | .error err =>
    if IsNotFound (some err) then .ok (none, c, k) else .ok (some err.Message, c, k)
  | .ok ns =>
    let tenant := ns.ObjectMeta.Labels.get "allspark.sh/tenant"
    match Reload c.portBucket c.cfg.FRPSNodeIP with
    | .error f => .error f
    | .ok (some err, b1) =>
      .ok (some ("Failed reloading port bucket: " ++ err), { c with portBucket := b1 }, k)
    | .ok (none, b1) =>
      match PopMany orders b1 c.cfg.FRPSNodeIP 3 with
      | .error f => .error f
      | .ok (none, b2) => .ok (none, { c with portBucket := b2 }, k)
      | .ok (some ports, b2) =>
        let c2 : ASController := { c with portBucket := b2 }
        match ports with
        | p0 :: p1 :: p2 :: _ =>
          match syncFRPSService c k ns tenant p0 p1 p2 with
          | (some e, k1) => .ok (some e, c2, k1)
          | (none, k1) =>
            match syncFRPSPod c k1 ns tenant with
            | (some e, k2) => .ok (some e, c2, k2)
            | (none, k2) => .ok (none, c2, k2)
        | _ => .error Fault.indexOutOfRange

/-! ## Routing-object and node reconcile, admission filters -/

/-- Go `strings.Split(s, sep)` for a one-character separator, on the
characters of `s`: the pieces between the separators, never an empty list. -/
def splitChars (sep : Char) : List Char → List (List Char)
  | [] => [[]]
  | ch :: rest =>
    if ch = sep then [] :: splitChars sep rest
    else
      match splitChars sep rest with
      | [] => [[ch]]
      | w :: ws => (ch :: w) :: ws

/-- Go `strings.Split(s, sep)` for a one-character separator. -/
def stringsSplit (s : String) (sep : Char) : List String :=
  (splitChars sep s.toList).map String.mk

/-- The function `cache.SplitMetaNamespaceKey` of client-go. -/
def SplitMetaNamespaceKey (key : String) : Except String (String × String) :=
  match stringsSplit key '/' with
  | [name] => .ok ("", name)
  | [ns, name] => .ok (ns, name)
  | _ => .error ("unexpected key format: " ++ key.quote)

/-- The helper `metav1.GetControllerOf`: the first owner reference whose
`Controller` flag is set and true. -/
def GetControllerOf (controllee : ObjectMeta) : Option OwnerReference :=
  controllee.OwnerReferences.find? (fun ref => decide (ref.Controller = some true))

/-- The helper `metav1.IsControlledBy(obj, owner)`. -/
def IsControlledBy (obj owner : ObjectMeta) : Bool :=
  match GetControllerOf obj with
  | none => false
  | some ref => decide (ref.UID = owner.UID)

/-- The method `ASController.newFRPCPod`. -/
def newFRPCPod (c : ASController) (ing : Ingress) : Pod :=
  let frpc : Container :=
    { Name := "frpc"
      Image := c.cfg.ContainerImage
      Command := ["frpc", "-c", "/etc/frpc/frpc.ini"]
      VolumeMounts := [{ Name := "frpc-ini", ReadOnly := true, MountPath := "/etc/frpc" }] }
  let sync : Container :=
    { Name := "sync"
      Image := c.cfg.ContainerImage
      Command := ["ini-sync", "--frpc-ini", "/etc/frpc/frpc.ini", "--logtostderr"]
      VolumeMounts := [{ Name := "frpc-ini", MountPath := "/etc/frpc" }]
      Env :=
        [ { Name := "POD_NAMESPACE", Value := ing.ObjectMeta.Namespace },
          { Name := "INGRESS_NAME", Value := ing.ObjectMeta.Name },
          { Name := "KUBERNETES_SERVICE_HOST", Value := c.cfg.PublicMasterURL } ] }
  let sync1 : Container :=
    if c.cfg.FRPSToken ≠ "" then
      { sync with Env := sync.Env ++ [{ Name := "FRPS_TOKEN", Value := c.cfg.FRPSToken }] }
    else sync
  { ObjectMeta :=
      { Name := ing.ObjectMeta.Name
        Namespace := ing.ObjectMeta.Namespace
        Labels := some [("app", ing.ObjectMeta.Name)]
        OwnerReferences := [NewControllerRef ing.ObjectMeta "extensions/v1beta1" "Ingress"] }
    Spec :=
      { Containers := [frpc, sync1]
        Volumes := [{ Name := "frpc-ini", EmptyDir := true }] } }

/-- The function `newKubeletService`. -/
def newKubeletService (podNamespace serviceName : String) (node : Node) : Service :=
  { ObjectMeta :=
      { Name := serviceName
        Namespace := podNamespace
        OwnerReferences := [NewControllerRef node.ObjectMeta "v1" "Node"] }
    Spec :=
      { Ports := [{ Name := "kubelet", Protocol := "TCP", Port := 10250, TargetPort := "https" }]
        Selector := some [("tenant", node.ObjectMeta.Labels.get "allspark.sh/tenant")] } }

/-- The message `fmt.Sprintf(MessageResourceExists, name)`. -/
def MessageResourceExists (name : String) : String :=
  "Resource " ++ name.quote ++ " already exists and is not managed by Ingress"

/-- The method `ASController.syncIngress`. -/
def syncIngress (c : ASController) (k : Kube) (key : String) :
    Except Fault (Option String × ASController × Kube) :=
  match SplitMetaNamespaceKey key with
  | .error _ => .ok (none, c, k)
  | .ok («namespace», name) =>
    match c.NamespaceLister «namespace» with
    | .error err =>
      if IsNotFound (some err) then .ok (none, c, k) else .ok (some err.Message, c, k)
    | .ok ns =>
      let tenant : String :=
        if ns.ObjectMeta.Labels ≠ none then ns.ObjectMeta.Labels.get "allspark.sh/tenant" else ""
      if tenant = "" then .ok (none, c, k)
      else
        match c.IngressLister «namespace» name with
        | .error err =>
          if IsNotFound (some err) then .ok (none, c, k) else .ok (some err.Message, c, k)
        | .ok ing =>
          let (pod, err) := k.GetPod «namespace» ing.ObjectMeta.Name
          if err ≠ none ∧ IsNotFound err = false then .ok (none, c, k)
          else if IsNotFound err then
            match k.CreatePod «namespace» (newFRPCPod c ing) with
            | ((_, some e), k1) => .ok (some e.Message, c, k1)
            | ((_, none), k1) => .ok (none, c, k1)
          else if IsControlledBy pod.ObjectMeta ing.ObjectMeta = false then
            .ok (some (MessageResourceExists ing.ObjectMeta.Name), c, k)
          else .ok (none, c, k)

/-- The body `{"spec": {"selector": "<tenantName>"}}` that `syncNodes` formats
with `fmt.Sprintf`. -/
def selectorPayload (tenantName : String) : String :=
  "\x7b\"spec\": \x7b\"selector\": \"" ++ tenantName ++ "\"\x7d\x7d"

/-- The method `ASController.syncNodes`. -/
def syncNodes (c : ASController) (k : Kube) (key : String) :
    Except Fault (Option String × ASController × Kube) :=
  match c.NodeLister key with
  | .error err =>
    if IsNotFound (some err) then .ok (none, c, k) else .ok (some err.Message, c, k)
  | .ok node =>
    let podNamespace := c.POD_NAMESPACE
    let tenantName := node.ObjectMeta.Labels.get "allspark.sh/tenant"
    match stringsSplit node.ObjectMeta.Name '.' with
    | [] => .error Fault.indexOutOfRange
    | serviceName :: _ =>
      let (_, err) := k.GetService podNamespace serviceName
      match err with
      | some e =>
        if IsNotFound err then
          let kubelet := newKubeletService c.POD_NAMESPACE serviceName node
          match k.CreateService podNamespace kubelet with
          | ((_, some e1), k1) =>
            .ok (some ("failed creating kubelet service: " ++ e1.Message), c, k1)
          | ((_, none), k1) => .ok (none, c, k1)
        else
          .ok (some ("failed getting service " ++ serviceName.quote ++ ": " ++ e.Message), c, k)
      | none =>
        match k.PatchService podNamespace serviceName (selectorPayload tenantName) with
        | ((_, some e1), k1) => .ok (some ("failed patching service: " ++ e1.Message), c, k1)
        | ((_, none), k1) => .ok (none, c, k1)

/-- The annotation key `ingressClassKey`. -/
def ingressClassKey : String := "kubernetes.io/ingress.class"

/-- The constant `frpIngressClass`. -/
def frpIngressClass : String := "frp"

/-- Map read with presence flag, `val, ok := m[k]`: `none` when `ok` is false. -/
def StrMap.find (m : StrMap) (k : String) : Option String :=
  match m with
  | none => none
  | some kvs => kvs.lookup k

/-- The method `ingAnnotations.ingressClass`. -/
def ingressClass (ing : StrMap) : String :=
  match ing.find ingressClassKey with
  | none => ""
  | some val => val

/-- The function `isFrpIngress`. -/
def isFrpIngress (ing : Ingress) : Bool :=
  let cls := ingressClass ing.ObjectMeta.Annotations
  decide (cls = "") || decide (cls = frpIngressClass)

/-- The function `isAllSparkResource`, on the metadata of the object. -/
def isAllSparkResource (meta : ObjectMeta) : Bool :=
  let labels := meta.Labels
  if labels = none then false
  else if labels.get "allspark.sh/tenant" ≠ "" then true
  else false

/-- The namespace `acme`, labelled with the tenant `acme-co`. -/
def acmeNamespace : Namespace :=
  { ObjectMeta := { Name := "acme", UID := "uid-acme",
                    Labels := some [("allspark.sh/tenant", "acme-co")] } }

/-- A controller for node IP `10.0.0.5` in namespace `allspark`, with a fresh
allocator whose lister returns `services` and a cache that holds `acme`. -/
def acmeController (services : List Service) : ASController :=
  { NamespaceLister := fun key =>
      if key = "acme" then .ok acmeNamespace
      else .error ⟨StatusReason.NotFound, "namespace " ++ key.quote ++ " not found"⟩
    portBucket := NewPortBucket (.ok services)
    cfg := { FRPSNodeIP := "10.0.0.5", ContainerImage := "quay.io/sandromello/frp:v0.20.0" }
    POD_NAMESPACE := "allspark" }

/-- The ingress `shop` of namespace `acme`, with the accepted class annotation. -/
def shopIngress : Ingress :=
  { ObjectMeta := { Name := "shop", Namespace := "acme", UID := "uid-shop",
                    Annotations := some [("kubernetes.io/ingress.class", "frp")] } }

/-- The node `worker1.svc.cluster.local`, labelled with the tenant `acme-co`. -/
def workerNode : Node :=
  { ObjectMeta := { Name := "worker1.svc.cluster.local", UID := "uid-worker1",
                    Labels := some [("allspark.sh/tenant", "acme-co")] } }

/-- The controller `acmeController` whose caches also hold the ingress
`acme/shop` and the node `worker1.svc.cluster.local`. -/
def shopController : ASController :=
  { acmeController [] with
    IngressLister := fun ns name =>
      if ns = "acme" ∧ name = "shop" then .ok shopIngress
      else .error ⟨StatusReason.NotFound, "ingress " ++ name.quote ++ " not found"⟩
    NodeLister := fun name =>
      if name = "worker1.svc.cluster.local" then .ok workerNode
      else .error ⟨StatusReason.NotFound, "node " ++ name.quote ++ " not found"⟩ }

/-- The kubelet service `worker1` as `newKubeletService` builds it for the node
`worker1.svc.cluster.local` while the node carries the tenant label `old-co`. -/
def staleKubeletService : Service :=
  newKubeletService "allspark" "worker1"
    { ObjectMeta := { Name := "worker1.svc.cluster.local", UID := "uid-worker1",
                      Labels := some [("allspark.sh/tenant", "old-co")] } }

/-- An API server that stores the service `staleKubeletService` and nothing
else. -/
def staleKube : Kube :=
  { Services := [staleKubeletService] }

/-- A pod named `shop` in namespace `acme` without any owner reference. -/
def strangerPod : Pod :=
  { ObjectMeta := { Name := "shop", Namespace := "acme", UID := "uid-stranger" } }

/-- A service bound to the node IP `10.0.0.5` that declares every port of
[20000, 21000]. -/
def fullService : Service :=
  { ObjectMeta := { Name := "everything", Namespace := "allspark" }
    Spec := { Ports := (List.range 1001).map (fun i =>
                ({ Name := "p", Protocol := "TCP", Port := 20000 + Int.ofNat i } : ServicePort))
              ExternalIPs := ["10.0.0.5"] } }

/-- An API server that holds nothing and answers every pod lookup with the
upstream failure "connection refused". -/
def podLookupOutage : Kube :=
  { Outage := fun v => if v = Verb.GetPod then some "connection refused" else none }

/-- An ingress whose class annotation is `cls`. -/
def ingressWithClass (cls : String) : Ingress :=
  { ObjectMeta := { Annotations := some [("other", "x"), ("kubernetes.io/ingress.class", cls)] } }

/-- The ascending enumeration of the keys 0..65535. -/
def ascendingOrder : List Int :=
  (List.range 65536).map Int.ofNat

/-- A small allocator state: IP `10.0.0.5` has a table with the three keys
20000, 20001 (available) and 20002 (taken). -/
def sampleBucket : PortBucket :=
  { serviceLister := .ok []
    store := fun k =>
      if k = "10.0.0.5" then
        some (fun q => if q = 20000 then some true else if q = 20001 then some true
          else if q = 20002 then some false else none)
      else none }

/-- The table `Reload` builds before it looks at the services: keys 0..65535,
all available. -/
def freshTable : Table :=
  fun q => if 0 ≤ q ∧ q < 65536 then some true else none

/-- Allocator `b1` is `b` with the entries selected by `D` marked unavailable
and nothing else changed (same lister, same IPs with a table, same other
entries). -/
def Marked (b b1 : PortBucket) (D : String → Int → Prop) : Prop :=
  b1.serviceLister = b.serviceLister ∧ b1.«namespace» = b.«namespace» ∧
  (∀ k, (b1.store k).isSome = (b.store k).isSome) ∧
  ∀ k q, (D k q → tableOf b1 k q = some false) ∧ (¬ D k q → tableOf b1 k q = tableOf b k q)

/-- Every external IP of a listed service that declares at least one port has
a table in `b`. -/
def Seeded (b : PortBucket) (services : List Service) : Prop :=
  ∀ svc ∈ services, svc.Spec.Ports ≠ [] → ∀ e ∈ svc.Spec.ExternalIPs, (b.store e).isSome = true

/-- A service bound to the external IP `10.0.0.6`, declaring port 80. -/
def foreignService : Service :=
  { ObjectMeta := { Name := "web", Namespace := "allspark" }
    Spec := { Ports := [{ Name := "http", Protocol := "TCP", Port := 80, TargetPort := "http" }]
              ExternalIPs := ["10.0.0.6"] } }

/-- A service bound to the external IP `10.0.0.5`, declaring port 20000. -/
def boundService : Service :=
  { ObjectMeta := { Name := "acme-co", Namespace := "allspark" }
    Spec := { Ports := [{ Name := "frps", Protocol := "TCP", Port := 20000, TargetPort := "frps" }]
              ExternalIPs := ["10.0.0.5"] } }

/-! ## Work queue and workers (`pkg/controller/utils.go`) -/

/-- Modelled from the spec: the rate-limited work queue held in
`TaskQueue.queue` (type `workqueue.RateLimitingInterface`), whose code is not
among the sources. Following sections 3 and 4.1 of the spec, an entry is a
pending or in-flight marker plus retry-backoff state: `queue` lists the
pending keys in delivery order, `dirty` the keys that need processing
(pending, or added again while in flight), `processing` the keys in flight,
`failures` one entry per recorded failure of a key (its backoff state) and
`waiting` the rate-limited re-adds whose delay has not elapsed. -/
structure WorkQueue where
  queue : List String := []
  dirty : List String := []
  processing : List String := []
  shuttingDown : Bool := false
  failures : List String := []
  waiting : List String := []
  deriving DecidableEq, Repr

/-- Modelled from the spec: the method `Add` of the work queue, not among the
sources. Section 4.1: adding a key that is already pending is a no-op, adding
one that is in flight only ensures redelivery after the current attempt. -/
def WorkQueue.Add (q : WorkQueue) (key : String) : WorkQueue :=
  if q.shuttingDown then q
  else if key ∈ q.dirty then q
  else if key ∈ q.processing then { q with dirty := q.dirty ++ [key] }
  else { q with dirty := q.dirty ++ [key], queue := q.queue ++ [key] }

/-- Modelled from the spec: the method `Get` of the work queue, not among the
sources. It hands out the first pending key and marks it in flight; with
nothing pending it reports the stop condition once the queue is shut down and
blocks otherwise (`none`). -/
def WorkQueue.Get (q : WorkQueue) : Option ((Option String × Bool) × WorkQueue) :=
  match q.queue with
  | [] => if q.shuttingDown then some ((none, true), q) else none
  | key :: rest =>
    some ((some key, false),
      { q with queue := rest, processing := q.processing ++ [key], dirty := q.dirty.erase key })

/-- Modelled from the spec: the method `Done` of the work queue, not among the
sources. The key is released; if it was added again while in flight it becomes
pending. -/
def WorkQueue.Done (q : WorkQueue) (key : String) : WorkQueue :=
  if key ∈ q.dirty then
    { q with processing := q.processing.erase key, queue := q.queue ++ [key] }
  else { q with processing := q.processing.erase key }

/-- Modelled from the spec: the method `AddRateLimited` of the work queue, not
among the sources. A failure of the key is recorded and the key is re-added
once its backoff delay has elapsed. -/
def WorkQueue.AddRateLimited (q : WorkQueue) (key : String) : WorkQueue :=
  { q with failures := q.failures ++ [key], waiting := q.waiting ++ [key] }

/-- Modelled from the spec: the method `Forget` of the work queue, not among
the sources. The backoff state of the key is cleared. -/
def WorkQueue.Forget (q : WorkQueue) (key : String) : WorkQueue :=
  { q with failures := q.failures.filter (fun x => decide (x ≠ key)) }

/-- Modelled from the spec: the method `ShutDown` of the work queue, not among
the sources. -/
def WorkQueue.ShutDown (q : WorkQueue) : WorkQueue :=
  { q with shuttingDown := true }

/-- Modelled from the spec: the backoff delay of a rate-limited re-add of
`key` elapses and the work queue, not among the sources, adds the key. -/
def WorkQueue.Elapse (q : WorkQueue) (key : String) : WorkQueue :=
  if key ∈ q.waiting then WorkQueue.Add { q with waiting := q.waiting.erase key } key
  else q

/-- Modelled from the spec: the key function `KeyFunc`
(`cache.DeletionHandlingMetaNamespaceKeyFunc`, not among the sources) on the
metadata of an API object. Section 3: namespace and name, or the bare name for
cluster-scoped objects. -/
def KeyFunc (obj : ObjectMeta) : String :=
  if obj.Namespace ≠ "" then obj.Namespace ++ "/" ++ obj.Name else obj.Name

/-- What a worker does to the queue, to the sync function and to the channel
`workerDone`, in the order it happens. -/
inductive Event where
  | Sync (key : String)
  | AddRateLimited (key : String)
  | Forget (key : String)
  | Done (key : String)
  | CloseWorkerDone
  deriving DecidableEq, Repr

/-- The type `TaskQueue`: `sync` acts on a state `σ` and returns the `error`
(`none` is nil); `workerDone` tells whether the channel has been closed;
`trace` records the events of the workers. -/
structure TaskQueue (σ : Type) where
  queue : WorkQueue := {}
  sync : String → σ → Except Fault (Option String × σ)
  workerDone : Bool := false
  trace : List Event := []

/-- The constructor `NewTaskQueue`. -/
def NewTaskQueue {σ : Type} (syncFn : String → σ → Except Fault (Option String × σ)) :
    TaskQueue σ :=
  { sync := syncFn }

/-- The method `TaskQueue.Add`, on the metadata of the API object; the typed
objects the event handlers pass always have a key. -/
def TaskQueue.Add {σ : Type} (t : TaskQueue σ) (obj : ObjectMeta) : TaskQueue σ :=
  { t with queue := t.queue.Add (KeyFunc obj) }

/-- The method `TaskQueue.processNextWorkItem`, with the state `w` the sync
function acts on. `.ok none` means the worker is blocked in `queue.Get()`. -/
def processNextWorkItem {σ : Type} (t : TaskQueue σ) (w : σ) :
    Except Fault (Option (TaskQueue σ × σ)) :=
  match t.queue.Get with
  | none => .ok none
  | some ((key, quit), q1) =>
    if quit then
      if t.workerDone then .error Fault.closeOfClosedChannel
      else
        .ok (some ({ t with queue := q1, workerDone := true,
                            trace := t.trace ++ [Event.CloseWorkerDone] }, w))
    else
      match key with
      | none => .ok (some ({ t with queue := q1 }, w))
      | some key =>
        match t.sync key w with
        | .error f => .error f
        | .ok (some _, w1) =>
          .ok (some ({ t with
            queue := (q1.AddRateLimited key).Done key
            trace := t.trace ++ [Event.Sync key, Event.AddRateLimited key, Event.Done key] }, w1))
        | .ok (none, w1) =>
          .ok (some ({ t with
            queue := (q1.Forget key).Done key
            trace := t.trace ++ [Event.Sync key, Event.Forget key, Event.Done key] }, w1))

/-- The method `TaskQueue.runWorker`, an endless `for` loop, unrolled for
`fuel` iterations; it stops earlier only on a panic or when blocked in `Get`. -/
def runWorker {σ : Type} : Nat → TaskQueue σ → σ → Except Fault (TaskQueue σ × σ)
  | 0, t, w => .ok (t, w)
  | fuel + 1, t, w =>
    match processNextWorkItem t w with
    | .error f => .error f
    | .ok none => .ok (t, w)
    | .ok (some (t1, w1)) => runWorker fuel t1 w1

/-- The first statement of `TaskQueue.Shutdown`, `t.queue.ShutDown()`; the
second, `<-t.workerDone`, waits until `workerDone` is closed. -/
def TaskQueue.shutDownQueue {σ : Type} (t : TaskQueue σ) : TaskQueue σ :=
  { t with queue := t.queue.ShutDown }

/-- The workers of one task queue, run concurrently: the work queue, whose
methods are atomic, the keys on which a call of the sync function is in flight
(`running`, one entry per busy worker) and the keys of all sync calls started
so far, in the order they started (`invoked`). -/
structure Pool where
  queue : WorkQueue := {}
  running : List String := []
  invoked : List String := []
  deriving DecidableEq, Repr

/-- The atomic steps of the event handlers, the workers and the queue. `Pull`
is the first half of `processNextWorkItem` (a worker calls `queue.Get()` and,
handed a key, calls the sync function on it); `Finish key failed` is its second
half (the sync call on `key` returns, with an error when `failed`, and the
worker calls `AddRateLimited` or `Forget`, then `Done`). -/
inductive Action where
  | Add (key : String)
  | Pull
  | Finish (key : String) (failed : Bool)
  | Elapse (key : String)
  | ShutDown
  deriving DecidableEq, Repr

/-- One step of the pool. A step that cannot happen in the state (a worker
blocked in `Get`, a sync call that is not in flight) leaves it unchanged. -/
def Pool.step (s : Pool) : Action → Pool
  | .Add key => { s with queue := s.queue.Add key }
  | .Pull =>
    match s.queue.Get with
    | some ((some key, false), q1) =>
      { queue := q1, running := s.running ++ [key], invoked := s.invoked ++ [key] }
    | _ => s
  | .Finish key failed =>
    if key ∈ s.running then
      { s with
        queue := (if failed then s.queue.AddRateLimited key else s.queue.Forget key).Done key
        running := s.running.erase key }
    else s
  | .Elapse key => { s with queue := s.queue.Elapse key }
  | .ShutDown => { s with queue := s.queue.ShutDown }

/-- The steps `acts` taken one after the other: an interleaving. -/
def Pool.run (s : Pool) (acts : List Action) : Pool :=
  acts.foldl Pool.step s

/-- What holds of the queue in every state the pool reaches: no key is twice in
flight, pending or marked; a pending key is marked and is not in flight. -/
structure WorkQueue.Inv (q : WorkQueue) : Prop where
  processing_nodup : q.processing.Nodup
  queue_nodup : q.queue.Nodup
  dirty_nodup : q.dirty.Nodup
  queue_dirty : ∀ k ∈ q.queue, k ∈ q.dirty
  queue_not_processing : ∀ k ∈ q.queue, k ∉ q.processing

/-- The number of deliveries the queue owes the key `k`: one if the key is
marked (pending, or added again while in flight), none otherwise. -/
def WorkQueue.owed (q : WorkQueue) (k : String) : Nat :=
  if k ∈ q.dirty then 1 else 0

/-- The pool of a new task queue after the key `acme` was added and handed to
a worker: a sync call on `acme` is in flight. -/
def inFlightPool : Pool :=
  Pool.run {} [Action.Add "acme", Action.Pull]

/-- A task queue whose sync function counts its calls and returns nil. -/
def countingQueue : TaskQueue Nat :=
  NewTaskQueue (fun _ calls => .ok (none, calls + 1))

/-! ## Tunnel-config rendering (`pkg/handlers/handlers.go`, `pkg/httputil/util.go`) -/

/-- The type `api.FprcHTTP`. -/
structure FprcHTTP where
  Section : String := ""
  «Type» : String := ""
  LocalIP : String := ""
  LocalPort : Int := 0
  UseEncryption : Bool := false
  UseCompression : Bool := false
  CustomDomains : String := ""
  Locations : String := ""
  HostHeaderRewrite : String := ""
  deriving DecidableEq, Repr

/-- The type `api.FrpcCommon`. -/
structure FrpcCommon where
  ServerAddress : String := ""
  ServerPort : Int := 0
  LogLevel : String := ""
  Token : String := ""
  AdminAddress : String := ""
  AdminPort : Int := 0
  PoolCount : Int := 0
  deriving DecidableEq, Repr

/-- The type `httputil.ApiError`, with the fields that are written as JSON. -/
structure ApiError where
  StatusCode : Int := 0
  Message : String := ""
  Reason : String := ""
  deriving DecidableEq, Repr

/-- The function `httputil.HttpError`. -/
def HttpError (statusCode : Int) (reason : String) : ApiError :=
  { Reason := if reason = "" then "Unknown" else reason, StatusCode := statusCode }

/-- The method `ApiError.MessageF`, on the formatted message. -/
def ApiError.MessageF (e : ApiError) (msg : String) : ApiError :=
  { e with Message := msg }

/-- What `IngressToIni` writes to the response: either the JSON body of an
`ApiError` with its status code (`ApiError.Write`), or the ini document
(`frpcini.WriteTo`), given by the values reflected into its sections: the
tunnel sections, one per section name, in the order they were created, then
the values of `common`, reflected into the section `common` (the tunnel
section of that name when there is one). -/
inductive Response where
  | error (e : ApiError)
  | document (httpSections : List FprcHTTP) (common : FrpcCommon)
  deriving DecidableEq, Repr

/-- The type `handlers.Handler`. The field `common` is a pointer: what a
request writes through it is seen by the requests that follow. -/
structure Handler where
  ctrl : ASController
  common : FrpcCommon
  frpsAddress : String := ""
  frpsPort : Int := 0

/-- The function `handlers.New`. -/
def New (ctrl : ASController) (common : FrpcCommon) : Handler :=
  { ctrl := ctrl, common := common }

/-- The loop of `IngressToIni` over `ing.Spec.Rules` that builds
`httpSections`. -/
def httpSectionsOf (ing : Ingress) : List FprcHTTP :=
  ing.Spec.Rules.foldl (fun sections r =>
    match r.HTTP with
    | none => sections
    | some http =>
      http.Paths.foldl (fun sections p =>
        sections ++ [
          { Section := r.Host ++ p.Path
            «Type» := if p.Backend.ServicePort.IntVal = 443 then "https" else "http"
            LocalIP := p.Backend.ServiceName ++ "." ++ ing.ObjectMeta.Namespace ++
              ".svc.cluster.local"
            LocalPort := p.Backend.ServicePort.IntVal
            Locations := p.Path
            CustomDomains := r.Host }]) sections) []

/-- What the library call `ReflectFrom` leaves in a section that holds the
values `old` when `new` is reflected into it: every key is overwritten, except
that a key tagged `omitempty` (`use_encryption`, `use_compression`,
`locations`, `host_header_rewrite`) keeps its value when the new one is empty. -/
def reflectOver (old new : FprcHTTP) : FprcHTTP :=
  { new with
    UseEncryption := new.UseEncryption || old.UseEncryption
    UseCompression := new.UseCompression || old.UseCompression
    Locations := if new.Locations = "" then old.Locations else new.Locations
    HostHeaderRewrite :=
      if new.HostHeaderRewrite = "" then old.HostHeaderRewrite else new.HostHeaderRewrite }

/-- The tunnel sections of the ini file after the loop of `IngressToIni` over
`httpSections`: the library call `frpcini.NewSection` returns the section that
already has the name, so two entries with one section name end in one section,
at the place of the first, holding what `ReflectFrom` leaves of both. -/
def iniSections (httpSections : List FprcHTTP) : List FprcHTTP :=
  httpSections.foldl (fun file s =>
    if file.any (fun x => x.Section = s.Section) then
      file.map (fun x => if x.Section = s.Section then reflectOver x s else x)
    else file ++ [s]) []

/-- The part of `IngressToIni` after the ingress lookup; `ing` is nil (`none`)
when the lookup failed with an error other than not-found. The library call
`frpcini.NewSection` fails on the empty section name only, and `ReflectFrom`
does not fail on the structs `FprcHTTP` and `FrpcCommon`. The result is what is
written to the response, or the panic of the handler, together with the
handler after the request. -/
def renderIni (h : Handler) (ing : Option Ingress) («namespace» : String) :
    Except Fault Response × Handler :=
  match h.ctrl.NamespaceLister «namespace» with
  | .error err =>
    (.ok (.error ((HttpError 400 "FetchNamespaceErr").MessageF
      ("Failed fetching for namespace " ++ «namespace».quote ++ ": " ++ err.Message))), h)
  | .ok ns =>
    let tenant : String :=
      if ns.ObjectMeta.Labels ≠ none then ns.ObjectMeta.Labels.get "allspark.sh/tenant" else ""
    if tenant = "" then
      (.ok (.error ((HttpError 400 "TenantNotFound").MessageF
        "This namespace doesn\x27t have a tenant")), h)
    else
      match h.ctrl.ServiceLister h.ctrl.POD_NAMESPACE tenant with
      | .error err =>
        (.ok (.error ((HttpError 400 "FetchServiceErr").MessageF
          ("Failed fetching frps service: " ++ err.Message))), h)
      | .ok svc =>
        let serverPort : Int := svc.Spec.Ports.foldl
          (fun current port => if port.Name = "frps" then port.Port else current)
          h.common.ServerPort
        let h1 : Handler := { h with common := { h.common with ServerPort := serverPort } }
        if h1.common.ServerPort = 0 then
          (.ok (.error ((HttpError 400 "PortNotFound").MessageF
            ("Failed finding FRPS port for service " ++ svc.ObjectMeta.Name.quote))), h1)
        else
          match ing with
          | none => (.error Fault.nilDereference, h1)
          | some ing =>
            let httpSections := httpSectionsOf ing
            if httpSections.any (fun s => s.Section = "") then
              (.ok (.error ((HttpError 500 "InvalidIngressSectionErr").MessageF
                "Invalid section: error: empty section name")), h1)
            else (.ok (.document (iniSections httpSections) h1.common), h1)

/-- The method `Handler.IngressToIni`, on the route parameters `namespace` and
`name` of the request. -/
def IngressToIni (h : Handler) («namespace» ingressName : String) :
    Except Fault Response × Handler :=
  match h.ctrl.IngressLister «namespace» ingressName with
  | .error err =>
    if IsNotFound (some err) then
      (.ok (.error ((HttpError 400 "IngressNotFound").MessageF
        ("ingress \x27" ++ «namespace» ++ "/" ++ ingressName ++
          "\x27 in work queue no longer exists"))), h)
    else renderIni h none «namespace»
  | .ok ing => renderIni h (some ing) «namespace»

/-- The requests `requests` (route parameters `namespace` and `name`) served
one after the other by the handler `h`: what each one wrote or how it
panicked, and the handler after the last one. -/
def serve (h : Handler) : List (String × String) → List (Except Fault Response) × Handler
  | [] => ([], h)
  | («namespace», name) :: rest =>
    let (r, h1) := IngressToIni h «namespace» name
    let (rs, h2) := serve h1 rest
    (r :: rs, h2)

/-- The namespace `beta`, labelled with the tenant `beta-co`. -/
def betaNamespace : Namespace :=
  { ObjectMeta := { Name := "beta", UID := "uid-beta",
                    Labels := some [("allspark.sh/tenant", "beta-co")] } }

/-- The ingress `web` of namespace `beta`, with one rule for `web.beta.test`. -/
def webIngress : Ingress :=
  { ObjectMeta := { Name := "web", Namespace := "beta", UID := "uid-web",
                    Annotations := some [("kubernetes.io/ingress.class", "frp")] }
    Spec := { Rules := [
      { Host := "web.beta.test"
        HTTP := some { Paths := [
          { Path := "/", Backend := { ServiceName := "web", ServicePort := { IntVal := 80 } } }] } }] } }

/-- The broker service of the tenant `acme-co`, as `newFRPSService` builds it
with the ports 20001, 20002 and 20003. -/
def acmeBroker : Service :=
  newFRPSService "allspark" acmeNamespace "acme-co" "10.0.0.5" 20001 20002 20003

/-- A service named `beta-co` that has no port named `frps`. -/
def betaBroker : Service :=
  { ObjectMeta := { Name := "beta-co", Namespace := "allspark" }
    Spec := { Ports := [{ Name := "http", Protocol := "TCP", Port := 20005, TargetPort := "http" }] } }

/-- A controller in namespace `allspark` whose caches hold the namespaces
`acme` and `beta`, the ingresses `acme/shop` and `beta/web` and the services
`acme-co` and `beta-co`. -/
def tunnelController : ASController :=
  { shopController with
    NamespaceLister := fun key =>
      if key = "acme" then .ok acmeNamespace
      else if key = "beta" then .ok betaNamespace
      else .error ⟨StatusReason.NotFound, "namespace " ++ key.quote ++ " not found"⟩
    IngressLister := fun ns name =>
      if ns = "acme" ∧ name = "shop" then .ok shopIngress
      else if ns = "beta" ∧ name = "web" then .ok webIngress
      else .error ⟨StatusReason.NotFound, "ingress " ++ name.quote ++ " not found"⟩
    ServiceLister := fun ns name =>
      if ns = "allspark" ∧ name = "acme-co" then .ok acmeBroker
      else if ns = "allspark" ∧ name = "beta-co" then .ok betaBroker
      else .error ⟨StatusReason.NotFound, "service " ++ name.quote ++ " not found"⟩ }

/-- The handler as `cmd/allspark` builds it, for the server address
`frps.example.test`. -/
def tunnelHandler : Handler :=
  New tunnelController
    { AdminAddress := "0.0.0.0", AdminPort := 7400, ServerAddress := "frps.example.test" }

/-! ## Lemmas on the allocator -/

theorem tableOf_of_store {b : PortBucket} {ip : String} {t : Table}
    (h : b.store ip = some t) : tableOf b ip = t := by
  simp [tableOf, h]

theorem store_of_tableOf {b : PortBucket} {ip : String} {p : Int} {v : Bool}
    (h : tableOf b ip p = some v) : ∃ t, b.store ip = some t ∧ tableOf b ip = t := by
  unfold tableOf at h ⊢
  cases hs : b.store ip with
  | none => simp [hs, emptyTable] at h
  | some t => exact ⟨t, rfl, rfl⟩

theorem tableOf_none {b : PortBucket} {ip : String} (h : b.store ip = none) (p : Int) :
    tableOf b ip p = none := by
  simp [tableOf, h, emptyTable]

theorem tableOf_setTable_same (b : PortBucket) (ip : String) (t : Table) :
    tableOf (setTable b ip t) ip = t := by
  simp [tableOf, setTable]

theorem tableOf_setTable_other (b : PortBucket) {ip k : String} (t : Table) (h : k ≠ ip) :
    tableOf (setTable b ip t) k = tableOf b k := by
  simp [tableOf, setTable, h]

theorem popLoop_spec (b : PortBucket) (ip : String) (order : List Int) :
    (popLoop b ip order = .ok (0, b) ∧ ∀ p ∈ order, ¬ cand (tableOf b ip) p) ∨
    (∃ pre r post, order = pre ++ r :: post ∧ (∀ p ∈ pre, ¬ cand (tableOf b ip) p) ∧
      cand (tableOf b ip) r ∧
      popLoop b ip order = .ok (r, setTable b ip ((tableOf b ip).set r false))) := by
  induction order with
  | nil => left; simp [popLoop]
  | cons port rest ih =>
    by_cases hc : cand (tableOf b ip) port
    · right
      refine ⟨[], port, rest, rfl, by simp, hc, ?_⟩
      obtain ⟨t, hs, ht⟩ := store_of_tableOf hc.2.2
      have h1 : port ≥ 20000 ∧ port ≤ 21000 ∧ true = true := ⟨hc.1, hc.2.1, rfl⟩
      simp only [popLoop, hc.2.2, h1, assignEntry, hs, ht]
      simp
    · have hstep : popLoop b ip (port :: rest) = popLoop b ip rest := by
        unfold cand at hc
        cases hv : tableOf b ip port with
        | none => simp [popLoop, hv]
        | some free =>
          have : ¬ (port ≥ 20000 ∧ port ≤ 21000 ∧ free = true) := by
            intro h
            apply hc
            refine ⟨h.1, h.2.1, ?_⟩
            rw [hv, h.2.2]
          simp only [popLoop, hv, this, if_false]
      rcases ih with ⟨h0, hn⟩ | ⟨pre, r, post, he, hpre, hr, hp⟩
      · left
        refine ⟨by rw [hstep, h0], ?_⟩
        intro p hp
        rcases List.mem_cons.1 hp with rfl | hp
        · exact hc
        · exact hn p hp
      · right
        refine ⟨port :: pre, r, post, by simp [he], ?_, hr, by rw [hstep, hp]⟩
        intro p hp
        rcases List.mem_cons.1 hp with rfl | hp
        · exact hc
        · exact hpre p hp

theorem sampleBucket_order :
    IsRangeOrder [20002, 20001, 20000] (tableOf sampleBucket "10.0.0.5") := by
  refine ⟨by decide, ?_⟩
  intro p
  simp only [tableOf, sampleBucket, if_true, Option.getD_some, List.mem_cons,
    List.mem_singleton, List.not_mem_nil, or_false]
  by_cases h0 : p = 20000
  · subst h0; simp
  · by_cases h1 : p = 20001
    · subst h1; simp
    · by_cases h2 : p = 20002
      · subst h2; simp
      · simp [h0, h1, h2]

theorem Pop_total (order : List Int) (b : PortBucket) (ip : String) :
    (Pop order b ip = .ok (0, b) ∧ ∀ p ∈ order, ¬ cand (tableOf b ip) p) ∨
    (∃ r, r ∈ order ∧ cand (tableOf b ip) r ∧
      Pop order b ip = .ok (r, setTable b ip ((tableOf b ip).set r false))) := by
  rcases popLoop_spec b ip order with h | ⟨pre, r, post, he, _, hr, hp⟩
  · exact Or.inl h
  · exact Or.inr ⟨r, by simp [he], hr, hp⟩

theorem PortBucket.eq_of_fields {a b : PortBucket} (h1 : a.serviceLister = b.serviceLister)
    (h2 : a.«namespace» = b.«namespace») (h3 : ∀ k, a.store k = b.store k) : a = b := by
  cases a; cases b
  simp only at h1 h2 h3
  have := funext h3
  subst h1 h2 this
  rfl

theorem setTable_setTable (b : PortBucket) (ip : String) (t t1 : Table) :
    setTable (setTable b ip t) ip t1 = setTable b ip t1 := by
  apply PortBucket.eq_of_fields
  · rfl
  · rfl
  · intro k
    by_cases hk : k = ip <;> simp [setTable, hk]

theorem setTable_self {b : PortBucket} {ip : String} {t : Table} (h : b.store ip = some t) :
    setTable b ip t = b := by
  apply PortBucket.eq_of_fields
  · rfl
  · rfl
  · intro k
    by_cases hk : k = ip
    · subst hk; simp [setTable, h]
    · simp [setTable, hk]

theorem assignEntry_of_store {b : PortBucket} {ip : String} {t : Table}
    (h : b.store ip = some t) (port : Int) (v : Bool) :
    assignEntry b ip port v = .ok (setTable b ip (t.set port v)) := by
  simp [assignEntry, h]

theorem assignEntry_of_none {b : PortBucket} {ip : String}
    (h : b.store ip = none) (port : Int) (v : Bool) :
    assignEntry b ip port v = .error .nilMapAssign := by
  simp [assignEntry, h]

/-- The fill loop of `Reload` never faults on an IP that has a table, and sets
the keys `0 .. n-1` to available. -/
theorem fillFree_spec (b : PortBucket) (ip : String) (t0 : Table)
    (hs : b.store ip = some t0) (n : Nat) :
    fillFree b ip n
      = .ok (setTable b ip (fun q => if 0 ≤ q ∧ q < (n : Int) then some true else t0 q)) := by
  induction n with
  | zero =>
    have : (fun q : Int => if 0 ≤ q ∧ q < ((0 : Nat) : Int) then some true else t0 q) = t0 := by
      funext q
      have : ¬ (0 ≤ q ∧ q < ((0 : Nat) : Int)) := by omega
      simp [this]
    rw [this, setTable_self hs]
    rfl
  | succ n ih =>
    unfold fillFree at ih ⊢
    rw [List.range_succ, List.foldlM_append, ih]
    simp only [List.foldlM_cons, List.foldlM_nil, bind, Except.bind, pure, Except.pure]
    rw [assignEntry_of_store (t := fun q => if 0 ≤ q ∧ q < (n : Int) then some true else t0 q)
      (by simp [setTable])]
    rw [setTable_setTable]
    show (Except.ok _ : Except Fault PortBucket) = Except.ok _
    congr 2
    funext q
    simp only [Table.set, Int.ofNat_eq_coe, Nat.cast_add, Nat.cast_one]
    split_ifs <;> first | rfl | (exfalso; omega)

theorem Marked.refl (b : PortBucket) : Marked b b (fun _ _ => False) :=
  ⟨rfl, rfl, fun _ => rfl, fun _ _ => ⟨fun h => h.elim, fun _ => rfl⟩⟩

theorem Marked.trans {b b1 b2 : PortBucket} {D1 D2 : String → Int → Prop}
    (h1 : Marked b b1 D1) (h2 : Marked b1 b2 D2) :
    Marked b b2 (fun k q => D1 k q ∨ D2 k q) := by
  obtain ⟨a1, a2, a3, a4⟩ := h1
  obtain ⟨c1, c2, c3, c4⟩ := h2
  refine ⟨c1.trans a1, c2.trans a2, fun k => (c3 k).trans (a3 k), fun k q => ⟨?_, ?_⟩⟩
  · intro h
    by_cases hd : D2 k q
    · exact (c4 k q).1 hd
    · rw [(c4 k q).2 hd]
      rcases h with h | h
      · exact (a4 k q).1 h
      · exact absurd h hd
  · intro h
    rw [(c4 k q).2 (fun hd => h (Or.inr hd)), (a4 k q).2 (fun hd => h (Or.inl hd))]

theorem Marked.congr_pred {b b1 : PortBucket} {D1 D2 : String → Int → Prop}
    (h : Marked b b1 D1) (hD : ∀ k q, D1 k q ↔ D2 k q) : Marked b b1 D2 := by
  obtain ⟨a1, a2, a3, a4⟩ := h
  exact ⟨a1, a2, a3, fun k q =>
    ⟨fun hd => (a4 k q).1 ((hD k q).2 hd), fun hd => (a4 k q).2 (fun h1 => hd ((hD k q).1 h1))⟩⟩

theorem assignEntry_marked {b b1 : PortBucket} {e : String} {port : Int}
    (h : assignEntry b e port false = .ok b1) :
    Marked b b1 (fun k q => k = e ∧ q = port) := by
  unfold assignEntry at h
  cases hs : b.store e with
  | none => simp [hs] at h
  | some t =>
    simp only [hs, Except.ok.injEq] at h
    subst h
    refine ⟨rfl, rfl, ?_, ?_⟩
    · intro k
      by_cases hk : k = e
      · subst hk; simp [setTable, hs]
      · simp [setTable, hk]
    · intro k q
      by_cases hk : k = e
      · subst hk
        rw [tableOf_setTable_same, tableOf_of_store hs]
        by_cases hq : q = port <;> simp [Table.set, hq]
      · rw [tableOf_setTable_other _ _ hk]
        simp [hk]

theorem markPorts_marked (e : String) :
    ∀ (ports : List ServicePort) (b b1 : PortBucket), markPorts b e ports = .ok b1 →
      Marked b b1 (fun k q => k = e ∧ ∃ p ∈ ports, p.Port = q) := by
  intro ports
  induction ports with
  | nil =>
    intro b b1 h
    simp only [markPorts, Except.ok.injEq] at h
    subst h
    exact (Marked.refl b).congr_pred (by simp)
  | cons p ps ih =>
    intro b b1 h
    unfold markPorts at h
    cases ha : assignEntry b e p.Port false with
    | error f => simp [ha] at h
    | ok b2 =>
      simp only [ha] at h
      refine ((assignEntry_marked ha).trans (ih b2 b1 h)).congr_pred ?_
      intro k q
      constructor
      · rintro (⟨hk, hq⟩ | ⟨hk, p1, hp1, hq⟩)
        · exact ⟨hk, p, List.mem_cons_self _ _, hq.symm⟩
        · exact ⟨hk, p1, List.mem_cons_of_mem _ hp1, hq⟩
      · rintro ⟨hk, p1, hp1, hq⟩
        rcases List.mem_cons.1 hp1 with rfl | hp1
        · exact Or.inl ⟨hk, hq.symm⟩
        · exact Or.inr ⟨hk, p1, hp1, hq⟩

theorem markExternalIPs_marked (ports : List ServicePort) :
    ∀ (ips : List String) (b b1 : PortBucket), markExternalIPs b ports ips = .ok b1 →
      Marked b b1 (fun k q => k ∈ ips ∧ ∃ p ∈ ports, p.Port = q) := by
  intro ips
  induction ips with
  | nil =>
    intro b b1 h
    simp only [markExternalIPs, Except.ok.injEq] at h
    subst h
    exact (Marked.refl b).congr_pred (by simp)
  | cons e rest ih =>
    intro b b1 h
    unfold markExternalIPs at h
    cases ha : markPorts b e ports with
    | error f => simp [ha] at h
    | ok b2 =>
      simp only [ha] at h
      refine ((markPorts_marked e ports b b2 ha).trans (ih b2 b1 h)).congr_pred ?_
      intro k q
      constructor
      · rintro (⟨hk, hq⟩ | ⟨hk, hq⟩)
        · exact ⟨hk ▸ List.mem_cons_self _ _, hq⟩
        · exact ⟨List.mem_cons_of_mem _ hk, hq⟩
      · rintro ⟨hk, hq⟩
        rcases List.mem_cons.1 hk with rfl | hk
        · exact Or.inl ⟨rfl, hq⟩
        · exact Or.inr ⟨hk, hq⟩

theorem markServices_marked :
    ∀ (services : List Service) (b b1 : PortBucket), markServices b services = .ok b1 →
      Marked b b1 (fun k q => declared services k q) := by
  intro services
  induction services with
  | nil =>
    intro b b1 h
    simp only [markServices, Except.ok.injEq] at h
    subst h
    exact (Marked.refl b).congr_pred (by simp [declared])
  | cons svc rest ih =>
    intro b b1 h
    unfold markServices at h
    cases ha : markExternalIPs b svc.Spec.Ports svc.Spec.ExternalIPs with
    | error f => simp [ha] at h
    | ok b2 =>
      simp only [ha] at h
      refine ((markExternalIPs_marked _ _ b b2 ha).trans (ih b2 b1 h)).congr_pred ?_
      intro k q
      simp only [declared, List.mem_cons, exists_eq_or_imp]

theorem markPorts_ok_iff (e : String) :
    ∀ (ports : List ServicePort) (b : PortBucket),
      (∃ b1, markPorts b e ports = .ok b1) ↔ (ports = [] ∨ (b.store e).isSome = true) := by
  intro ports
  induction ports with
  | nil => intro b; simp [markPorts]
  | cons p ps ih =>
    intro b
    unfold markPorts
    cases hs : b.store e with
    | none => simp [assignEntry_of_none hs]
    | some t =>
      rw [assignEntry_of_store hs]
      simp only [ih, reduceCtorEq, false_or, Option.isSome_some, iff_true]
      right
      simp [setTable]

theorem Marked.isSome_eq {b b1 : PortBucket} {D : String → Int → Prop} (h : Marked b b1 D)
    (k : String) : (b1.store k).isSome = (b.store k).isSome :=
  h.2.2.1 k

theorem markExternalIPs_ok_iff (ports : List ServicePort) :
    ∀ (ips : List String) (b : PortBucket),
      (∃ b1, markExternalIPs b ports ips = .ok b1) ↔
        (ports = [] ∨ ∀ e ∈ ips, (b.store e).isSome = true) := by
  intro ips
  induction ips with
  | nil => intro b; simp [markExternalIPs]
  | cons e rest ih =>
    intro b
    unfold markExternalIPs
    cases ha : markPorts b e ports with
    | error f =>
      have hno : ¬ (ports = [] ∨ (b.store e).isSome = true) := by
        intro h
        obtain ⟨b1, hb1⟩ := (markPorts_ok_iff e ports b).2 h
        rw [ha] at hb1
        cases hb1
      simp only [reduceCtorEq, exists_false, false_iff]
      rintro (h | h)
      · exact hno (Or.inl h)
      · exact hno (Or.inr (h e (List.mem_cons_self _ _)))
    | ok b2 =>
      have hyes := (markPorts_ok_iff e ports b).1 ⟨b2, ha⟩
      have hsome := (markPorts_marked e ports b b2 ha).isSome_eq
      simp only [ih, hsome, List.mem_cons, forall_eq_or_imp]
      constructor
      · rintro (h | h)
        · exact Or.inl h
        · rcases hyes with h1 | h1
          · exact Or.inl h1
          · exact Or.inr ⟨h1, h⟩
      · rintro (h | h)
        · exact Or.inl h
        · exact Or.inr h.2

theorem Seeded_of_isSome_eq {b b1 : PortBucket} (h : ∀ k, (b1.store k).isSome = (b.store k).isSome)
    (services : List Service) : Seeded b1 services ↔ Seeded b services := by
  unfold Seeded
  simp only [h]

theorem markServices_ok_iff :
    ∀ (services : List Service) (b : PortBucket),
      (∃ b1, markServices b services = .ok b1) ↔ Seeded b services := by
  intro services
  induction services with
  | nil => intro b; simp [markServices, Seeded]
  | cons svc rest ih =>
    intro b
    have hsplit : Seeded b (svc :: rest) ↔
        ((svc.Spec.Ports = [] ∨ ∀ e ∈ svc.Spec.ExternalIPs, (b.store e).isSome = true) ∧
          Seeded b rest) := by
      unfold Seeded
      simp only [List.mem_cons, forall_eq_or_imp]
      constructor
      · rintro ⟨h1, h2⟩
        refine ⟨?_, h2⟩
        by_cases hp : svc.Spec.Ports = []
        · exact Or.inl hp
        · exact Or.inr (h1 hp)
      · rintro ⟨h1, h2⟩
        refine ⟨fun hp => ?_, h2⟩
        rcases h1 with h1 | h1
        · exact absurd h1 hp
        · exact h1
    rw [hsplit]
    unfold markServices
    cases ha : markExternalIPs b svc.Spec.Ports svc.Spec.ExternalIPs with
    | error f =>
      have hno := (markExternalIPs_ok_iff svc.Spec.Ports svc.Spec.ExternalIPs b).not.1
        (by rw [ha]; simp)
      simp [hno]
    | ok b2 =>
      have hyes := (markExternalIPs_ok_iff svc.Spec.Ports svc.Spec.ExternalIPs b).1 ⟨b2, ha⟩
      have hsome := (markExternalIPs_marked _ _ b b2 ha).isSome_eq
      simp only [ih, Seeded_of_isSome_eq hsome, hyes, true_and]

theorem fillFree_fresh (b : PortBucket) (ip : String) :
    fillFree (setTable b ip emptyTable) ip 65536 = .ok (setTable b ip freshTable) := by
  rw [fillFree_spec (setTable b ip emptyTable) ip emptyTable (by simp [setTable]) 65536,
    setTable_setTable]
  rfl

theorem Reload_eq (b : PortBucket) (services : List Service)
    (hl : b.serviceLister = .ok services) (ip : String) :
    Reload b ip =
      match markServices (setTable b ip freshTable) services with
      | .error f => .error f
      | .ok b2 => .ok (none, b2) := by
  unfold Reload
  rw [hl]
  simp only [fillFree_fresh]

/-- On a successful listing `Reload` returns nil exactly when every external
IP of a port-declaring listed service has a table once `ip` has been given
one; otherwise it faults. -/
theorem Reload_ok_iff {b : PortBucket} {services : List Service}
    (hl : b.serviceLister = .ok services) (ip : String) :
    (∃ b1, Reload b ip = .ok (none, b1)) ↔ Seeded (setTable b ip freshTable) services := by
  rw [Reload_eq b services hl, ← markServices_ok_iff]
  cases markServices (setTable b ip freshTable) services <;> simp

theorem Reload_marked {b b1 : PortBucket} {services : List Service} {ip : String}
    (hl : b.serviceLister = .ok services) (h : Reload b ip = .ok (none, b1)) :
    Marked (setTable b ip freshTable) b1 (fun k q => declared services k q) := by
  rw [Reload_eq b services hl] at h
  cases ha : markServices (setTable b ip freshTable) services with
  | error f => simp [ha] at h
  | ok b2 =>
    simp only [ha, Except.ok.injEq, Prod.mk.injEq, true_and] at h
    subst h
    exact markServices_marked _ _ _ ha

/-- After a successful `Reload(ip)` the table of `ip` exists and is determined
by the service list alone. -/
theorem Reload_table {b b1 : PortBucket} {services : List Service} {ip : String}
    (hl : b.serviceLister = .ok services) (h : Reload b ip = .ok (none, b1)) :
    b1.store ip = some (fun q => if declared services ip q then some false else freshTable q) := by
  obtain ⟨_, _, hsome, htab⟩ := Reload_marked hl h
  have h1 : (b1.store ip).isSome = true := by
    rw [hsome ip]; simp [setTable]
  obtain ⟨t, ht⟩ := Option.isSome_iff_exists.1 h1
  rw [ht]
  congr 1
  funext q
  have := htab ip q
  rw [tableOf_of_store ht, tableOf_setTable_same] at this
  by_cases hd : declared services ip q
  · rw [if_pos hd]; exact this.1 hd
  · rw [if_neg hd]; exact this.2 hd

theorem Reload_boundService :
    Reload (NewPortBucket (.ok [boundService])) "10.0.0.5"
      = .ok (none, setTable (setTable (NewPortBucket (.ok [boundService])) "10.0.0.5" freshTable)
          "10.0.0.5" (freshTable.set 20000 false)) := by
  rw [Reload_eq _ [boundService] rfl]
  rfl

/-- A duplicate-free list of available ports of [20000, 21000] is no longer
than the number of such ports. -/
theorem length_le_freeCount (t : Table) (new : List Int) (hnd : new.Nodup)
    (hc : ∀ p ∈ new, cand t p) : new.length ≤ freeCount t := by
  rw [← List.toFinset_card_of_nodup hnd]
  unfold freeCount
  apply Finset.card_le_card_of_injOn (fun p => (p - 20000).toNat)
  · intro p hp
    have hcp := hc p (List.mem_toFinset.1 hp)
    obtain ⟨h1, h2, h3⟩ := hcp
    simp only [freeSet, Finset.mem_filter, Finset.mem_range]
    refine ⟨by omega, ?_⟩
    have : (20000 : Int) + (((p - 20000).toNat : Nat) : Int) = p := by omega
    rw [this]; exact h3
  · intro p hp q hq hpq
    have h1 := (hc p (List.mem_toFinset.1 hp)).1
    have h2 := (hc q (List.mem_toFinset.1 hq)).1
    simp only at hpq
    omega

/-- A list containing every available port of [20000, 21000] is at least as
long as the number of such ports. -/
theorem freeCount_le_length (t : Table) (new : List Int)
    (hc : ∀ p, cand t p → p ∈ new) : freeCount t ≤ new.length := by
  refine le_trans ?_ (List.toFinset_card_le new)
  unfold freeCount
  apply Finset.card_le_card_of_injOn (fun i : Nat => (20000 : Int) + (i : Int))
  · intro i hi
    simp only [freeSet, Finset.mem_filter, Finset.mem_range] at hi
    exact List.mem_toFinset.2 (hc _ ⟨by omega, by omega, hi.2⟩)
  · intro i _ j _ hij
    simp only at hij
    omega

theorem popManyLoop_spec (orders : Nat → List Int) (ip : String) :
    ∀ (k i : Nat) (b : PortBucket) (acc : Option (List Int)),
    ∃ res b' new, popManyLoop orders ip i k b acc = .ok (res, b') ∧
      new.Nodup ∧ (∀ p ∈ new, cand (tableOf b ip) p) ∧
      (∀ q, tableOf b' ip q = if q ∈ new then some false else tableOf b ip q) ∧
      (∀ j, j ≠ ip → b'.store j = b.store j) ∧
      b'.serviceLister = b.serviceLister ∧
      new.length ≤ k ∧
      (new.length = k → res = if k = 0 then acc else some (acc.getD [] ++ new)) ∧
      (new.length < k → res = none ∧
        ∀ p ∈ orders (i + new.length), ¬ cand (tableOf b' ip) p) := by
  intro k
  induction k with
  | zero =>
    intro i b acc
    exact ⟨acc, b, [], rfl, List.nodup_nil, by simp, by simp, fun _ _ => rfl, rfl,
      le_refl _, by simp, by simp⟩
  | succ k ih =>
    intro i b acc
    rcases Pop_total (orders i) b ip with ⟨h0, hn⟩ | ⟨r, _, hr, hp⟩
    · refine ⟨none, b, [], ?_, List.nodup_nil, by simp, by simp, fun _ _ => rfl, rfl,
        by simp, by simp, ?_⟩
      · simp [popManyLoop, h0]
      · intro _
        exact ⟨rfl, by simpa using hn⟩
    · have hr0 : r ≠ 0 := by
        have := hr.1
        omega
      obtain ⟨res, b', new, hrun, hnd, hcand, htab, hoth, hlis, hlen, hfull, hshort⟩ :=
        ih (i + 1) (setTable b ip ((tableOf b ip).set r false)) (goAppend acc r)
      have ht1 : ∀ q, tableOf (setTable b ip ((tableOf b ip).set r false)) ip q
          = if q = r then some false else tableOf b ip q := by
        intro q
        rw [tableOf_setTable_same]
        rfl
      have hrnew : r ∉ new := by
        intro hmem
        have := (hcand r hmem).2.2
        rw [ht1] at this
        simp at this
      refine ⟨res, b', r :: new, ?_, List.nodup_cons.2 ⟨hrnew, hnd⟩, ?_, ?_, ?_, ?_, ?_, ?_, ?_⟩
      · simp only [popManyLoop, hp, hr0, if_false]
        exact hrun
      · intro p hpm
        rcases List.mem_cons.1 hpm with rfl | hpm
        · exact hr
        · have hc := hcand p hpm
          have hne : p ≠ r := fun h => hrnew (h ▸ hpm)
          refine ⟨hc.1, hc.2.1, ?_⟩
          have := hc.2.2
          rw [ht1, if_neg hne] at this
          exact this
      · intro q
        rw [htab q, ht1 q]
        by_cases hq : q = r
        · subst hq; simp
        · by_cases hqn : q ∈ new <;> simp [hq, hqn]
      · intro j hj
        rw [hoth j hj]
        simp [setTable, hj]
      · rw [hlis]; rfl
      · simp only [List.length_cons]; omega
      · intro hl
        simp only [List.length_cons] at hl
        have hl' : new.length = k := by omega
        rw [hfull hl']
        cases acc <;> by_cases hk : k = 0 <;> simp [goAppend, hk]
        all_goals
          have : new = [] := List.length_eq_zero.1 (by omega)
          simp [this]
      · intro hl
        simp only [List.length_cons] at hl
        obtain ⟨h1, h2⟩ := hshort (by omega)
        refine ⟨h1, ?_⟩
        have : i + (r :: new).length = i + 1 + new.length := by
          simp only [List.length_cons]; omega
        rw [this]
        exact h2

/-- With enumeration orders of the table and at least `n ≥ 1` available ports
in [20000, 21000], `PopMany(ip, n)` succeeds with `n` distinct available ports. -/
theorem PopMany_enough (orders : Nat → List Int) (b : PortBucket) (ip : String) (n : Int)
    (horders : ∀ i, IsRangeOrder (orders i) (tableOf b ip)) (hn : 1 ≤ n)
    (hfree : n ≤ (freeCount (tableOf b ip) : Int)) :
    ∃ l b1, PopMany orders b ip n = .ok (some l, b1) ∧ (l.length : Int) = n ∧ l.Nodup ∧
      ∀ p ∈ l, cand (tableOf b ip) p := by
  obtain ⟨res, b2, new, hrun, hnd, hcand, htab, _, _, hlen, hfull, hshort⟩ :=
    popManyLoop_spec orders ip n.toNat 0 b none
  rcases Nat.lt_or_ge new.length n.toNat with hlt | hge
  · exfalso
    obtain ⟨_, hnone⟩ := hshort hlt
    have hall : ∀ p, cand (tableOf b ip) p → p ∈ new := by
      intro p hp
      by_contra hpn
      have h4 := htab p
      rw [if_neg hpn] at h4
      have hmem : p ∈ orders (0 + new.length) :=
        ((horders _).2 p).2 (by rw [hp.2.2]; rfl)
      exact hnone p hmem ⟨hp.1, hp.2.1, by rw [h4]; exact hp.2.2⟩
    have := freeCount_le_length _ new hall
    omega
  · have heq : new.length = n.toNat := le_antisymm hlen hge
    have hk : n.toNat ≠ 0 := by omega
    have hres := hfull heq
    rw [if_neg hk] at hres
    simp only [Option.getD_none, List.nil_append] at hres
    subst hres
    exact ⟨new, b2, hrun, by omega, hnd, hcand⟩

theorem freshTable_freeCount : (3 : Int) ≤ (freeCount freshTable : Int) := by
  have h := length_le_freeCount freshTable [20000, 20001, 20002] (by decide) (by
    intro p hp
    simp only [List.mem_cons, List.mem_singleton, List.not_mem_nil, or_false] at hp
    rcases hp with rfl | rfl | rfl <;> exact ⟨by decide, by decide, rfl⟩)
  simp only [List.length_cons, List.length_nil] at h
  omega

theorem ascendingOrder_isRangeOrder : IsRangeOrder ascendingOrder freshTable := by
  refine ⟨?_, ?_⟩
  · exact (List.nodup_range 65536).map (fun a b h => Int.ofNat.inj h)
  · intro p
    simp only [ascendingOrder, List.mem_map, List.mem_range, freshTable, Int.ofNat_eq_coe]
    constructor
    · rintro ⟨a, ha, rfl⟩
      have : (0 : Int) ≤ (a : Int) ∧ (a : Int) < 65536 := by omega
      simp [this]
    · intro h
      by_cases hp : 0 ≤ p ∧ p < 65536
      · exact ⟨p.toNat, by omega, by omega⟩
      · simp [hp] at h

/-! ## Lemmas on the namespace reconcile -/

theorem GetService_notFound (k : Kube) (ns name : String)
    (hup : k.Outage Verb.GetService = none)
    (habs : ∀ s ∈ k.Services, ¬ (s.ObjectMeta.Namespace = ns ∧ s.ObjectMeta.Name = name)) :
    IsNotFound (k.GetService ns name).2 = true := by
  have hfind : k.Services.find?
      (fun s => decide (s.ObjectMeta.Namespace = ns ∧ s.ObjectMeta.Name = name)) = none := by
    rw [List.find?_eq_none]
    intro s hs
    simpa using habs s hs
  unfold Kube.GetService
  simp only [hup, hfind]
  rfl

theorem GetPod_notFound (k : Kube) (ns name : String)
    (hup : k.Outage Verb.GetPod = none)
    (habs : ∀ s ∈ k.Pods, ¬ (s.ObjectMeta.Namespace = ns ∧ s.ObjectMeta.Name = name)) :
    IsNotFound (k.GetPod ns name).2 = true := by
  have hfind : k.Pods.find?
      (fun s => decide (s.ObjectMeta.Namespace = ns ∧ s.ObjectMeta.Name = name)) = none := by
    rw [List.find?_eq_none]
    intro s hs
    simpa using habs s hs
  unfold Kube.GetPod
  simp only [hup, hfind]
  rfl

theorem CreateService_ok (k : Kube) (ns : String) (svc : Service)
    (hup : k.Outage Verb.CreateService = none)
    (habs : ∀ s ∈ k.Services,
      ¬ (s.ObjectMeta.Namespace = ns ∧ s.ObjectMeta.Name = svc.ObjectMeta.Name)) :
    ∃ stored k1, k.CreateService ns svc = ((stored, none), k1) ∧
      k1.Writes = k.Writes ++ [Write.CreateService ns svc] ∧ k1.Pods = k.Pods ∧
      k1.Outage = k.Outage := by
  have hany : k.Services.any (fun s => decide (s.ObjectMeta.Namespace = ns ∧
      s.ObjectMeta.Name = svc.ObjectMeta.Name)) = false := by
    rw [List.any_eq_false]
    intro s hs
    simpa using habs s hs
  refine ⟨{ svc with ObjectMeta := { svc.ObjectMeta with Namespace := ns } },
    { k with
      Writes := k.Writes ++ [Write.CreateService ns svc]
      Services := k.Services ++
        [{ svc with ObjectMeta := { svc.ObjectMeta with Namespace := ns } }] },
    ?_, rfl, rfl, rfl⟩
  simp only [Kube.CreateService, hup, hany, Bool.false_eq_true, if_false]

theorem CreatePod_ok (k : Kube) (ns : String) (pod : Pod)
    (hup : k.Outage Verb.CreatePod = none)
    (habs : ∀ s ∈ k.Pods,
      ¬ (s.ObjectMeta.Namespace = ns ∧ s.ObjectMeta.Name = pod.ObjectMeta.Name)) :
    ∃ stored k1, k.CreatePod ns pod = ((stored, none), k1) ∧
      k1.Writes = k.Writes ++ [Write.CreatePod ns pod] := by
  have hany : k.Pods.any (fun s => decide (s.ObjectMeta.Namespace = ns ∧
      s.ObjectMeta.Name = pod.ObjectMeta.Name)) = false := by
    rw [List.any_eq_false]
    intro s hs
    simpa using habs s hs
  refine ⟨{ pod with ObjectMeta := { pod.ObjectMeta with Namespace := ns } },
    { k with
      Writes := k.Writes ++ [Write.CreatePod ns pod]
      Pods := k.Pods ++ [{ pod with ObjectMeta := { pod.ObjectMeta with Namespace := ns } }] },
    ?_, rfl⟩
  simp only [Kube.CreatePod, hup, hany, Bool.false_eq_true, if_false]

theorem syncFRPSService_creates (c : ASController) (k : Kube) (ns : Namespace)
    (tenant : String) (p0 p1 p2 : Int) (hup : ∀ v, k.Outage v = none)
    (habs : ∀ s ∈ k.Services,
      ¬ (s.ObjectMeta.Namespace = c.POD_NAMESPACE ∧ s.ObjectMeta.Name = tenant)) :
    ∃ k1, syncFRPSService c k ns tenant p0 p1 p2 = (none, k1) ∧
      k1.Writes = k.Writes ++ [Write.CreateService c.POD_NAMESPACE
        (newFRPSService c.POD_NAMESPACE ns tenant c.cfg.FRPSNodeIP p0 p1 p2)] ∧
      k1.Pods = k.Pods ∧ k1.Outage = k.Outage := by
  have hnf := GetService_notFound k c.POD_NAMESPACE tenant (hup _) habs
  obtain ⟨stored, k1, hc, hw, hp, ho⟩ := CreateService_ok k c.POD_NAMESPACE
    (newFRPSService c.POD_NAMESPACE ns tenant c.cfg.FRPSNodeIP p0 p1 p2) (hup _) habs
  refine ⟨k1, ?_, hw, hp, ho⟩
  simp only [syncFRPSService, hnf, if_true, hc]

theorem syncFRPSPod_creates (c : ASController) (k : Kube) (ns : Namespace)
    (tenant : String) (hup : ∀ v, k.Outage v = none)
    (habs : ∀ s ∈ k.Pods,
      ¬ (s.ObjectMeta.Namespace = c.POD_NAMESPACE ∧ s.ObjectMeta.Name = tenant)) :
    ∃ k1, syncFRPSPod c k ns tenant = (none, k1) ∧
      k1.Writes = k.Writes ++ [Write.CreatePod c.POD_NAMESPACE (newFRPSPod c ns tenant)] := by
  have hnf := GetPod_notFound k c.POD_NAMESPACE tenant (hup _) habs
  obtain ⟨stored, k1, hc, hw⟩ := CreatePod_ok k c.POD_NAMESPACE (newFRPSPod c ns tenant)
    (hup _) habs
  refine ⟨k1, ?_, hw⟩
  simp only [syncFRPSPod, hnf, if_true, hc]

/-! ## The claims on `Pop` -/

/-- C2: for every allocator state and IP, given an enumeration order of the
table of `ip`, `Pop` returns (without fault) either the sentinel 0 or a port of
[20000, 21000] that was marked available for `ip` before the call, and it
returns 0 exactly when no port of [20000, 21000] is marked available. -/
theorem Pop_sentinel_or_available (order : List Int) (b : PortBucket) (ip : String)
    (horder : IsRangeOrder order (tableOf b ip)) :
    ∃ r b', Pop order b ip = .ok (r, b') ∧
      (r = 0 ∨ (20000 ≤ r ∧ r ≤ 21000 ∧ tableOf b ip r = some true)) ∧
      (r = 0 ↔ ∀ p, 20000 ≤ p → p ≤ 21000 → tableOf b ip p ≠ some true) := by
  rcases Pop_total order b ip with ⟨h0, hn⟩ | ⟨r, _, hr, hp⟩
  · refine ⟨0, b, h0, Or.inl rfl, ⟨fun _ p h1 h2 h3 => ?_, fun _ => rfl⟩⟩
    have hmem : p ∈ order := (horder.2 p).2 (by simp [h3])
    exact hn p hmem ⟨h1, h2, h3⟩
  · refine ⟨r, _, hp, Or.inr hr, ⟨fun h => ?_, fun h => ?_⟩⟩
    · have := hr.1
      omega
    · exact absurd hr.2.2 (h r hr.1 hr.2.1)

theorem Pop_sentinel_or_available_witness :
    IsRangeOrder [20002, 20001, 20000] (tableOf sampleBucket "10.0.0.5") ∧
    ∃ r b', Pop [20002, 20001, 20000] sampleBucket "10.0.0.5" = .ok (r, b') ∧
      (r = 0 ∨ (20000 ≤ r ∧ r ≤ 21000 ∧ tableOf sampleBucket "10.0.0.5" r = some true)) ∧
      (r = 0 ↔ ∀ p, 20000 ≤ p → p ≤ 21000 →
        tableOf sampleBucket "10.0.0.5" p ≠ some true) :=
  ⟨sampleBucket_order, Pop_sentinel_or_available _ _ _ sampleBucket_order⟩

/-- C3, refuted as stated: in a state where ports 20000 and 20001 are both
available, `Pop` under the enumeration order 20002, 20001, 20000 returns 20001,
not the smallest available port 20000; under the ascending order it returns
20000, so the result is not a function of the allocator state alone. -/
theorem Pop_not_smallest :
    IsRangeOrder [20002, 20001, 20000] (tableOf sampleBucket "10.0.0.5") ∧
    tableOf sampleBucket "10.0.0.5" 20000 = some true ∧
    (∃ b', Pop [20002, 20001, 20000] sampleBucket "10.0.0.5" = .ok (20001, b')) ∧
    (∃ b', Pop [20000, 20001, 20002] sampleBucket "10.0.0.5" = .ok (20000, b')) :=
  ⟨sampleBucket_order, rfl, ⟨_, rfl⟩, ⟨_, rfl⟩⟩

/-- C3, amended: whenever at least one port of [20000, 21000] is available for
`ip`, `Pop` returns the first available port of [20000, 21000] in the
enumeration order of the table (every key before it in that order is not such
a port); the result is a function of the allocator state and that order. -/
theorem Pop_first_in_order (order : List Int) (b : PortBucket) (ip : String)
    (horder : IsRangeOrder order (tableOf b ip))
    (hex : ∃ p, 20000 ≤ p ∧ p ≤ 21000 ∧ tableOf b ip p = some true) :
    ∃ pre r post b', order = pre ++ r :: post ∧ Pop order b ip = .ok (r, b') ∧
      20000 ≤ r ∧ r ≤ 21000 ∧ tableOf b ip r = some true ∧
      ∀ p ∈ pre, ¬ (20000 ≤ p ∧ p ≤ 21000 ∧ tableOf b ip p = some true) := by
  rcases popLoop_spec b ip order with ⟨_, hn⟩ | ⟨pre, r, post, he, hpre, hr, hp⟩
  · obtain ⟨p, h1, h2, h3⟩ := hex
    have hmem : p ∈ order := (horder.2 p).2 (by simp [h3])
    exact absurd ⟨h1, h2, h3⟩ (hn p hmem)
  · exact ⟨pre, r, post, _, he, hp, hr.1, hr.2.1, hr.2.2, hpre⟩

theorem Pop_first_in_order_witness :
    ∃ pre r post b', [20002, 20001, 20000] = pre ++ r :: post ∧
      Pop [20002, 20001, 20000] sampleBucket "10.0.0.5" = .ok (r, b') ∧
      20000 ≤ r ∧ r ≤ 21000 ∧ tableOf sampleBucket "10.0.0.5" r = some true ∧
      ∀ p ∈ pre, ¬ (20000 ≤ p ∧ p ≤ 21000 ∧
        tableOf sampleBucket "10.0.0.5" p = some true) :=
  Pop_first_in_order _ _ _ sampleBucket_order ⟨20000, by decide, by decide, rfl⟩

/-- C6: for an IP without a table in the allocator, `Pop` returns the sentinel
0 and `PopMany` with `n ≥ 1` returns nil; both return without a runtime fault
and leave the allocator unchanged, whatever enumeration order is supplied. -/
theorem unseeded_ip_has_no_ports (b : PortBucket) (ip : String) (h : b.store ip = none) :
    (∀ order, Pop order b ip = .ok (0, b)) ∧
    ∀ (orders : Nat → List Int) (n : Int), 1 ≤ n → PopMany orders b ip n = .ok (none, b) := by
  have hpop : ∀ order, Pop order b ip = .ok (0, b) := by
    intro order
    rcases Pop_total order b ip with ⟨h0, _⟩ | ⟨r, _, hr, _⟩
    · exact h0
    · have := hr.2.2
      rw [tableOf_none h] at this
      cases this
  refine ⟨hpop, ?_⟩
  intro orders n hn
  obtain ⟨k, hk⟩ : ∃ k, n.toNat = k + 1 := ⟨n.toNat - 1, by omega⟩
  simp [PopMany, hk, popManyLoop, hpop]

theorem unseeded_ip_has_no_ports_witness :
    (NewPortBucket (.ok [])).store "10.0.0.5" = none ∧
    (∀ order, Pop order (NewPortBucket (.ok [])) "10.0.0.5" = .ok (0, NewPortBucket (.ok []))) ∧
    ∀ (orders : Nat → List Int) (n : Int), 1 ≤ n →
      PopMany orders (NewPortBucket (.ok [])) "10.0.0.5" n = .ok (none, NewPortBucket (.ok [])) :=
  ⟨rfl, unseeded_ip_has_no_ports _ _ rfl⟩

/-! ## The claims on `PopMany` -/

/-- C4: if `PopMany(ip, n)` with `n ≥ 1` reports success (a non-nil slice),
the slice has exactly `n` elements, pairwise distinct, each in [20000, 21000],
each marked available for `ip` before the call and unavailable after it. -/
theorem PopMany_success (orders : Nat → List Int) (b : PortBucket) (ip : String) (n : Int)
    (l : List Int) (b' : PortBucket) (hn : 1 ≤ n)
    (h : PopMany orders b ip n = .ok (some l, b')) :
    (l.length : Int) = n ∧ l.Nodup ∧
    ∀ p ∈ l, 20000 ≤ p ∧ p ≤ 21000 ∧ tableOf b ip p = some true ∧
      tableOf b' ip p = some false := by
  obtain ⟨res, b2, new, hrun, hnd, hcand, htab, _, _, hlen, hfull, hshort⟩ :=
    popManyLoop_spec orders ip n.toNat 0 b none
  unfold PopMany at h
  rw [hrun] at h
  injection h with h
  injection h with hres hb
  subst hb
  rcases Nat.lt_or_ge new.length n.toNat with hlt | hge
  · have := (hshort hlt).1
    rw [this] at hres
    cases hres
  · have heq : new.length = n.toNat := le_antisymm hlen hge
    have hk : n.toNat ≠ 0 := by omega
    have := hfull heq
    rw [this, if_neg hk] at hres
    simp only [Option.getD_none, List.nil_append, Option.some.injEq] at hres
    subst hres
    refine ⟨by omega, hnd, ?_⟩
    intro p hp
    obtain ⟨h1, h2, h3⟩ := hcand p hp
    refine ⟨h1, h2, h3, ?_⟩
    rw [htab p, if_pos hp]

theorem PopMany_success_witness :
    ∃ l b', PopMany (fun _ => [20002, 20001, 20000]) sampleBucket "10.0.0.5" 2
        = .ok (some l, b') ∧
      (l.length : Int) = 2 ∧ l.Nodup ∧
      ∀ p ∈ l, 20000 ≤ p ∧ p ≤ 21000 ∧ tableOf sampleBucket "10.0.0.5" p = some true ∧
        tableOf b' "10.0.0.5" p = some false :=
  ⟨_, _, rfl, PopMany_success (fun _ => [20002, 20001, 20000]) sampleBucket "10.0.0.5" 2 _ _
    (by decide) rfl⟩

theorem sampleBucket_freeCount : freeCount (tableOf sampleBucket "10.0.0.5") ≤ 2 := by
  refine freeCount_le_length _ [20000, 20001] ?_
  intro p hp
  obtain ⟨_, _, h3⟩ := hp
  simp only [tableOf, sampleBucket, if_true, Option.getD_some] at h3
  by_cases h0 : p = 20000
  · simp [h0]
  · by_cases h1 : p = 20001
    · simp [h1]
    · by_cases h2 : p = 20002 <;> simp [h0, h1, h2] at h3

/-- C5: when fewer than `n` ports of [20000, 21000] are available for `ip`,
`PopMany(ip, n)` returns nil (no partial list) without fault, and there is no
rollback: afterwards no port of [20000, 21000] is available for `ip`, every
port of the range that was available before is now marked unavailable. -/
theorem PopMany_exhausted (orders : Nat → List Int) (b : PortBucket) (ip : String) (n : Int)
    (horders : ∀ i, IsRangeOrder (orders i) (tableOf b ip))
    (hk : (freeCount (tableOf b ip) : Int) < n) :
    ∃ b', PopMany orders b ip n = .ok (none, b') ∧
      (∀ p, 20000 ≤ p → p ≤ 21000 → tableOf b' ip p ≠ some true) ∧
      (∀ p, 20000 ≤ p → p ≤ 21000 → tableOf b ip p = some true →
        tableOf b' ip p = some false) := by
  obtain ⟨res, b2, new, hrun, hnd, hcand, htab, _, _, hlen, _, hshort⟩ :=
    popManyLoop_spec orders ip n.toNat 0 b none
  have hle := length_le_freeCount _ new hnd hcand
  have hlt : new.length < n.toNat := by omega
  obtain ⟨hres, hnone⟩ := hshort hlt
  subst hres
  have hno : ∀ p, 20000 ≤ p → p ≤ 21000 → tableOf b2 ip p ≠ some true := by
    intro p h1 h2 h3
    have h4 := htab p
    by_cases hp : p ∈ new
    · rw [if_pos hp, h3] at h4
      cases h4
    · rw [if_neg hp, h3] at h4
      have hmem : p ∈ orders (0 + new.length) :=
        ((horders _).2 p).2 (by rw [← h4]; rfl)
      exact hnone p hmem ⟨h1, h2, h3⟩
  refine ⟨b2, hrun, hno, ?_⟩
  intro p h1 h2 h3
  by_cases hp : p ∈ new
  · rw [htab p, if_pos hp]
  · exfalso
    apply hno p h1 h2
    rw [htab p, if_neg hp, h3]

theorem PopMany_exhausted_witness :
    ∃ b', PopMany (fun _ => [20002, 20001, 20000]) sampleBucket "10.0.0.5" 3
        = .ok (none, b') ∧
      (∀ p, 20000 ≤ p → p ≤ 21000 → tableOf b' "10.0.0.5" p ≠ some true) ∧
      (∀ p, 20000 ≤ p → p ≤ 21000 → tableOf sampleBucket "10.0.0.5" p = some true →
        tableOf b' "10.0.0.5" p = some false) :=
  PopMany_exhausted _ _ _ _ (fun _ => sampleBucket_order)
    (by have := sampleBucket_freeCount; omega)

/-! ## The claims on `Reload` -/

/-- C1: for every IP, prior allocator state, listed services and enumeration
order, if `Reload(ip)` succeeds then the immediately following `Pop(ip)`
returns without fault, and the port it returns (a result other than the "none"
sentinel 0) is not declared by any listed service that has `ip` among its
external IPs. -/
theorem Reload_then_Pop_avoids_declared (b b1 : PortBucket) (ip : String)
    (services : List Service) (order : List Int)
    (hl : b.serviceLister = .ok services) (hr : Reload b ip = .ok (none, b1)) :
    ∃ r b2, Pop order b1 ip = .ok (r, b2) ∧
      (r ≠ 0 → ∀ svc ∈ services, ip ∈ svc.Spec.ExternalIPs →
        ∀ p ∈ svc.Spec.Ports, p.Port ≠ r) := by
  have hm := Reload_marked hl hr
  rcases Pop_total order b1 ip with ⟨h0, _⟩ | ⟨r, _, hc, hp⟩
  · exact ⟨0, b1, h0, fun h => absurd rfl h⟩
  · refine ⟨r, _, hp, ?_⟩
    intro _ svc hsvc hip p hpm hpr
    have hd : declared services ip r := ⟨svc, hsvc, hip, p, hpm, hpr⟩
    have := (hm.2.2.2 ip r).1 hd
    rw [hc.2.2] at this
    cases this

theorem Reload_then_Pop_avoids_declared_witness :
    ∃ r b2, Pop [20000, 20001]
        (setTable (setTable (NewPortBucket (.ok [boundService])) "10.0.0.5" freshTable)
          "10.0.0.5" (freshTable.set 20000 false)) "10.0.0.5" = .ok (r, b2) ∧
      (r ≠ 0 → ∀ svc ∈ [boundService], "10.0.0.5" ∈ svc.Spec.ExternalIPs →
        ∀ p ∈ svc.Spec.Ports, p.Port ≠ r) :=
  Reload_then_Pop_avoids_declared (NewPortBucket (.ok [boundService])) _ "10.0.0.5"
    [boundService] [20000, 20001] rfl Reload_boundService

/-- C7: after a successful `Reload(ip)`, whatever the allocator held before,
a port `p` of 0..65535 is marked available for `ip` exactly when no listed
service with `ip` among its external IPs declares `p`; any other allocator
with the same service list gets the same table for `ip`, and a second
`Reload(ip)` succeeds and leaves that table as it is. -/
theorem Reload_rebuilds_table (b b1 : PortBucket) (ip : String) (services : List Service)
    (hl : b.serviceLister = .ok services) (hr : Reload b ip = .ok (none, b1)) :
    (∀ p, 0 ≤ p → p ≤ 65535 →
      (tableOf b1 ip p = some true ↔
        ¬ ∃ svc ∈ services, ip ∈ svc.Spec.ExternalIPs ∧ ∃ sp ∈ svc.Spec.Ports, sp.Port = p)) ∧
    (∀ c c1 : PortBucket, c.serviceLister = .ok services → Reload c ip = .ok (none, c1) →
      c1.store ip = b1.store ip) ∧
    (∃ b2, Reload b1 ip = .ok (none, b2) ∧ b2.store ip = b1.store ip) := by
  have ht := Reload_table hl hr
  have hm := Reload_marked hl hr
  have hstable : ∀ c c1 : PortBucket, c.serviceLister = .ok services →
      Reload c ip = .ok (none, c1) → c1.store ip = b1.store ip := by
    intro c c1 hcl hcr
    rw [Reload_table hcl hcr, ht]
  refine ⟨?_, hstable, ?_⟩
  · intro p h0 h1
    rw [tableOf_of_store ht]
    change (if declared services ip p then some false else freshTable p) = some true ↔
      ¬ declared services ip p
    by_cases hd : declared services ip p
    · simp [hd]
    · have : 0 ≤ p ∧ p < 65536 := by omega
      simp [hd, freshTable, this]
  · have hl1 : b1.serviceLister = .ok services := by
      rw [hm.1]; exact hl
    have hseed : Seeded (setTable b1 ip freshTable) services := by
      have h0 := (Reload_ok_iff hl ip).1 ⟨b1, hr⟩
      refine (Seeded_of_isSome_eq ?_ services).2 h0
      intro k
      by_cases hk : k = ip
      · simp [setTable, hk]
      · have := hm.isSome_eq k
        simp only [setTable, hk, if_false] at this ⊢
        exact this
    obtain ⟨b2, hb2⟩ := (Reload_ok_iff hl1 ip).2 hseed
    exact ⟨b2, hb2, hstable b1 b2 hl1 hb2⟩

theorem Reload_rebuilds_table_witness :
    ∃ b1, Reload (NewPortBucket (.ok [boundService])) "10.0.0.5" = .ok (none, b1) ∧
      (∀ p, 0 ≤ p → p ≤ 65535 →
        (tableOf b1 "10.0.0.5" p = some true ↔
          ¬ ∃ svc ∈ [boundService], "10.0.0.5" ∈ svc.Spec.ExternalIPs ∧
            ∃ sp ∈ svc.Spec.Ports, sp.Port = p)) ∧
      (∀ c c1 : PortBucket, c.serviceLister = .ok [boundService] →
        Reload c "10.0.0.5" = .ok (none, c1) → c1.store "10.0.0.5" = b1.store "10.0.0.5") ∧
      (∃ b2, Reload b1 "10.0.0.5" = .ok (none, b2) ∧
        b2.store "10.0.0.5" = b1.store "10.0.0.5") :=
  ⟨_, Reload_boundService,
    Reload_rebuilds_table (NewPortBucket (.ok [boundService])) _ "10.0.0.5" [boundService]
      rfl Reload_boundService⟩

/-- C8, the code at the failing input: on a fresh allocator, with a successful
listing that holds one service bound to the external IP `10.0.0.6` (never
reloaded) and declaring port 80, `Reload("10.0.0.5")` does not return: it
raises the panic "assignment to entry in nil map". -/
theorem Reload_faults_on_unseeded_external_ip :
    Reload (NewPortBucket (.ok [foreignService])) "10.0.0.5" = .error .nilMapAssign := by
  rw [Reload_eq _ [foreignService] rfl]
  rfl

/-- C9: when listing the services fails, `Reload(ip)` returns an error and the
allocator (the table of `ip` and of every other IP) is exactly what it was
before the call. -/
theorem Reload_listing_failure (b : PortBucket) (ip err : String)
    (h : b.serviceLister = .error err) :
    ∃ msg, Reload b ip = .ok (some msg, b) := by
  unfold Reload
  rw [h]
  exact ⟨_, rfl⟩

theorem Reload_listing_failure_witness :
    ∃ msg, Reload { sampleBucket with serviceLister := .error "cache not synced" } "10.0.0.5"
      = .ok (some msg, { sampleBucket with serviceLister := .error "cache not synced" }) :=
  Reload_listing_failure _ "10.0.0.5" "cache not synced" rfl

/-! ## The claims on the namespace reconcile -/

/-- Namespace reconcile, create path: for a cached namespace `ns` with the
non-empty tenant label `t`, when the listing succeeds with no service bound to the node IP and
every external IP of a port-declaring listed service already has a table in
the allocator, the API server serves every call, and neither a service nor a
pod named `t` exists in the controller's namespace, `syncNamespaces` returns
nil after exactly two writes: the create of a service named `t` (three ports
frps, http, https with pairwise distinct numbers in [20000, 21000], external
IP = node IP, selector tenant = `t`, controller owner reference to `ns`) and
the create of a pod named `t` with a controller owner reference to `ns`. -/
theorem syncNamespaces_creates_service_and_pod (orders : Nat → List Int) (c : ASController)
    (k : Kube) (key t : String) (ns : Namespace) (services : List Service)
    (hns : c.NamespaceLister key = .ok ns)
    (ht : ns.ObjectMeta.Labels.get "allspark.sh/tenant" = t) (_hne : t ≠ "")
    (hl : c.portBucket.serviceLister = .ok services)
    (hbound : ∀ svc ∈ services, c.cfg.FRPSNodeIP ∉ svc.Spec.ExternalIPs)
    (hseed : Seeded c.portBucket services)
    (horders : ∀ i, IsRangeOrder (orders i) freshTable)
    (hup : ∀ v, k.Outage v = none)
    (hsvc : ∀ s ∈ k.Services,
      ¬ (s.ObjectMeta.Namespace = c.POD_NAMESPACE ∧ s.ObjectMeta.Name = t))
    (hpod : ∀ s ∈ k.Pods,
      ¬ (s.ObjectMeta.Namespace = c.POD_NAMESPACE ∧ s.ObjectMeta.Name = t)) :
    ∃ svc pod c1 k1, syncNamespaces orders c k key = .ok (none, c1, k1) ∧
      k1.Writes = k.Writes ++
        [Write.CreateService c.POD_NAMESPACE svc, Write.CreatePod c.POD_NAMESPACE pod] ∧
      svc.ObjectMeta.Name = t ∧
      svc.Spec.Ports.map (fun p => p.Name) = ["frps", "http", "https"] ∧
      (svc.Spec.Ports.map (fun p => p.Port)).Nodup ∧
      (∀ p ∈ svc.Spec.Ports, 20000 ≤ p.Port ∧ p.Port ≤ 21000) ∧
      svc.Spec.ExternalIPs = [c.cfg.FRPSNodeIP] ∧
      svc.Spec.Selector = some [("tenant", t)] ∧
      svc.ObjectMeta.OwnerReferences = [NewControllerRef ns.ObjectMeta "v1" "Namespace"] ∧
      pod.ObjectMeta.Name = t ∧
      pod.ObjectMeta.OwnerReferences = [NewControllerRef ns.ObjectMeta "v1" "Namespace"] := by
  -- the reload succeeds and leaves the fresh table for the node IP
  have hseed1 : Seeded (setTable c.portBucket c.cfg.FRPSNodeIP freshTable) services := by
    intro svc hs hp e he
    by_cases hk : e = c.cfg.FRPSNodeIP
    · simp [setTable, hk]
    · simpa [setTable, hk] using hseed svc hs hp e he
  obtain ⟨b1, hb1⟩ := (Reload_ok_iff hl c.cfg.FRPSNodeIP).2 hseed1
  have htab : tableOf b1 c.cfg.FRPSNodeIP = freshTable := by
    rw [tableOf_of_store (Reload_table hl hb1)]
    funext q
    have hnd : ¬ declared services c.cfg.FRPSNodeIP q := by
      rintro ⟨svc, hs, hip, _⟩
      exact hbound svc hs hip
    rw [if_neg hnd]
  -- three ports are available
  obtain ⟨l, b2, hpm, hlen, hnodup, hcand⟩ := PopMany_enough orders b1 c.cfg.FRPSNodeIP 3
    (by rw [htab]; exact horders) (by decide) (by rw [htab]; exact freshTable_freeCount)
  obtain ⟨p0, p1, p2, rfl⟩ : ∃ p0 p1 p2, l = [p0, p1, p2] := by
    match l, hlen with
    | [a, b, c], _ => exact ⟨a, b, c, rfl⟩
    | [], h => simp at h
    | [_], h => simp at h
    | [_, _], h => simp at h
    | _ :: _ :: _ :: _ :: _, h =>
      simp only [List.length_cons] at h
      omega
  -- both objects are absent and get created
  obtain ⟨k1, hs1, hw1, hp1, ho1⟩ := syncFRPSService_creates c k ns t p0 p1 p2 hup hsvc
  obtain ⟨k2, hs2, hw2⟩ := syncFRPSPod_creates c k1 ns t
    (by intro v; rw [ho1]; exact hup v) (by rw [hp1]; exact hpod)
  refine ⟨newFRPSService c.POD_NAMESPACE ns t c.cfg.FRPSNodeIP p0 p1 p2, newFRPSPod c ns t,
    { c with portBucket := b2 }, k2, ?_, ?_, rfl, rfl, ?_, ?_, rfl, rfl, rfl, rfl, rfl⟩
  · simp only [syncNamespaces, hns, ht, hb1, hpm, hs1, hs2]
  · rw [hw2, hw1, List.append_assoc]
    rfl
  · simpa [newFRPSService] using hnodup
  · intro p hp
    simp only [newFRPSService, List.mem_cons, List.mem_singleton, List.not_mem_nil,
      or_false] at hp
    rcases hp with rfl | rfl | rfl
    · exact ⟨(hcand p0 (by simp)).1, (hcand p0 (by simp)).2.1⟩
    · exact ⟨(hcand p1 (by simp)).1, (hcand p1 (by simp)).2.1⟩
    · exact ⟨(hcand p2 (by simp)).1, (hcand p2 (by simp)).2.1⟩

theorem syncNamespaces_creates_service_and_pod_witness :
    ∃ svc pod c1 k1,
      syncNamespaces (fun _ => ascendingOrder) (acmeController []) {} "acme"
        = .ok (none, c1, k1) ∧
      k1.Writes = [] ++ [Write.CreateService "allspark" svc, Write.CreatePod "allspark" pod] ∧
      svc.ObjectMeta.Name = "acme-co" ∧
      svc.Spec.Ports.map (fun p => p.Name) = ["frps", "http", "https"] ∧
      (svc.Spec.Ports.map (fun p => p.Port)).Nodup ∧
      (∀ p ∈ svc.Spec.Ports, 20000 ≤ p.Port ∧ p.Port ≤ 21000) ∧
      svc.Spec.ExternalIPs = ["10.0.0.5"] ∧
      svc.Spec.Selector = some [("tenant", "acme-co")] ∧
      svc.ObjectMeta.OwnerReferences
        = [NewControllerRef acmeNamespace.ObjectMeta "v1" "Namespace"] ∧
      pod.ObjectMeta.Name = "acme-co" ∧
      pod.ObjectMeta.OwnerReferences
        = [NewControllerRef acmeNamespace.ObjectMeta "v1" "Namespace"] :=
  syncNamespaces_creates_service_and_pod (fun _ => ascendingOrder) (acmeController []) {}
    "acme" "acme-co" acmeNamespace [] rfl rfl (by decide) rfl (by simp) (by simp [Seeded])
    (fun _ => ascendingOrder_isRangeOrder) (fun _ => rfl) (by simp) (by simp)

/-- C10, the code at the failing input: namespace `acme` (tenant `acme-co`),
node IP `10.0.0.5`, an empty API server, and a successful listing that holds
no service bound to the node IP but one service bound to `10.0.0.6` declaring
port 80: `syncNamespaces` does not return, the reload raises the panic
"assignment to entry in nil map" before any write. -/
theorem syncNamespaces_faults_on_foreign_service :
    syncNamespaces (fun _ => ascendingOrder) (acmeController [foreignService]) {} "acme"
      = .error Fault.nilMapAssign ∧
    (∀ svc ∈ [foreignService], "10.0.0.5" ∉ svc.Spec.ExternalIPs) := by
  constructor
  · have h : Reload (acmeController [foreignService]).portBucket "10.0.0.5"
        = .error Fault.nilMapAssign := by
      rw [Reload_eq _ [foreignService] rfl]
      rfl
    have hns : (acmeController [foreignService]).NamespaceLister "acme" = .ok acmeNamespace :=
      rfl
    have hip : (acmeController [foreignService]).cfg.FRPSNodeIP = "10.0.0.5" := rfl
    simp only [syncNamespaces, hns, hip, h]
  · decide

/-! ## Lemmas on the routing-object reconcile -/

theorem tenant_of_labels (labels : StrMap) :
    (if labels ≠ none then labels.get "allspark.sh/tenant" else "")
      = labels.get "allspark.sh/tenant" := by
  cases labels with
  | none => simp [StrMap.get]
  | some kvs => simp

/-- The steps of `syncIngress` up to the pod lookup, for a key that names a
cached ingress of a tenant namespace. -/
theorem syncIngress_at_pod (c : ASController) (k : Kube) (key N M : String) (ns : Namespace)
    (ing : Ingress)
    (hkey : SplitMetaNamespaceKey key = .ok (N, M)) (hns : c.NamespaceLister N = .ok ns)
    (htenant : ns.ObjectMeta.Labels.get "allspark.sh/tenant" ≠ "")
    (hing : c.IngressLister N M = .ok ing) :
    syncIngress c k key =
      if (k.GetPod N ing.ObjectMeta.Name).2 ≠ none ∧
          IsNotFound (k.GetPod N ing.ObjectMeta.Name).2 = false then .ok (none, c, k)
      else if IsNotFound (k.GetPod N ing.ObjectMeta.Name).2 then
        match k.CreatePod N (newFRPCPod c ing) with
        | ((_, some e), k1) => .ok (some e.Message, c, k1)
        | ((_, none), k1) => .ok (none, c, k1)
      else if IsControlledBy (k.GetPod N ing.ObjectMeta.Name).1.ObjectMeta ing.ObjectMeta = false then
        .ok (some (MessageResourceExists ing.ObjectMeta.Name), c, k)
      else .ok (none, c, k) := by
  simp only [syncIngress, hkey, hns, tenant_of_labels, htenant, if_false, hing]

theorem IsControlledBy_false (obj owner : ObjectMeta)
    (h : ∀ ref ∈ obj.OwnerReferences, ref.Controller = some true → ref.UID ≠ owner.UID) :
    IsControlledBy obj owner = false := by
  unfold IsControlledBy GetControllerOf
  cases hf : obj.OwnerReferences.find? (fun ref => decide (ref.Controller = some true)) with
  | none => rfl
  | some ref =>
    have hmem := List.mem_of_find?_eq_some hf
    have hc := List.find?_some hf
    simp only [decide_eq_true_eq] at hc
    simp [h ref hmem hc]

/-! ## The claims on the routing-object reconcile -/

/-- C12: for an ingress `ing` (namespace `N`, name `M`) of the cache whose
namespace carries a non-empty tenant label, when the API server serves the pod
calls and holds no pod named `M` in `N`, `syncIngress` returns nil after
exactly one write, the create of a pod named `M` in namespace `N`; the pod has
exactly the two containers frpc and sync, a controller owner reference to
`ing`, and the environment of sync holds POD_NAMESPACE = `N` and
INGRESS_NAME = `M`. -/
theorem syncIngress_creates_pod (c : ASController) (k : Kube) (key N M : String)
    (ns : Namespace) (ing : Ingress)
    (hkey : SplitMetaNamespaceKey key = .ok (N, M)) (hns : c.NamespaceLister N = .ok ns)
    (htenant : ns.ObjectMeta.Labels.get "allspark.sh/tenant" ≠ "")
    (hing : c.IngressLister N M = .ok ing)
    (hmeta : ing.ObjectMeta.Namespace = N ∧ ing.ObjectMeta.Name = M)
    (hup : k.Outage Verb.GetPod = none ∧ k.Outage Verb.CreatePod = none)
    (hpod : ∀ p ∈ k.Pods, ¬ (p.ObjectMeta.Namespace = N ∧ p.ObjectMeta.Name = M)) :
    ∃ pod k1, syncIngress c k key = .ok (none, c, k1) ∧
      k1.Writes = k.Writes ++ [Write.CreatePod N pod] ∧
      pod.ObjectMeta.Name = M ∧ pod.ObjectMeta.Namespace = N ∧
      pod.Spec.Containers.map (fun x => x.Name) = ["frpc", "sync"] ∧
      pod.ObjectMeta.OwnerReferences
        = [NewControllerRef ing.ObjectMeta "extensions/v1beta1" "Ingress"] ∧
      ∃ frpc sync, pod.Spec.Containers = [frpc, sync] ∧ sync.Name = "sync" ∧
        ({ Name := "POD_NAMESPACE", Value := N } : EnvVar) ∈ sync.Env ∧
        ({ Name := "INGRESS_NAME", Value := M } : EnvVar) ∈ sync.Env := by
  obtain ⟨hN, hM⟩ := hmeta
  have hnf := GetPod_notFound k N ing.ObjectMeta.Name hup.1 (by rw [hM]; exact hpod)
  obtain ⟨stored, k1, hc, hw⟩ := CreatePod_ok k N (newFRPCPod c ing) hup.2
    (by
      have : (newFRPCPod c ing).ObjectMeta.Name = M := hM
      rw [this]; exact hpod)
  refine ⟨newFRPCPod c ing, k1, ?_, hw, hM, hN, ?_, rfl, ?_⟩
  · rw [syncIngress_at_pod c k key N M ns ing hkey hns htenant hing]
    simp only [hnf, Bool.true_eq_false, and_false, if_false, if_true, hc]
  · by_cases ht : c.cfg.FRPSToken = "" <;> simp [newFRPCPod, ht]
  · by_cases ht : c.cfg.FRPSToken = ""
    · exact ⟨_, _, by simp only [newFRPCPod, ht, ne_eq, not_true_eq_false, if_false]; rfl,
        rfl, by simp [hN], by simp [hM]⟩
    · exact ⟨_, _, by simp only [newFRPCPod, ht, ne_eq, not_false_eq_true, if_true]; rfl,
        rfl, by simp [hN], by simp [hM]⟩

theorem syncIngress_creates_pod_witness :
    ∃ pod k1, syncIngress shopController {} "acme/shop" = .ok (none, shopController, k1) ∧
      k1.Writes = [] ++ [Write.CreatePod "acme" pod] ∧
      pod.ObjectMeta.Name = "shop" ∧ pod.ObjectMeta.Namespace = "acme" ∧
      pod.Spec.Containers.map (fun x => x.Name) = ["frpc", "sync"] ∧
      pod.ObjectMeta.OwnerReferences
        = [NewControllerRef shopIngress.ObjectMeta "extensions/v1beta1" "Ingress"] ∧
      ∃ frpc sync, pod.Spec.Containers = [frpc, sync] ∧ sync.Name = "sync" ∧
        ({ Name := "POD_NAMESPACE", Value := "acme" } : EnvVar) ∈ sync.Env ∧
        ({ Name := "INGRESS_NAME", Value := "shop" } : EnvVar) ∈ sync.Env :=
  syncIngress_creates_pod shopController {} "acme/shop" "acme" "shop" acmeNamespace shopIngress
    rfl rfl (by decide) rfl ⟨rfl, rfl⟩ ⟨rfl, rfl⟩ (by simp)

/-- C13: for an ingress of a tenant namespace, if the pod lookup returns a pod
with the ingress's name in its namespace and no controller owner reference of
that pod carries the ingress's UID, `syncIngress` returns an error and leaves
the API server as it was: zero writes, nothing created, patched or adopted. -/
theorem syncIngress_ownership_conflict (c : ASController) (k : Kube) (key N M : String)
    (ns : Namespace) (ing : Ingress) (p : Pod)
    (hkey : SplitMetaNamespaceKey key = .ok (N, M)) (hns : c.NamespaceLister N = .ok ns)
    (htenant : ns.ObjectMeta.Labels.get "allspark.sh/tenant" ≠ "")
    (hing : c.IngressLister N M = .ok ing)
    (hpod : k.GetPod N ing.ObjectMeta.Name = (p, none))
    (hown : ∀ ref ∈ p.ObjectMeta.OwnerReferences,
      ref.Controller = some true → ref.UID ≠ ing.ObjectMeta.UID) :
    ∃ msg, syncIngress c k key = .ok (some msg, c, k) := by
  refine ⟨MessageResourceExists ing.ObjectMeta.Name, ?_⟩
  rw [syncIngress_at_pod c k key N M ns ing hkey hns htenant hing, hpod]
  simp [IsNotFound, IsControlledBy_false p.ObjectMeta ing.ObjectMeta hown]

theorem syncIngress_ownership_conflict_witness :
    ∃ msg, syncIngress shopController { Pods := [strangerPod] } "acme/shop"
      = .ok (some msg, shopController, { Pods := [strangerPod] }) :=
  syncIngress_ownership_conflict shopController { Pods := [strangerPod] } "acme/shop"
    "acme" "shop" acmeNamespace shopIngress strangerPod rfl rfl (by decide) rfl rfl (by simp [strangerPod])

/-- C18, the code at the failing input: namespace `acme` (tenant `acme-co`)
and ingress `acme/shop` are cached, and the lookup of the companion pod fails
with the upstream error "connection refused", which is not a not-found error:
`syncIngress` returns nil, no failure, and sends nothing. -/
theorem syncIngress_swallows_pod_lookup_failure :
    (podLookupOutage.GetPod "acme" "shop").2
      = some ⟨StatusReason.Unknown, "connection refused"⟩ ∧
    IsNotFound (podLookupOutage.GetPod "acme" "shop").2 = false ∧
    syncIngress shopController podLookupOutage "acme/shop"
      = .ok (none, shopController, podLookupOutage) :=
  ⟨rfl, rfl, rfl⟩

/-! ## The claims on the admission filters -/

/-- C19: `isFrpIngress(ing)` is true exactly when the annotation
`kubernetes.io/ingress.class` is absent (a nil annotation map included), is
the empty string, or equals "frp"; the result depends on nothing but what the
annotation map holds under that key. -/
theorem isFrpIngress_iff (ing : Ingress) :
    (isFrpIngress ing = true ↔
      (ing.ObjectMeta.Annotations.find "kubernetes.io/ingress.class" = none ∨
        ing.ObjectMeta.Annotations.find "kubernetes.io/ingress.class" = some "" ∨
        ing.ObjectMeta.Annotations.find "kubernetes.io/ingress.class" = some "frp")) ∧
    (ing.ObjectMeta.Annotations = none → isFrpIngress ing = true) ∧
    (∀ other : Ingress,
      other.ObjectMeta.Annotations.find "kubernetes.io/ingress.class"
        = ing.ObjectMeta.Annotations.find "kubernetes.io/ingress.class" →
      isFrpIngress other = isFrpIngress ing) := by
  refine ⟨?_, ?_, ?_⟩
  · unfold isFrpIngress ingressClass ingressClassKey frpIngressClass
    cases ing.ObjectMeta.Annotations.find "kubernetes.io/ingress.class" with
    | none => simp
    | some v => simp
  · intro h
    simp [isFrpIngress, ingressClass, h, StrMap.find]
  · intro other h
    unfold isFrpIngress ingressClass ingressClassKey
    rw [h]

theorem isFrpIngress_iff_witness :
    isFrpIngress shopIngress = true ∧
    isFrpIngress (ingressWithClass "nginx") = false ∧
    isFrpIngress (ingressWithClass "FRP") = false ∧
    isFrpIngress (ingressWithClass " frp") = false ∧
    isFrpIngress (ingressWithClass "") = true ∧
    isFrpIngress {} = true :=
  ⟨((isFrpIngress_iff shopIngress).1).2 (Or.inr (Or.inr rfl)), by decide, by decide, by decide,
    by decide, ((isFrpIngress_iff {}).2).1 rfl⟩

/-- C20: `isAllSparkResource(obj)` is true exactly when the label map holds
the key `allspark.sh/tenant` with a non-empty value; a nil label map, a
missing key and an empty value all give false. -/
theorem isAllSparkResource_iff (meta : ObjectMeta) :
    (isAllSparkResource meta = true ↔
      ∃ v, meta.Labels.find "allspark.sh/tenant" = some v ∧ v ≠ "") ∧
    (meta.Labels = none → isAllSparkResource meta = false) ∧
    (meta.Labels.find "allspark.sh/tenant" = none → isAllSparkResource meta = false) ∧
    (meta.Labels.find "allspark.sh/tenant" = some "" → isAllSparkResource meta = false) := by
  have key : isAllSparkResource meta = true ↔
      ∃ v, meta.Labels.find "allspark.sh/tenant" = some v ∧ v ≠ "" := by
    unfold isAllSparkResource
    cases hl : meta.Labels with
    | none => simp [StrMap.find]
    | some kvs =>
      simp only [StrMap.get, StrMap.find, reduceCtorEq, if_false]
      have hgen : ∀ x : Option String,
          ((if x.getD "" ≠ "" then true else false) = true ↔ ∃ v, x = some v ∧ v ≠ "") := by
        intro x
        cases x <;> simp
      exact hgen _
  refine ⟨key, ?_, ?_, ?_⟩
  · intro h
    rw [Bool.eq_false_iff, Ne, key, h]
    simp [StrMap.find]
  · intro h
    rw [Bool.eq_false_iff, Ne, key, h]
    simp
  · intro h
    rw [Bool.eq_false_iff, Ne, key, h]
    simp

theorem isAllSparkResource_iff_witness :
    isAllSparkResource workerNode.ObjectMeta = true ∧
    isAllSparkResource {} = false ∧
    isAllSparkResource { Labels := some [("app", "x")] } = false ∧
    isAllSparkResource { Labels := some [("allspark.sh/tenant", "")] } = false :=
  ⟨((isAllSparkResource_iff workerNode.ObjectMeta).1).2 ⟨"acme-co", rfl, by decide⟩,
    ((isAllSparkResource_iff {}).2).1 rfl, by decide, by decide⟩

/-! ## Port exhaustion and vanished objects -/

/-- With enumeration orders of the table and fewer than `n` available ports in
[20000, 21000], `PopMany(ip, n)` returns nil. -/
theorem PopMany_none_of_few (orders : Nat → List Int) (b : PortBucket) (ip : String) (n : Int)
    (hk : (freeCount (tableOf b ip) : Int) < n) :
    ∃ b1, PopMany orders b ip n = .ok (none, b1) := by
  obtain ⟨res, b2, new, hrun, hnd, hcand, _, _, _, _, _, hshort⟩ :=
    popManyLoop_spec orders ip n.toNat 0 b none
  have hle := length_le_freeCount _ new hnd hcand
  obtain ⟨hres, _⟩ := hshort (by omega)
  subst hres
  exact ⟨b2, hrun⟩

theorem declared_fullService (q : Int) :
    declared [fullService] "10.0.0.5" q ↔ 20000 ≤ q ∧ q ≤ 21000 := by
  simp only [declared, List.mem_singleton, exists_eq_left, fullService, List.mem_map,
    List.mem_range, true_and, exists_exists_and_eq_and, Int.ofNat_eq_coe]
  constructor
  · rintro ⟨i, hi, rfl⟩
    omega
  · rintro ⟨h1, h2⟩
    exact ⟨(q - 20000).toNat, by omega, by omega⟩

/-- C11: for a cached namespace, whenever the reload succeeds and fewer than 3
ports of [20000, 21000] are then free for the node IP, `syncNamespaces`
returns nil (so the key is not re-queued) and leaves the API server exactly as
it was: zero writes, no service or pod created or patched. -/
theorem syncNamespaces_exhausted (orders : Nat → List Int) (c : ASController) (k : Kube)
    (key : String) (ns : Namespace) (b1 : PortBucket)
    (hns : c.NamespaceLister key = .ok ns)
    (hr : Reload c.portBucket c.cfg.FRPSNodeIP = .ok (none, b1))
    (hfew : freeCount (tableOf b1 c.cfg.FRPSNodeIP) < 3) :
    ∃ c1, syncNamespaces orders c k key = .ok (none, c1, k) := by
  obtain ⟨b2, hb2⟩ := PopMany_none_of_few orders b1 c.cfg.FRPSNodeIP 3 (by omega)
  exact ⟨{ c with portBucket := b2 }, by simp only [syncNamespaces, hns, hr, hb2]⟩

theorem syncNamespaces_exhausted_witness :
    ∃ c1, syncNamespaces (fun _ => ascendingOrder) (acmeController [fullService]) {} "acme"
      = .ok (none, c1, {}) := by
  have hl : (acmeController [fullService]).portBucket.serviceLister = .ok [fullService] := rfl
  have hseed : Seeded (setTable (acmeController [fullService]).portBucket "10.0.0.5" freshTable)
      [fullService] := by
    intro svc hs _ e he
    simp only [List.mem_singleton] at hs
    subst hs
    simp only [fullService, List.mem_singleton] at he
    subst he
    simp [setTable]
  obtain ⟨b1, hb1⟩ := (Reload_ok_iff hl "10.0.0.5").2 hseed
  refine syncNamespaces_exhausted (fun _ => ascendingOrder) (acmeController [fullService]) {}
    "acme" acmeNamespace b1 rfl hb1 ?_
  have hzero : freeCount (tableOf b1 "10.0.0.5") ≤ ([] : List Int).length := by
    apply freeCount_le_length
    intro p hp
    exfalso
    have hd : declared [fullService] "10.0.0.5" p := (declared_fullService p).2 ⟨hp.1, hp.2.1⟩
    have := hp.2.2
    rw [tableOf_of_store (Reload_table hl hb1)] at this
    simp only [if_pos hd] at this
    cases this
  simp only [List.length_nil] at hzero
  show freeCount (tableOf b1 "10.0.0.5") < 3
  omega

/-- C17: when the lookup of the primary object reports not-found (the
namespace for `syncNamespaces`; the owning namespace, or the ingress itself,
for `syncIngress`; the node for `syncNodes`), the reconcile function returns
nil and leaves the controller, with its port allocator, and the API server
exactly as they were: zero writes. -/
theorem vanished_primary_is_noop (orders : Nat → List Int) (c : ASController) (k : Kube)
    (key : String) :
    (∀ e, c.NamespaceLister key = .error e → IsNotFound (some e) = true →
      syncNamespaces orders c k key = .ok (none, c, k)) ∧
    (∀ N M e, SplitMetaNamespaceKey key = .ok (N, M) → c.NamespaceLister N = .error e →
      IsNotFound (some e) = true → syncIngress c k key = .ok (none, c, k)) ∧
    (∀ N M ns e, SplitMetaNamespaceKey key = .ok (N, M) → c.NamespaceLister N = .ok ns →
      c.IngressLister N M = .error e → IsNotFound (some e) = true →
      syncIngress c k key = .ok (none, c, k)) ∧
    (∀ e, c.NodeLister key = .error e → IsNotFound (some e) = true →
      syncNodes c k key = .ok (none, c, k)) := by
  refine ⟨?_, ?_, ?_, ?_⟩
  · intro e he hnf
    simp only [syncNamespaces, he, hnf, if_true]
  · intro N M e hkey he hnf
    simp only [syncIngress, hkey, he, hnf, if_true]
  · intro N M ns e hkey hns he hnf
    simp only [syncIngress, hkey, hns, he, hnf, if_true, ite_self]
  · intro e he hnf
    simp only [syncNodes, he, hnf, if_true]

theorem vanished_primary_is_noop_witness :
    syncNamespaces (fun _ => ascendingOrder) shopController {} "ghost"
      = .ok (none, shopController, {}) ∧
    syncIngress shopController {} "ghost/shop" = .ok (none, shopController, {}) ∧
    syncIngress shopController {} "acme/ghost" = .ok (none, shopController, {}) ∧
    syncNodes shopController {} "ghost.svc.cluster.local" = .ok (none, shopController, {}) :=
  ⟨(vanished_primary_is_noop (fun _ => ascendingOrder) shopController {} "ghost").1 _ rfl rfl,
    (vanished_primary_is_noop (fun _ => ascendingOrder) shopController {} "ghost/shop").2.1
      "ghost" "shop" _ rfl rfl rfl,
    (vanished_primary_is_noop (fun _ => ascendingOrder) shopController {} "acme/ghost").2.2.1
      "acme" "ghost" acmeNamespace _ rfl rfl rfl rfl,
    (vanished_primary_is_noop (fun _ => ascendingOrder) shopController {}
      "ghost.svc.cluster.local").2.2.2 _ rfl rfl⟩

/-! ## Lemmas on the node reconcile -/

theorem splitChars_head (sep : Char) (l : List Char) :
    ∃ ws, splitChars sep l = l.takeWhile (fun ch => decide (ch ≠ sep)) :: ws := by
  induction l with
  | nil => exact ⟨[], rfl⟩
  | cons ch rest ih =>
    obtain ⟨ws, hws⟩ := ih
    by_cases h : ch = sep
    · exact ⟨splitChars sep rest, by simp [splitChars, h]⟩
    · exact ⟨ws, by simp [splitChars, h, hws]⟩

theorem takeWhile_label (sep : Char) (l : List Char) :
    ∃ rest, l = l.takeWhile (fun ch => decide (ch ≠ sep)) ++ rest ∧
      sep ∉ l.takeWhile (fun ch => decide (ch ≠ sep)) ∧
      (rest = [] ∨ rest.head? = some sep) := by
  induction l with
  | nil => exact ⟨[], rfl, by simp, Or.inl rfl⟩
  | cons ch tl ih =>
    obtain ⟨rest, h1, h2, h3⟩ := ih
    by_cases h : ch = sep
    · exact ⟨ch :: tl, by simp [h], by simp [h], Or.inr (by simp [h])⟩
    · refine ⟨rest, ?_, ?_, h3⟩
      · simp only [List.takeWhile_cons, h, ne_eq, not_false_eq_true, decide_True, if_true,
          List.cons_append]
        rw [← h1]
      · simp only [List.takeWhile_cons, h, ne_eq, not_false_eq_true, decide_True, if_true,
          List.mem_cons, not_or]
        exact ⟨fun hs => h hs.symm, h2⟩

/-- The name `strings.Split(name, ".")[0]` that `syncNodes` uses. -/
theorem stringsSplit_head (name : String) :
    ∃ serviceName ws, stringsSplit name '.' = serviceName :: ws ∧
      ∃ rest, name.toList = serviceName.toList ++ rest ∧ '.' ∉ serviceName.toList ∧
        (rest = [] ∨ rest.head? = some '.') := by
  obtain ⟨ws, hws⟩ := splitChars_head '.' name.toList
  obtain ⟨rest, h1, h2, h3⟩ := takeWhile_label '.' name.toList
  exact ⟨String.mk (name.toList.takeWhile (fun ch => decide (ch ≠ '.'))), ws.map String.mk,
    by unfold stringsSplit; rw [hws]; rfl, rest, h1, h2, h3⟩

theorem GetService_found (k : Kube) (ns name : String)
    (hup : k.Outage Verb.GetService = none)
    (hex : ∃ s ∈ k.Services, s.ObjectMeta.Namespace = ns ∧ s.ObjectMeta.Name = name) :
    (k.GetService ns name).2 = none := by
  obtain ⟨s, hs, hm⟩ := hex
  unfold Kube.GetService
  simp only [hup]
  cases hf : k.Services.find?
      (fun s => decide (s.ObjectMeta.Namespace = ns ∧ s.ObjectMeta.Name = name)) with
  | some s1 => rfl
  | none =>
    rw [List.find?_eq_none] at hf
    exact absurd (by simpa using hm) (hf s hs)

theorem CreateService_writes (k : Kube) (ns : String) (svc : Service) :
    (k.CreateService ns svc).2.Writes = k.Writes ++ [Write.CreateService ns svc] ∧
    (k.CreateService ns svc).2.Outage = k.Outage := by
  unfold Kube.CreateService
  split
  · exact ⟨rfl, rfl⟩
  · split <;> exact ⟨rfl, rfl⟩

theorem applyMergePatch_meta {s s1 : Service} {payload : String}
    (h : applyMergePatch s payload = .ok s1) : s1.ObjectMeta = s.ObjectMeta := by
  unfold applyMergePatch at h
  repeat' split at h
  all_goals first | (cases h; rfl) | cases h

theorem PatchService_writes (k : Kube) (ns name payload : String) :
    (k.PatchService ns name payload).2.Writes
      = k.Writes ++ [Write.PatchService ns name payload] ∧
    (k.PatchService ns name payload).2.Outage = k.Outage ∧
    ((∃ s ∈ k.Services, s.ObjectMeta.Namespace = ns ∧ s.ObjectMeta.Name = name) →
      ∃ s ∈ (k.PatchService ns name payload).2.Services,
        s.ObjectMeta.Namespace = ns ∧ s.ObjectMeta.Name = name) := by
  unfold Kube.PatchService
  split
  · exact ⟨rfl, rfl, fun h => h⟩
  · split
    · exact ⟨rfl, rfl, fun h => h⟩
    · next s0 hfind =>
      have hs0 := List.find?_some hfind
      simp only [decide_eq_true_eq] at hs0
      split
      · exact ⟨rfl, rfl, fun h => h⟩
      · next patched hpatch =>
        refine ⟨rfl, rfl, ?_⟩
        rintro ⟨s, hs, hm⟩
        refine ⟨_, List.mem_map.2 ⟨s, hs, rfl⟩, ?_⟩
        simp only [hm, and_self, if_true]
        rw [applyMergePatch_meta hpatch]
        exact hs0

/-- The outcome of `syncNodes` for a cached node when the peer service is
absent: one create of the kubelet service. -/
theorem syncNodes_absent (c : ASController) (k : Kube) (key serviceName : String) (node : Node)
    (ws : List String) (hnode : c.NodeLister key = .ok node)
    (hsplit : stringsSplit node.ObjectMeta.Name '.' = serviceName :: ws)
    (hup : k.Outage Verb.GetService = none)
    (habs : ∀ s ∈ k.Services,
      ¬ (s.ObjectMeta.Namespace = c.POD_NAMESPACE ∧ s.ObjectMeta.Name = serviceName)) :
    ∃ e, syncNodes c k key = .ok (e, c,
        (k.CreateService c.POD_NAMESPACE
          (newKubeletService c.POD_NAMESPACE serviceName node)).2) ∧
      (k.Outage Verb.CreateService = none → e = none) := by
  have hnf := GetService_notFound k c.POD_NAMESPACE serviceName hup habs
  rcases hgs : k.GetService c.POD_NAMESPACE serviceName with ⟨s0, err⟩
  rw [hgs] at hnf
  cases err with
  | none => simp [IsNotFound] at hnf
  | some e0 =>
    simp only at hnf
    rcases hcs : k.CreateService c.POD_NAMESPACE
        (newKubeletService c.POD_NAMESPACE serviceName node) with ⟨⟨s1, cerr⟩, k1⟩
    cases cerr with
    | none =>
      exact ⟨none, by simp only [syncNodes, hnode, hsplit, hgs, hnf, if_true, hcs], fun _ => rfl⟩
    | some e1 =>
      refine ⟨some ("failed creating kubelet service: " ++ e1.Message),
        by simp only [syncNodes, hnode, hsplit, hgs, hnf, if_true, hcs], ?_⟩
      intro hc
      obtain ⟨st, k2, hok, _⟩ := CreateService_ok k c.POD_NAMESPACE
        (newKubeletService c.POD_NAMESPACE serviceName node) hc habs
      rw [hok] at hcs
      cases hcs

/-- The outcome of `syncNodes` for a cached node when the peer service
exists: one merge patch request. -/
theorem syncNodes_present (c : ASController) (k : Kube) (key serviceName : String) (node : Node)
    (ws : List String) (hnode : c.NodeLister key = .ok node)
    (hsplit : stringsSplit node.ObjectMeta.Name '.' = serviceName :: ws)
    (hup : k.Outage Verb.GetService = none)
    (hex : ∃ s ∈ k.Services,
      s.ObjectMeta.Namespace = c.POD_NAMESPACE ∧ s.ObjectMeta.Name = serviceName) :
    ∃ e, syncNodes c k key = .ok (e, c,
        (k.PatchService c.POD_NAMESPACE serviceName
          (selectorPayload (node.ObjectMeta.Labels.get "allspark.sh/tenant"))).2) := by
  have hfound := GetService_found k c.POD_NAMESPACE serviceName hup hex
  rcases hgs : k.GetService c.POD_NAMESPACE serviceName with ⟨s0, err⟩
  rw [hgs] at hfound
  simp only at hfound
  subst hfound
  rcases hps : k.PatchService c.POD_NAMESPACE serviceName
      (selectorPayload (node.ObjectMeta.Labels.get "allspark.sh/tenant")) with ⟨⟨s1, perr⟩, k1⟩
  cases perr with
  | none => exact ⟨none, by simp only [syncNodes, hnode, hsplit, hgs, hps]⟩
  | some e1 =>
    exact ⟨some ("failed patching service: " ++ e1.Message),
      by simp only [syncNodes, hnode, hsplit, hgs, hps]⟩

theorem CreateService_present (k : Kube) (ns : String) (svc : Service)
    (hup : k.Outage Verb.CreateService = none)
    (habs : ∀ s ∈ k.Services,
      ¬ (s.ObjectMeta.Namespace = ns ∧ s.ObjectMeta.Name = svc.ObjectMeta.Name)) :
    ∃ s ∈ (k.CreateService ns svc).2.Services,
      s.ObjectMeta.Namespace = ns ∧ s.ObjectMeta.Name = svc.ObjectMeta.Name := by
  have hany : k.Services.any (fun s => decide (s.ObjectMeta.Namespace = ns ∧
      s.ObjectMeta.Name = svc.ObjectMeta.Name)) = false := by
    rw [List.any_eq_false]
    intro s hs
    simpa using habs s hs
  simp only [Kube.CreateService, hup, hany, Bool.false_eq_true, if_false]
  exact ⟨_, List.mem_append_right _ (List.mem_singleton_self _), rfl, rfl⟩

/-! ## The claims on the node reconcile -/

/-- The requests of `syncNodes` for a cached node, with the service lookup
served. The peer service name is the part of the node's name before its first
dot (the whole name when it has none). If no service of that name exists in
the controller's namespace, `syncNodes` sends exactly one request, the create
of a service of that name with a controller owner reference to the node, the
single TCP port 10250 named kubelet and selector tenant = the node's tenant
label. If such a service exists, `syncNodes` sends exactly one request and no
create: a merge patch of that service with the body `selectorPayload` builds. -/
theorem syncNodes_one_request (c : ASController) (k : Kube) (key : String) (node : Node)
    (hnode : c.NodeLister key = .ok node) (hup : k.Outage Verb.GetService = none) :
    ∃ serviceName,
      (∃ rest, node.ObjectMeta.Name.toList = serviceName.toList ++ rest ∧
        '.' ∉ serviceName.toList ∧ (rest = [] ∨ rest.head? = some '.')) ∧
      ((∀ s ∈ k.Services,
          ¬ (s.ObjectMeta.Namespace = c.POD_NAMESPACE ∧ s.ObjectMeta.Name = serviceName)) →
        ∃ e k1 svc, syncNodes c k key = .ok (e, c, k1) ∧
          k1.Writes = k.Writes ++ [Write.CreateService c.POD_NAMESPACE svc] ∧
          svc.ObjectMeta.Name = serviceName ∧
          svc.ObjectMeta.OwnerReferences = [NewControllerRef node.ObjectMeta "v1" "Node"] ∧
          svc.Spec.Ports
            = [{ Name := "kubelet", Protocol := "TCP", Port := 10250, TargetPort := "https" }] ∧
          svc.Spec.Selector
            = some [("tenant", node.ObjectMeta.Labels.get "allspark.sh/tenant")]) ∧
      ((∃ s ∈ k.Services,
          s.ObjectMeta.Namespace = c.POD_NAMESPACE ∧ s.ObjectMeta.Name = serviceName) →
        ∃ e k1, syncNodes c k key = .ok (e, c, k1) ∧
          k1.Writes = k.Writes ++ [Write.PatchService c.POD_NAMESPACE serviceName
            (selectorPayload (node.ObjectMeta.Labels.get "allspark.sh/tenant"))]) := by
  obtain ⟨serviceName, ws, hsplit, hlabel⟩ := stringsSplit_head node.ObjectMeta.Name
  refine ⟨serviceName, hlabel, ?_, ?_⟩
  · intro habs
    obtain ⟨e, he, _⟩ := syncNodes_absent c k key serviceName node ws hnode hsplit hup habs
    exact ⟨e, _, newKubeletService c.POD_NAMESPACE serviceName node, he,
      (CreateService_writes k _ _).1, rfl, rfl, rfl, rfl⟩
  · intro hex
    obtain ⟨e, he⟩ := syncNodes_present c k key serviceName node ws hnode hsplit hup hex
    exact ⟨e, _, he, (PatchService_writes k _ _ _).1⟩

/-- C16: the API server stores the service `worker1` of namespace `allspark`
with selector tenant = `old-co`, and the cached node
`worker1.svc.cluster.local` carries the tenant label `acme-co`. `syncNodes`
sends one merge patch of `worker1` whose body gives `spec.selector` as the
string `acme-co`, not as a map; the server cannot decode the patched object
and rejects the request, so `syncNodes` returns the error "failed patching
service" and the selector of the stored service is still tenant = `old-co`.
The same server accepts the body that gives the selector as the map tenant =
`acme-co`, the shape `newKubeletService` uses on the create path, and then
stores that selector. -/
theorem syncNodes_patch_rejected :
    ∃ msg k1,
      syncNodes shopController staleKube "worker1.svc.cluster.local"
        = .ok (some ("failed patching service: " ++ msg), shopController, k1) ∧
      k1.Writes = [Write.PatchService "allspark" "worker1"
        "\x7b\"spec\": \x7b\"selector\": \"acme-co\"\x7d\x7d"] ∧
      k1.Services = [staleKubeletService] ∧
      staleKubeletService.Spec.Selector = some [("tenant", "old-co")] ∧
      (staleKube.PatchService "allspark" "worker1"
          "\x7b\"spec\": \x7b\"selector\": \x7b\"tenant\": \"acme-co\"\x7d\x7d\x7d").2.Services
        = [{ staleKubeletService with
             Spec := { staleKubeletService.Spec with
                       Selector := some [("tenant", "acme-co")] } }] :=
  ⟨_, _, rfl, rfl, rfl, rfl, rfl⟩

/-- C15, refuted as stated: for the node `worker1.svc.cluster.local` and an
empty API server, the first `syncNodes` creates the service `worker1` and
returns nil; the second call, with no other change, sends a merge patch of
`worker1`, one more write request, and returns an error. -/
theorem syncNodes_second_call_writes :
    ∃ k1 e2 k2, syncNodes shopController {} "worker1.svc.cluster.local"
        = .ok (none, shopController, k1) ∧
      syncNodes shopController k1 "worker1.svc.cluster.local"
        = .ok (some e2, shopController, k2) ∧
      k2.Writes = k1.Writes ++
        [Write.PatchService "allspark" "worker1"
          "\x7b\"spec\": \x7b\"selector\": \"acme-co\"\x7d\x7d"] ∧
      k2.Writes ≠ k1.Writes :=
  ⟨_, _, _, rfl, rfl, rfl, by decide⟩

/-- C15, amended: for a cached node, with the service lookup and create
served, the second of two `syncNodes` calls in a row sends no create and
exactly one write request: a merge patch addressed to the peer service, the
service of the controller's namespace named by the part of the node's name
before its first dot, sent whether or not the service already carries the
node's tenant value. -/
theorem syncNodes_second_call_patches (c : ASController) (k : Kube) (key : String) (node : Node)
    (hnode : c.NodeLister key = .ok node)
    (hup : k.Outage Verb.GetService = none ∧ k.Outage Verb.CreateService = none) :
    ∃ serviceName,
      (∃ rest, node.ObjectMeta.Name.toList = serviceName.toList ++ rest ∧
        '.' ∉ serviceName.toList ∧ (rest = [] ∨ rest.head? = some '.')) ∧
      ∃ e1 k1, syncNodes c k key = .ok (e1, c, k1) ∧
        ∃ e2 k2 payload, syncNodes c k1 key = .ok (e2, c, k2) ∧
          k2.Writes = k1.Writes ++ [Write.PatchService c.POD_NAMESPACE serviceName payload] := by
  obtain ⟨serviceName, ws, hsplit, hlabel⟩ := stringsSplit_head node.ObjectMeta.Name
  refine ⟨serviceName, hlabel, ?_⟩
  by_cases hex : ∃ s ∈ k.Services,
      s.ObjectMeta.Namespace = c.POD_NAMESPACE ∧ s.ObjectMeta.Name = serviceName
  · obtain ⟨e1, he1⟩ := syncNodes_present c k key serviceName node ws hnode hsplit hup.1 hex
    obtain ⟨_, hout, hkeep⟩ := PatchService_writes k c.POD_NAMESPACE serviceName
      (selectorPayload (node.ObjectMeta.Labels.get "allspark.sh/tenant"))
    obtain ⟨e2, he2⟩ := syncNodes_present c _ key serviceName node ws hnode hsplit
      (by rw [hout]; exact hup.1) (hkeep hex)
    exact ⟨e1, _, he1, e2, _, _, he2, (PatchService_writes _ _ _ _).1⟩
  · have habs : ∀ s ∈ k.Services,
        ¬ (s.ObjectMeta.Namespace = c.POD_NAMESPACE ∧ s.ObjectMeta.Name = serviceName) :=
      fun s hs hm => hex ⟨s, hs, hm⟩
    obtain ⟨e1, he1, _⟩ := syncNodes_absent c k key serviceName node ws hnode hsplit hup.1 habs
    have hout := (CreateService_writes k c.POD_NAMESPACE
      (newKubeletService c.POD_NAMESPACE serviceName node)).2
    have hpres := CreateService_present k c.POD_NAMESPACE
      (newKubeletService c.POD_NAMESPACE serviceName node) hup.2 habs
    obtain ⟨e2, he2⟩ := syncNodes_present c _ key serviceName node ws hnode hsplit
      (by rw [hout]; exact hup.1) hpres
    exact ⟨e1, _, he1, e2, _, _, he2, (PatchService_writes _ _ _ _).1⟩

theorem syncNodes_second_call_patches_witness :
    ∃ serviceName,
      (∃ rest, workerNode.ObjectMeta.Name.toList = serviceName.toList ++ rest ∧
        '.' ∉ serviceName.toList ∧ (rest = [] ∨ rest.head? = some '.')) ∧
      ∃ e1 k1, syncNodes shopController {} "worker1.svc.cluster.local"
          = .ok (e1, shopController, k1) ∧
        ∃ e2 k2 payload, syncNodes shopController k1 "worker1.svc.cluster.local"
            = .ok (e2, shopController, k2) ∧
          k2.Writes = k1.Writes ++ [Write.PatchService "allspark" serviceName payload] :=
  syncNodes_second_call_patches shopController {} "worker1.svc.cluster.local" workerNode rfl
    ⟨rfl, rfl⟩

/-! ## Idempotence of the routing-object reconcile -/

theorem GetPod_notFound_inv (k : Kube) (ns name : String)
    (h : IsNotFound (k.GetPod ns name).2 = true) :
    k.Outage Verb.GetPod = none ∧
    ∀ p ∈ k.Pods, ¬ (p.ObjectMeta.Namespace = ns ∧ p.ObjectMeta.Name = name) := by
  unfold Kube.GetPod at h
  cases ho : k.Outage Verb.GetPod with
  | some msg =>
    rw [ho] at h
    simp [IsNotFound] at h
  | none =>
    rw [ho] at h
    refine ⟨rfl, ?_⟩
    cases hf : k.Pods.find?
        (fun s => decide (s.ObjectMeta.Namespace = ns ∧ s.ObjectMeta.Name = name)) with
    | some s =>
      rw [hf] at h
      simp [IsNotFound] at h
    | none =>
      rw [List.find?_eq_none] at hf
      intro p hp hm
      exact hf p hp (by simpa using hm)

theorem CreatePod_served (k : Kube) (ns : String) (pod : Pod)
    (hup : k.Outage Verb.CreatePod = none)
    (habs : ∀ s ∈ k.Pods,
      ¬ (s.ObjectMeta.Namespace = ns ∧ s.ObjectMeta.Name = pod.ObjectMeta.Name)) :
    k.CreatePod ns pod =
      (({ pod with ObjectMeta := { pod.ObjectMeta with Namespace := ns } }, none),
        { k with
          Writes := k.Writes ++ [Write.CreatePod ns pod]
          Pods := k.Pods ++ [{ pod with ObjectMeta := { pod.ObjectMeta with Namespace := ns } }] }) := by
  have hany : k.Pods.any (fun s => decide (s.ObjectMeta.Namespace = ns ∧
      s.ObjectMeta.Name = pod.ObjectMeta.Name)) = false := by
    rw [List.any_eq_false]
    intro s hs
    simpa using habs s hs
  simp only [Kube.CreatePod, hup, hany, Bool.false_eq_true, if_false]

theorem CreatePod_writes (k : Kube) (ns : String) (pod : Pod) :
    (k.CreatePod ns pod).2.Writes = k.Writes ++ [Write.CreatePod ns pod] := by
  unfold Kube.CreatePod
  split
  · rfl
  · split <;> rfl

/-- Either `syncIngress` returns without touching the API server, or it has
reached the pod lookup for a cached ingress of a tenant namespace and the
lookup reported not-found (the create branch). -/
theorem syncIngress_unchanged_or_create (c : ASController) (k : Kube) (key : String) :
    (∃ e, syncIngress c k key = .ok (e, c, k)) ∨
    (∃ N M ns ing, SplitMetaNamespaceKey key = .ok (N, M) ∧ c.NamespaceLister N = .ok ns ∧
      ns.ObjectMeta.Labels.get "allspark.sh/tenant" ≠ "" ∧ c.IngressLister N M = .ok ing ∧
      IsNotFound (k.GetPod N ing.ObjectMeta.Name).2 = true) := by
  cases hkey : SplitMetaNamespaceKey key with
  | error msg => exact Or.inl ⟨none, by simp only [syncIngress, hkey]⟩
  | ok nm =>
    obtain ⟨N, M⟩ := nm
    cases hns : c.NamespaceLister N with
    | error err =>
      left
      cases hnf : IsNotFound (some err) with
      | true => exact ⟨none, by simp only [syncIngress, hkey, hns, hnf, if_true]⟩
      | false =>
        exact ⟨some err.Message, by
          simp only [syncIngress, hkey, hns, hnf, Bool.false_eq_true, if_false]⟩
    | ok ns =>
      by_cases ht : ns.ObjectMeta.Labels.get "allspark.sh/tenant" = ""
      · left
        refine ⟨none, ?_⟩
        simp only [syncIngress, hkey, hns]
        rw [tenant_of_labels, if_pos ht]
      · cases hing : c.IngressLister N M with
        | error err =>
          left
          cases hnf : IsNotFound (some err) with
          | true =>
            exact ⟨none, by
              simp only [syncIngress, hkey, hns, tenant_of_labels, ht, if_false, hing, hnf,
                if_true]⟩
          | false =>
            exact ⟨some err.Message, by
              simp only [syncIngress, hkey, hns, tenant_of_labels, ht, if_false, hing, hnf,
                Bool.false_eq_true]⟩
        | ok ing =>
          cases hnf : IsNotFound (k.GetPod N ing.ObjectMeta.Name).2 with
          | true => exact Or.inr ⟨N, M, ns, ing, rfl, hns, ht, hing, hnf⟩
          | false =>
            left
            rw [syncIngress_at_pod c k key N M ns ing hkey hns ht hing]
            simp only [hnf, Bool.false_eq_true, if_false]
            split_ifs <;> exact ⟨_, rfl⟩

/-- C14: `syncIngress` always returns, and when its create, if it sent one,
was served (the store then holds the created pod), a second call in a row
leaves the API server exactly as the first call left it, zero writes, and
returns nil whenever the first call did. -/
theorem syncIngress_idempotent (c : ASController) (k : Kube) (key : String) :
    ∃ e1 k1, syncIngress c k key = .ok (e1, c, k1) ∧
      ((k1.Writes = k.Writes ∨ k.Outage Verb.CreatePod = none) →
        ∃ e2, syncIngress c k1 key = .ok (e2, c, k1) ∧ (e1 = none → e2 = none)) := by
  rcases syncIngress_unchanged_or_create c k key with ⟨e, he⟩ | ⟨N, M, ns, ing, hkey, hns, ht, hing, hnf⟩
  · exact ⟨e, k, he, fun _ => ⟨e, he, id⟩⟩
  · obtain ⟨hget, habs⟩ := GetPod_notFound_inv k N ing.ObjectMeta.Name hnf
    have hfirst : syncIngress c k key =
        match k.CreatePod N (newFRPCPod c ing) with
        | ((_, some e), k1) => .ok (some e.Message, c, k1)
        | ((_, none), k1) => .ok (none, c, k1) := by
      rw [syncIngress_at_pod c k key N M ns ing hkey hns ht hing]
      simp only [hnf, Bool.true_eq_false, and_false, if_false, if_true]
    by_cases hup : k.Outage Verb.CreatePod = none
    · have hcp := CreatePod_served k N (newFRPCPod c ing) hup habs
      rw [hcp] at hfirst
      refine ⟨none, _, hfirst, fun _ => ⟨none, ?_, id⟩⟩
      rw [syncIngress_at_pod c _ key N M ns ing hkey hns ht hing]
      have hlook : Kube.GetPod
          { k with
            Writes := k.Writes ++ [Write.CreatePod N (newFRPCPod c ing)]
            Pods := k.Pods ++ [{ newFRPCPod c ing with
              ObjectMeta := { (newFRPCPod c ing).ObjectMeta with Namespace := N } }] }
          N ing.ObjectMeta.Name
          = ({ newFRPCPod c ing with
              ObjectMeta := { (newFRPCPod c ing).ObjectMeta with Namespace := N } }, none) := by
        have hnone : k.Pods.find? (fun s => decide (s.ObjectMeta.Namespace = N ∧
            s.ObjectMeta.Name = ing.ObjectMeta.Name)) = none := by
          rw [List.find?_eq_none]
          intro p hp
          simpa using habs p hp
        simp only [Kube.GetPod, hget, List.find?_append, hnone, Option.none_or]
        simp [newFRPCPod]
      rw [hlook]
      simp [IsNotFound, IsControlledBy, GetControllerOf, newFRPCPod, NewControllerRef]
    · rcases hcp : k.CreatePod N (newFRPCPod c ing) with ⟨⟨st, cerr⟩, k1⟩
      have hw : k1.Writes = k.Writes ++ [Write.CreatePod N (newFRPCPod c ing)] := by
        have := CreatePod_writes k N (newFRPCPod c ing)
        rw [hcp] at this
        exact this
      rw [hcp] at hfirst
      have hne : ¬ (k1.Writes = k.Writes ∨ k.Outage Verb.CreatePod = none) := by
        rintro (h | h)
        · rw [hw] at h
          have := congrArg List.length h
          simp at this
        · exact hup h
      cases cerr with
      | none => exact ⟨none, k1, hfirst, fun h => absurd h hne⟩
      | some e => exact ⟨some e.Message, k1, hfirst, fun h => absurd h hne⟩

theorem syncIngress_idempotent_witness :
    ∃ e1 k1, syncIngress shopController {} "acme/shop" = .ok (e1, shopController, k1) ∧
      ((k1.Writes = ({} : Kube).Writes ∨ ({} : Kube).Outage Verb.CreatePod = none) →
        ∃ e2, syncIngress shopController k1 "acme/shop" = .ok (e2, shopController, k1) ∧
          (e1 = none → e2 = none)) :=
  syncIngress_idempotent shopController {} "acme/shop"

/-! ## When `PopMany` returns nil -/

/-- C25: for every allocator state, IP and integer `n`, given enumeration
orders of the table of `ip`, `PopMany(ip, n)` returns without fault, and its
result is nil exactly when `n ≤ 0` or fewer than `n` ports of [20000, 21000]
are marked available for `ip` before the call; for `n ≤ 0` (a request for zero
ports in particular) it returns that same nil and leaves the allocator
unchanged. -/
theorem PopMany_nil_iff (orders : Nat → List Int) (b : PortBucket) (ip : String) (n : Int)
    (horders : ∀ i, IsRangeOrder (orders i) (tableOf b ip)) :
    ∃ res b1, PopMany orders b ip n = .ok (res, b1) ∧
      (res = none ↔ (n ≤ 0 ∨ (freeCount (tableOf b ip) : Int) < n)) ∧
      (n ≤ 0 → res = none ∧ b1 = b) := by
  by_cases hn : n ≤ 0
  · have h0 : n.toNat = 0 := by omega
    refine ⟨none, b, ?_, by simp [hn], fun _ => ⟨rfl, rfl⟩⟩
    simp [PopMany, h0, popManyLoop]
  · by_cases hfew : (freeCount (tableOf b ip) : Int) < n
    · obtain ⟨b1, hb1⟩ := PopMany_none_of_few orders b ip n hfew
      exact ⟨none, b1, hb1, by simp [hfew], fun h => absurd h hn⟩
    · obtain ⟨l, b1, hb1, _⟩ := PopMany_enough orders b ip n horders (by omega) (by omega)
      exact ⟨some l, b1, hb1, by simp [hn, hfew], fun h => absurd h hn⟩

theorem PopMany_nil_iff_witness :
    ∃ res b1, PopMany (fun _ => [20002, 20001, 20000]) sampleBucket "10.0.0.5" 0
        = .ok (res, b1) ∧
      (res = none ↔ ((0 : Int) ≤ 0 ∨
        (freeCount (tableOf sampleBucket "10.0.0.5") : Int) < 0)) ∧
      ((0 : Int) ≤ 0 → res = none ∧ b1 = sampleBucket) :=
  PopMany_nil_iff (fun _ => [20002, 20001, 20000]) sampleBucket "10.0.0.5" 0
    (fun _ => sampleBucket_order)

/-! ## The worker step -/

theorem WorkQueue.Done_waiting (q : WorkQueue) (key : String) :
    (q.Done key).waiting = q.waiting := by
  unfold WorkQueue.Done; split_ifs <;> rfl

theorem WorkQueue.Done_failures (q : WorkQueue) (key : String) :
    (q.Done key).failures = q.failures := by
  unfold WorkQueue.Done; split_ifs <;> rfl

/-- C21: when `Get` hands the worker the key `key` and the sync function
returns on it (with the error `e`, nil or not), `processNextWorkItem` returns
after exactly one sync call on `key`. If `e` is nil the queue calls are
`Forget(key)` then `Done(key)`: the backoff state of the key is cleared and no
re-add is scheduled. If `e` is not nil they are `AddRateLimited(key)` then
`Done(key)`: a failure is recorded, a rate-limited re-add is scheduled and the
key is not forgotten. In both cases `Done(key)` is called once, after the sync
call, and `workerDone` is not touched. -/
theorem processNextWorkItem_outcome {σ : Type} (t : TaskQueue σ) (w w1 : σ) (key : String)
    (q1 : WorkQueue) (e : Option String)
    (hget : t.queue.Get = some ((some key, false), q1))
    (hsync : t.sync key w = .ok (e, w1)) :
    ∃ t1, processNextWorkItem t w = .ok (some (t1, w1)) ∧
      t1.workerDone = t.workerDone ∧
      (e = none →
        t1.trace = t.trace ++ [Event.Sync key, Event.Forget key, Event.Done key] ∧
        t1.queue = (q1.Forget key).Done key ∧
        key ∉ t1.queue.failures ∧
        t1.queue.waiting = q1.waiting) ∧
      (e ≠ none →
        t1.trace = t.trace ++ [Event.Sync key, Event.AddRateLimited key, Event.Done key] ∧
        t1.queue = (q1.AddRateLimited key).Done key ∧
        t1.queue.failures = q1.failures ++ [key] ∧
        t1.queue.waiting = q1.waiting ++ [key]) := by
  cases e with
  | none =>
    refine ⟨{ t with
      queue := (q1.Forget key).Done key
      trace := t.trace ++ [Event.Sync key, Event.Forget key, Event.Done key] }, ?_, ?_, ?_, ?_⟩
    · simp only [processNextWorkItem, hget, hsync, Bool.false_eq_true, if_false]
    · rfl
    · intro _
      refine ⟨rfl, rfl, ?_, ?_⟩
      · show key ∉ ((q1.Forget key).Done key).failures
        rw [WorkQueue.Done_failures]
        simp [WorkQueue.Forget]
      · show ((q1.Forget key).Done key).waiting = q1.waiting
        rw [WorkQueue.Done_waiting]; rfl
    · intro h; exact absurd rfl h
  | some msg =>
    refine ⟨{ t with
      queue := (q1.AddRateLimited key).Done key
      trace := t.trace ++ [Event.Sync key, Event.AddRateLimited key, Event.Done key] },
      ?_, ?_, ?_, ?_⟩
    · simp only [processNextWorkItem, hget, hsync, Bool.false_eq_true, if_false]
    · rfl
    · intro h; cases h
    · intro _
      refine ⟨rfl, rfl, ?_, ?_⟩
      · show ((q1.AddRateLimited key).Done key).failures = q1.failures ++ [key]
        rw [WorkQueue.Done_failures]; rfl
      · show ((q1.AddRateLimited key).Done key).waiting = q1.waiting ++ [key]
        rw [WorkQueue.Done_waiting]; rfl

theorem processNextWorkItem_outcome_witness :
    ∃ t1, processNextWorkItem (countingQueue.Add { Name := "acme" }) 0
        = .ok (some (t1, 1)) ∧
      t1.workerDone = (countingQueue.Add { Name := "acme" }).workerDone ∧
      ((none : Option String) = none →
        t1.trace = (countingQueue.Add { Name := "acme" }).trace ++
          [Event.Sync "acme", Event.Forget "acme", Event.Done "acme"] ∧
        t1.queue = (WorkQueue.Forget { processing := ["acme"] } "acme").Done "acme" ∧
        "acme" ∉ t1.queue.failures ∧
        t1.queue.waiting = WorkQueue.waiting { processing := ["acme"] }) ∧
      ((none : Option String) ≠ none →
        t1.trace = (countingQueue.Add { Name := "acme" }).trace ++
          [Event.Sync "acme", Event.AddRateLimited "acme", Event.Done "acme"] ∧
        t1.queue = (WorkQueue.AddRateLimited { processing := ["acme"] } "acme").Done "acme" ∧
        t1.queue.failures = WorkQueue.failures { processing := ["acme"] } ++ ["acme"] ∧
        t1.queue.waiting = WorkQueue.waiting { processing := ["acme"] } ++ ["acme"]) :=
  processNextWorkItem_outcome (countingQueue.Add { Name := "acme" }) 0 1 "acme"
    { processing := ["acme"] } none (by decide) rfl

/-! ## Shutting the queue down -/

/-- C22: on a task queue with nothing pending whose `workerDone` is open, once
`queue.ShutDown()` has run, the first iteration of a single worker running
`runWorker` closes `workerDone`, and the next iteration pulls again, observes
the stop condition again and closes `workerDone` a second time: the worker
panics with "close of closed channel" whatever the number of further
iterations. -/
theorem runWorker_closes_workerDone_twice {σ : Type} (t : TaskQueue σ) (w : σ)
    (hq : t.queue.queue = []) (hd : t.workerDone = false) :
    (∃ t1, processNextWorkItem t.shutDownQueue w = .ok (some (t1, w)) ∧
      t1.workerDone = true ∧
      t1.trace = t.trace ++ [Event.CloseWorkerDone] ∧
      processNextWorkItem t1 w = .error Fault.closeOfClosedChannel) ∧
    ∀ fuel, runWorker (fuel + 2) t.shutDownQueue w = .error Fault.closeOfClosedChannel := by
  have hget : t.shutDownQueue.queue.Get = some ((none, true), t.shutDownQueue.queue) := by
    simp [TaskQueue.shutDownQueue, WorkQueue.ShutDown, WorkQueue.Get, hq]
  have h1 : processNextWorkItem t.shutDownQueue w =
      .ok (some ({ t.shutDownQueue with
        queue := t.shutDownQueue.queue, workerDone := true,
        trace := t.shutDownQueue.trace ++ [Event.CloseWorkerDone] }, w)) := by
    have hd1 : t.shutDownQueue.workerDone = false := hd
    simp only [processNextWorkItem, hget, hd1, if_true, Bool.false_eq_true, if_false]
  have h2 : processNextWorkItem ({ t.shutDownQueue with
        queue := t.shutDownQueue.queue, workerDone := true,
        trace := t.shutDownQueue.trace ++ [Event.CloseWorkerDone] } : TaskQueue σ) w =
      .error Fault.closeOfClosedChannel := by
    simp only [processNextWorkItem, hget, if_true]
  refine ⟨⟨{ t.shutDownQueue with
        queue := t.shutDownQueue.queue, workerDone := true,
        trace := t.shutDownQueue.trace ++ [Event.CloseWorkerDone] }, h1, rfl, rfl, h2⟩,
    fun fuel => ?_⟩
  simp only [runWorker, h1, h2]

theorem runWorker_closes_workerDone_twice_witness :
    (∃ t1, processNextWorkItem countingQueue.shutDownQueue 0 = .ok (some (t1, 0)) ∧
      t1.workerDone = true ∧
      t1.trace = countingQueue.trace ++ [Event.CloseWorkerDone] ∧
      processNextWorkItem t1 0 = .error Fault.closeOfClosedChannel) ∧
    ∀ fuel, runWorker (fuel + 2) countingQueue.shutDownQueue 0
      = .error Fault.closeOfClosedChannel :=
  runWorker_closes_workerDone_twice countingQueue 0 rfl rfl

/-! ## The broker port across requests -/

/-- C24: the service `beta-co` of the tenant of namespace `beta` has no port
named `frps`. Served first by a new handler, the request for `beta/web` is
answered with the 400 `PortNotFound` error body. Served by the same handler
after a request for `acme/shop`, whose tenant has the `frps` port 20001, the
request for `beta/web` is answered with a configuration document whose section
`common` carries the server port 20001 of the other tenant: the field
`ServerPort` of the shared `common` keeps the value the earlier request wrote. -/
theorem IngressToIni_serves_stale_port :
    (IngressToIni tunnelHandler "beta" "web").1 =
      .ok (.error { StatusCode := 400
                    Message := "Failed finding FRPS port for service " ++ "beta-co".quote
                    Reason := "PortNotFound" }) ∧
    (serve tunnelHandler [("acme", "shop"), ("beta", "web")]).1 =
      [ .ok (.document []
          { ServerAddress := "frps.example.test", ServerPort := 20001
            AdminAddress := "0.0.0.0", AdminPort := 7400 }),
        .ok (.document
          [{ Section := "web.beta.test/", «Type» := "http"
             LocalIP := "web.beta.svc.cluster.local", LocalPort := 80
             CustomDomains := "web.beta.test", Locations := "/" }]
          { ServerAddress := "frps.example.test", ServerPort := 20001
            AdminAddress := "0.0.0.0", AdminPort := 7400 }) ] := by
  constructor
  · rfl
  · rfl

/-! ## Deduplication in the work queue -/

theorem WorkQueue.Inv_empty : WorkQueue.Inv {} :=
  ⟨List.nodup_nil, List.nodup_nil, List.nodup_nil, (fun _ h => by cases h),
    (fun _ h => by cases h)⟩

theorem WorkQueue.Inv_Add {q : WorkQueue} (h : q.Inv) (key : String) : (q.Add key).Inv := by
  unfold WorkQueue.Add
  split_ifs with hs hd hp
  · exact h
  · exact h
  · refine ⟨h.processing_nodup, h.queue_nodup, ?_, ?_, h.queue_not_processing⟩
    · exact List.Nodup.append h.dirty_nodup (List.nodup_singleton key) (by simpa using hd)
    · intro k hk
      exact List.mem_append_left _ (h.queue_dirty k hk)
  · have hq : key ∉ q.queue := fun hk => hd (h.queue_dirty key hk)
    refine ⟨h.processing_nodup, ?_, ?_, ?_, ?_⟩
    · exact List.Nodup.append h.queue_nodup (List.nodup_singleton key) (by simpa using hq)
    · exact List.Nodup.append h.dirty_nodup (List.nodup_singleton key) (by simpa using hd)
    · intro k hk
      rcases List.mem_append.mp hk with hk | hk
      · exact List.mem_append_left _ (h.queue_dirty k hk)
      · exact List.mem_append_right _ hk
    · intro k hk
      rcases List.mem_append.mp hk with hk | hk
      · exact h.queue_not_processing k hk
      · rw [List.mem_singleton] at hk
        rw [hk]; exact hp

theorem WorkQueue.Get_cases {q q1 : WorkQueue} {key : String}
    (hget : q.Get = some ((some key, false), q1)) :
    ∃ rest, q.queue = key :: rest ∧
      q1 = { q with queue := rest, processing := q.processing ++ [key],
                    dirty := q.dirty.erase key } := by
  unfold WorkQueue.Get at hget
  cases hq : q.queue with
  | nil =>
    rw [hq] at hget
    simp only at hget
    split_ifs at hget
    · simp at hget
  | cons x rest =>
    rw [hq] at hget
    simp only [Option.some.injEq, Prod.mk.injEq, and_true] at hget
    obtain ⟨hx, hq1⟩ := hget
    subst hx
    exact ⟨rest, rfl, hq1.symm⟩

theorem WorkQueue.Inv_Get {q q1 : WorkQueue} (h : q.Inv) {key : String}
    (hget : q.Get = some ((some key, false), q1)) :
    q1.Inv ∧ key ∈ q.dirty ∧ key ∉ q.processing ∧
      q1.processing = q.processing ++ [key] ∧ q1.dirty = q.dirty.erase key := by
  obtain ⟨rest, hq, hq1⟩ := WorkQueue.Get_cases hget
  subst hq1
  have hnd := h.queue_nodup
  rw [hq] at hnd
  have hxrest : key ∉ rest := (List.nodup_cons.mp hnd).1
  have hxd : key ∈ q.dirty := h.queue_dirty key (by rw [hq]; exact List.mem_cons_self _ _)
  have hxp : key ∉ q.processing :=
    h.queue_not_processing key (by rw [hq]; exact List.mem_cons_self _ _)
  refine ⟨⟨?_, ?_, ?_, ?_, ?_⟩, hxd, hxp, rfl, rfl⟩
  · exact List.Nodup.append h.processing_nodup (List.nodup_singleton key) (by simpa using hxp)
  · exact (List.nodup_cons.mp hnd).2
  · exact h.dirty_nodup.erase key
  · intro k hk
    have hkx : k ≠ key := fun e => hxrest (e ▸ hk)
    exact (List.mem_erase_of_ne hkx).mpr
      (h.queue_dirty k (by rw [hq]; exact List.mem_cons_of_mem _ hk))
  · intro k hk hkp
    have hkx : k ≠ key := fun e => hxrest (e ▸ hk)
    rcases List.mem_append.mp hkp with hkp | hkp
    · exact h.queue_not_processing k (by rw [hq]; exact List.mem_cons_of_mem _ hk) hkp
    · exact hkx (List.mem_singleton.mp hkp)

theorem WorkQueue.Inv_Done {q : WorkQueue} (h : q.Inv) {key : String}
    (hp : key ∈ q.processing) : (q.Done key).Inv := by
  have hq : key ∉ q.queue := fun hk => h.queue_not_processing key hk hp
  have herase : ∀ k ∈ q.queue, k ∉ q.processing.erase key :=
    fun k hk hkp => h.queue_not_processing k hk (List.mem_of_mem_erase hkp)
  unfold WorkQueue.Done
  split_ifs with hd
  · refine ⟨h.processing_nodup.erase key, ?_, h.dirty_nodup, ?_, ?_⟩
    · exact List.Nodup.append h.queue_nodup (List.nodup_singleton key) (by simpa using hq)
    · intro k hk
      rcases List.mem_append.mp hk with hk | hk
      · exact h.queue_dirty k hk
      · rw [List.mem_singleton] at hk
        rw [hk]; exact hd
    · intro k hk
      rcases List.mem_append.mp hk with hk | hk
      · exact herase k hk
      · rw [List.mem_singleton] at hk
        rw [hk]
        exact fun hmem => ((List.Nodup.mem_erase_iff h.processing_nodup).mp hmem).1 rfl
  · exact ⟨h.processing_nodup.erase key, h.queue_nodup, h.dirty_nodup, h.queue_dirty, herase⟩

theorem WorkQueue.Inv_of_fields {q q1 : WorkQueue} (h : q.Inv)
    (hq : q1.queue = q.queue) (hd : q1.dirty = q.dirty) (hp : q1.processing = q.processing) :
    q1.Inv := by
  refine ⟨?_, ?_, ?_, ?_, ?_⟩
  · rw [hp]; exact h.processing_nodup
  · rw [hq]; exact h.queue_nodup
  · rw [hd]; exact h.dirty_nodup
  · rw [hq, hd]; exact h.queue_dirty
  · rw [hq, hp]; exact h.queue_not_processing

theorem WorkQueue.Inv_Elapse {q : WorkQueue} (h : q.Inv) (key : String) :
    (q.Elapse key).Inv := by
  unfold WorkQueue.Elapse
  split_ifs
  · apply WorkQueue.Inv_Add
    exact WorkQueue.Inv_of_fields h rfl rfl rfl
  · exact h

theorem Pool.step_Pull (s : Pool) :
    (∃ key q1, s.queue.Get = some ((some key, false), q1) ∧
      s.step Action.Pull =
        { queue := q1, running := s.running ++ [key], invoked := s.invoked ++ [key] }) ∨
    s.step Action.Pull = s := by
  simp only [Pool.step]
  split
  · next key q1 hget => exact Or.inl ⟨key, q1, hget, rfl⟩
  · exact Or.inr rfl

theorem Pool.step_Finish (s : Pool) (key : String) (failed : Bool) :
    (key ∈ s.running ∧
      s.step (Action.Finish key failed) =
        { s with
          queue := (if failed then s.queue.AddRateLimited key else s.queue.Forget key).Done key
          running := s.running.erase key }) ∨
    s.step (Action.Finish key failed) = s := by
  by_cases hk : key ∈ s.running
  · exact Or.inl ⟨hk, by simp only [Pool.step, if_pos hk]⟩
  · exact Or.inr (by simp only [Pool.step, if_neg hk])

theorem WorkQueue.finish_fields (q : WorkQueue) (key : String) (failed : Bool) :
    (if failed then q.AddRateLimited key else q.Forget key).queue = q.queue ∧
    (if failed then q.AddRateLimited key else q.Forget key).dirty = q.dirty ∧
    (if failed then q.AddRateLimited key else q.Forget key).processing = q.processing := by
  cases failed <;> exact ⟨rfl, rfl, rfl⟩

theorem WorkQueue.Done_processing (q : WorkQueue) (key : String) :
    (q.Done key).processing = q.processing.erase key := by
  unfold WorkQueue.Done; split_ifs <;> rfl

theorem WorkQueue.Done_dirty (q : WorkQueue) (key : String) :
    (q.Done key).dirty = q.dirty := by
  unfold WorkQueue.Done; split_ifs <;> rfl

theorem WorkQueue.Add_processing (q : WorkQueue) (key : String) :
    (q.Add key).processing = q.processing := by
  unfold WorkQueue.Add; split_ifs <;> rfl

theorem WorkQueue.Elapse_processing (q : WorkQueue) (key : String) :
    (q.Elapse key).processing = q.processing := by
  unfold WorkQueue.Elapse
  split_ifs
  · rw [WorkQueue.Add_processing]
  · rfl

theorem Pool.step_inv {s : Pool} (hr : s.running = s.queue.processing) (hi : s.queue.Inv)
    (a : Action) :
    (s.step a).running = (s.step a).queue.processing ∧ (s.step a).queue.Inv := by
  cases a with
  | Add key =>
    refine ⟨?_, WorkQueue.Inv_Add hi key⟩
    show s.running = (s.queue.Add key).processing
    rw [WorkQueue.Add_processing, hr]
  | Pull =>
    rcases Pool.step_Pull s with ⟨key, q1, hget, hstep⟩ | hstep
    · obtain ⟨hinv, _, _, hproc, _⟩ := WorkQueue.Inv_Get hi hget
      rw [hstep]
      exact ⟨by show s.running ++ [key] = q1.processing; rw [hproc, hr], hinv⟩
    · rw [hstep]; exact ⟨hr, hi⟩
  | Finish key failed =>
    rcases Pool.step_Finish s key failed with ⟨hk, hstep⟩ | hstep
    · obtain ⟨hfq, hfd, hfp⟩ := WorkQueue.finish_fields s.queue key failed
      have hbase : (if failed then s.queue.AddRateLimited key else s.queue.Forget key).Inv :=
        WorkQueue.Inv_of_fields hi hfq hfd hfp
      rw [hstep]
      refine ⟨?_, WorkQueue.Inv_Done hbase (by rw [hfp, ← hr]; exact hk)⟩
      show s.running.erase key = _
      rw [WorkQueue.Done_processing, hfp, hr]
    · rw [hstep]; exact ⟨hr, hi⟩
  | Elapse key =>
    refine ⟨?_, WorkQueue.Inv_Elapse hi key⟩
    show s.running = (s.queue.Elapse key).processing
    rw [WorkQueue.Elapse_processing, hr]
  | ShutDown => exact ⟨hr, WorkQueue.Inv_of_fields hi rfl rfl rfl⟩

theorem Pool.run_inv (acts : List Action) :
    ∀ s : Pool, s.running = s.queue.processing → s.queue.Inv →
      (s.run acts).running = (s.run acts).queue.processing ∧ (s.run acts).queue.Inv := by
  induction acts with
  | nil => intro s hr hi; exact ⟨hr, hi⟩
  | cons a rest ih =>
    intro s hr hi
    obtain ⟨hr1, hi1⟩ := Pool.step_inv hr hi a
    exact ih (s.step a) hr1 hi1

theorem WorkQueue.owed_congr {q q1 : WorkQueue} {k : String}
    (h : k ∈ q1.dirty ↔ k ∈ q.dirty) : q1.owed k = q.owed k := by
  unfold WorkQueue.owed
  by_cases hk : k ∈ q.dirty
  · rw [if_pos hk, if_pos (h.mpr hk)]
  · rw [if_neg hk, if_neg (fun h1 => hk (h.mp h1))]

theorem WorkQueue.Add_mem_dirty (q : WorkQueue) {k key : String} (hne : k ≠ key) :
    k ∈ (q.Add key).dirty ↔ k ∈ q.dirty := by
  unfold WorkQueue.Add
  split_ifs
  · rfl
  · rfl
  · simp [hne]
  · simp [hne]

theorem WorkQueue.Elapse_mem_dirty (q : WorkQueue) {k key : String} (hne : k ≠ key) :
    k ∈ (q.Elapse key).dirty ↔ k ∈ q.dirty := by
  unfold WorkQueue.Elapse
  split_ifs
  · rw [WorkQueue.Add_mem_dirty _ hne]
  · rfl

/-- A step other than an add of `k` keeps the number of sync calls started on
`k` plus the deliveries owed to `k`. -/
theorem Pool.step_conserves {s : Pool} (hi : s.queue.Inv) (k : String) (a : Action)
    (ha : a ≠ Action.Add k ∧ a ≠ Action.Elapse k) :
    List.count k (s.step a).invoked + (s.step a).queue.owed k =
      List.count k s.invoked + s.queue.owed k := by
  cases a with
  | Add key =>
    have hne : k ≠ key := fun e => ha.1 (by rw [e])
    show List.count k s.invoked + (s.queue.Add key).owed k = _
    rw [WorkQueue.owed_congr (WorkQueue.Add_mem_dirty s.queue hne)]
  | Pull =>
    rcases Pool.step_Pull s with ⟨key, q1, hget, hstep⟩ | hstep
    · obtain ⟨_, hkd, _, _, hdirty⟩ := WorkQueue.Inv_Get hi hget
      rw [hstep]
      show List.count k (s.invoked ++ [key]) + q1.owed k = _
      by_cases hk : key = k
      · subst hk
        have h0 : q1.owed key = 0 := by
          unfold WorkQueue.owed
          rw [hdirty, if_neg]
          exact fun hmem => ((List.Nodup.mem_erase_iff hi.dirty_nodup).mp hmem).1 rfl
        have h1 : s.queue.owed key = 1 := by
          unfold WorkQueue.owed
          rw [if_pos hkd]
        rw [h0, h1, List.count_append]
        simp
      · have hne : k ≠ key := fun e => hk e.symm
        have hcongr : q1.owed k = s.queue.owed k :=
          WorkQueue.owed_congr (by rw [hdirty]; exact List.mem_erase_of_ne hne)
        have hc : List.count k [key] = 0 :=
          List.count_eq_zero_of_not_mem (by simpa using hne)
        rw [hcongr, List.count_append, hc, Nat.add_zero]
    · rw [hstep]
  | Finish key failed =>
    rcases Pool.step_Finish s key failed with ⟨_, hstep⟩ | hstep
    · rw [hstep]
      show List.count k s.invoked + WorkQueue.owed _ k = _
      rw [WorkQueue.owed_congr]
      rw [WorkQueue.Done_dirty, (WorkQueue.finish_fields s.queue key failed).2.1]
    · rw [hstep]
  | Elapse key =>
    have hne : k ≠ key := fun e => ha.2 (by rw [e])
    show List.count k s.invoked + (s.queue.Elapse key).owed k = _
    rw [WorkQueue.owed_congr (WorkQueue.Elapse_mem_dirty s.queue hne)]
  | ShutDown => rfl

theorem Pool.run_conserves (k : String) (acts : List Action) :
    ∀ s : Pool, s.running = s.queue.processing → s.queue.Inv →
      (∀ a ∈ acts, a ≠ Action.Add k ∧ a ≠ Action.Elapse k) →
      List.count k (s.run acts).invoked + (s.run acts).queue.owed k =
        List.count k s.invoked + s.queue.owed k := by
  induction acts with
  | nil => intro s _ _ _; rfl
  | cons a rest ih =>
    intro s hr hi hacts
    obtain ⟨hr1, hi1⟩ := Pool.step_inv hr hi a
    have h1 := ih (s.step a) hr1 hi1 (fun b hb => hacts b (List.mem_cons_of_mem _ hb))
    have h2 := Pool.step_conserves hi k a (hacts a (List.mem_cons_self _ _))
    show List.count k ((s.step a).run rest).invoked + ((s.step a).run rest).queue.owed k = _
    rw [h1, h2]

theorem WorkQueue.Add_Add (q : WorkQueue) (key : String) :
    (q.Add key).Add key = q.Add key := by
  by_cases hs : q.shuttingDown = true
  · simp [WorkQueue.Add, hs]
  · by_cases hd : key ∈ q.dirty
    · simp [WorkQueue.Add, hs, hd]
    · by_cases hp : key ∈ q.processing
      · simp [WorkQueue.Add, hs, hd, hp]
      · simp [WorkQueue.Add, hs, hd, hp]

theorem Pool.run_replicate_fixed (t : Pool) (a : Action) (ht : t.step a = t) (m : Nat) :
    t.run (List.replicate m a) = t := by
  induction m with
  | zero => rfl
  | succ j ih =>
    show (t.step a).run (List.replicate j a) = t
    rw [ht]; exact ih

theorem Pool.run_Add_replicate (s : Pool) (key : String) (n : Nat) :
    s.run (List.replicate (n + 1) (Action.Add key)) = s.step (Action.Add key) := by
  show (s.step (Action.Add key)).run (List.replicate n (Action.Add key)) = _
  apply Pool.run_replicate_fixed
  show ({ s with queue := (s.queue.Add key).Add key } : Pool) = { s with queue := s.queue.Add key }
  rw [WorkQueue.Add_Add]

theorem WorkQueue.Add_fresh {q : WorkQueue} {key : String}
    (hd : key ∉ q.dirty) (hs : q.shuttingDown = false) :
    key ∈ (q.Add key).dirty ∧
      (key ∈ q.processing → (q.Add key).queue = q.queue) ∧
      (key ∉ q.processing → (q.Add key).queue = q.queue ++ [key]) := by
  by_cases hp : key ∈ q.processing
  · simp [WorkQueue.Add, hs, hd, hp]
  · simp [WorkQueue.Add, hs, hd, hp]

/-- Workers that pull until the key `k` is handed out start one sync call on
each key pending before `k`, then one on `k`. -/
theorem Pool.run_Pull_until (k : String) (l : List String) :
    ∀ (s : Pool) (rest : List String), s.queue.queue = l ++ k :: rest →
      (s.run (List.replicate (l.length + 1) Action.Pull)).invoked = s.invoked ++ l ++ [k] := by
  induction l with
  | nil =>
    intro s rest hq
    have hget : s.queue.Get = some ((some k, false),
        { s.queue with queue := rest, processing := s.queue.processing ++ [k],
                       dirty := s.queue.dirty.erase k }) := by
      unfold WorkQueue.Get; rw [hq]; rfl
    show (s.step Action.Pull).invoked = _
    simp only [Pool.step, hget, List.append_nil]
  | cons x l ih =>
    intro s rest hq
    have hget : s.queue.Get = some ((some x, false),
        { s.queue with queue := l ++ k :: rest, processing := s.queue.processing ++ [x],
                       dirty := s.queue.dirty.erase x }) := by
      unfold WorkQueue.Get; rw [hq]; rfl
    have hstep : s.step Action.Pull =
        { queue := { s.queue with queue := l ++ k :: rest,
                                  processing := s.queue.processing ++ [x],
                                  dirty := s.queue.dirty.erase x },
          running := s.running ++ [x], invoked := s.invoked ++ [x] } := by
      simp only [Pool.step, hget]
    show ((s.step Action.Pull).run (List.replicate (l.length + 1) Action.Pull)).invoked = _
    rw [hstep, ih _ rest rfl]
    simp

/-- While a sync call on `k` is in flight no step starts another one on `k`. -/
theorem Pool.step_no_second_start {s : Pool} (hr : s.running = s.queue.processing)
    (hi : s.queue.Inv) {k : String} (hk : k ∈ s.running) (a : Action) :
    List.count k (s.step a).invoked = List.count k s.invoked := by
  cases a with
  | Add key => rfl
  | Pull =>
    rcases Pool.step_Pull s with ⟨key, q1, hget, hstep⟩ | hstep
    · obtain ⟨_, _, hnp, _, _⟩ := WorkQueue.Inv_Get hi hget
      have hne : k ≠ key := fun e => hnp (by rw [← e, ← hr]; exact hk)
      have hc : List.count k [key] = 0 :=
        List.count_eq_zero_of_not_mem (by simpa using hne)
      rw [hstep]
      show List.count k (s.invoked ++ [key]) = _
      rw [List.count_append, hc, Nat.add_zero]
    · rw [hstep]
  | Finish key failed =>
    rcases Pool.step_Finish s key failed with ⟨_, hstep⟩ | hstep
    · rw [hstep]
    · rw [hstep]
  | Elapse key => rfl
  | ShutDown => rfl

/-- A key added while neither marked nor in flight is delivered once the
workers have pulled the keys pending before it. -/
theorem Pool.pending_delivered {s : Pool} (hi : s.queue.Inv) {k : String}
    (hd : k ∉ s.queue.dirty) (hs : s.queue.shuttingDown = false) (hp : k ∉ s.queue.processing) :
    List.count k ((s.step (Action.Add k)).run
        (List.replicate (s.queue.queue.length + 1) Action.Pull)).invoked =
      List.count k s.invoked + 1 := by
  have hq : k ∉ s.queue.queue := fun h => hd (hi.queue_dirty k h)
  have hqueue : (s.step (Action.Add k)).queue.queue = s.queue.queue ++ k :: [] :=
    (WorkQueue.Add_fresh hd hs).2.2 hp
  rw [Pool.run_Pull_until k s.queue.queue (s.step (Action.Add k)) [] hqueue]
  show List.count k (s.invoked ++ s.queue.queue ++ [k]) = _
  rw [List.count_append, List.count_append, List.count_eq_zero_of_not_mem hq]
  simp

/-- A key added while in flight is delivered once the sync call in flight has
returned and the workers have pulled the keys pending before it. -/
theorem Pool.active_delivered {s : Pool} (hr : s.running = s.queue.processing)
    (hi : s.queue.Inv) {k : String}
    (hd : k ∉ s.queue.dirty) (hs : s.queue.shuttingDown = false) (hp : k ∈ s.queue.processing)
    (failed : Bool) :
    List.count k ((s.step (Action.Add k)).run
        (Action.Finish k failed :: List.replicate (s.queue.queue.length + 1) Action.Pull)).invoked =
      List.count k s.invoked + 1 := by
  have hq : k ∉ s.queue.queue := fun h => hd (hi.queue_dirty k h)
  obtain ⟨hdirty, hsame, _⟩ := WorkQueue.Add_fresh hd hs
  have hrun : k ∈ s.running := by
    rw [hr]; exact hp
  have hstep : (s.step (Action.Add k)).step (Action.Finish k failed) =
      { queue := (if failed then (s.queue.Add k).AddRateLimited k
                  else (s.queue.Add k).Forget k).Done k,
        running := s.running.erase k, invoked := s.invoked } := by
    simp only [Pool.step, if_pos hrun]
  obtain ⟨hfq, hfd, _⟩ := WorkQueue.finish_fields (s.queue.Add k) k failed
  have hmark : k ∈ (if failed then (s.queue.Add k).AddRateLimited k
      else (s.queue.Add k).Forget k).dirty := by
    rw [hfd]; exact hdirty
  have hqueue : ((s.step (Action.Add k)).step (Action.Finish k failed)).queue.queue =
      s.queue.queue ++ k :: [] := by
    rw [hstep]
    show (WorkQueue.Done _ k).queue = _
    unfold WorkQueue.Done
    rw [if_pos hmark]
    show (if failed then (s.queue.Add k).AddRateLimited k else (s.queue.Add k).Forget k).queue
      ++ [k] = _
    rw [hfq, hsame hp]
  show List.count k (((s.step (Action.Add k)).step (Action.Finish k failed)).run
    (List.replicate (s.queue.queue.length + 1) Action.Pull)).invoked = _
  rw [Pool.run_Pull_until k s.queue.queue _ [] hqueue, hstep]
  show List.count k (s.invoked ++ s.queue.queue ++ [k]) = _
  rw [List.count_append, List.count_append, List.count_eq_zero_of_not_mem hq]
  simp

/-- The second half of `processNextWorkItem` is the step `Finish` of the pool
after the step `Pull`: the queue after a worker step is the queue of the pool
after the two steps. -/
theorem processNextWorkItem_as_steps {σ : Type} (t : TaskQueue σ) (w w1 : σ) (key : String)
    (q1 : WorkQueue) (e : Option String)
    (hget : t.queue.Get = some ((some key, false), q1))
    (hsync : t.sync key w = .ok (e, w1)) :
    ∃ t1, processNextWorkItem t w = .ok (some (t1, w1)) ∧
      t1.queue = ((({ queue := t.queue } : Pool).step Action.Pull).step
        (Action.Finish key e.isSome)).queue := by
  have hpull : ({ queue := t.queue } : Pool).step Action.Pull =
      { queue := q1, running := [key], invoked := [key] } := by
    simp only [Pool.step, hget, List.nil_append]
  have hmem : key ∈ ({ queue := q1, running := [key], invoked := [key] } : Pool).running :=
    List.mem_singleton.mpr rfl
  cases e with
  | none =>
    refine ⟨{ t with
      queue := (q1.Forget key).Done key
      trace := t.trace ++ [Event.Sync key, Event.Forget key, Event.Done key] }, ?_, ?_⟩
    · simp only [processNextWorkItem, hget, hsync, Bool.false_eq_true, if_false]
    · rw [hpull]
      simp only [Pool.step, if_pos hmem, Option.isSome, Bool.false_eq_true, if_false]
  | some msg =>
    refine ⟨{ t with
      queue := (q1.AddRateLimited key).Done key
      trace := t.trace ++ [Event.Sync key, Event.AddRateLimited key, Event.Done key] }, ?_, ?_⟩
    · simp only [processNextWorkItem, hget, hsync, Bool.false_eq_true, if_false]
    · rw [hpull]
      simp only [Pool.step, if_pos hmem, Option.isSome, if_true]

/-- C23: in every state `s` the pool reaches from the new task queue: no key
has two sync calls in flight, and no step starts a sync call on a key that has
one in flight. When `k` is not marked in `s` and the queue is not shut down,
adding `k` twice or more is the same as adding it once, and through every
continuation without a further add of `k` the sync calls started on `k` since
`s` plus the delivery still owed to `k` number exactly one. If `k` was not in
flight in `s` it is pending once and its one sync call starts once the workers
have pulled the keys pending before it; if `k` was in flight in `s` it is not
pending, and its one further sync call starts after the call in flight has
returned. -/
theorem Pool_dedup (s : Pool) (pre acts : List Action) (k : String) (n : Nat)
    (hreach : s = Pool.run {} pre)
    (hclean : k ∉ s.queue.dirty)
    (hopen : s.queue.shuttingDown = false)
    (hacts : ∀ a ∈ acts, a ≠ Action.Add k ∧ a ≠ Action.Elapse k) :
    s.running.Nodup ∧
    (∀ key a, key ∈ s.running → List.count key (s.step a).invoked = List.count key s.invoked) ∧
    s.run (List.replicate (n + 2) (Action.Add k)) = s.step (Action.Add k) ∧
    ((s.step (Action.Add k)).run acts).running.Nodup ∧
    List.count k ((s.step (Action.Add k)).run acts).invoked +
        ((s.step (Action.Add k)).run acts).queue.owed k = List.count k s.invoked + 1 ∧
    (k ∉ s.running →
      List.count k (s.step (Action.Add k)).queue.queue = 1 ∧
      List.count k ((s.step (Action.Add k)).run
          (List.replicate (s.queue.queue.length + 1) Action.Pull)).invoked =
        List.count k s.invoked + 1) ∧
    (k ∈ s.running →
      k ∉ (s.step (Action.Add k)).queue.queue ∧
      ∀ failed, List.count k ((s.step (Action.Add k)).run
          (Action.Finish k failed ::
            List.replicate (s.queue.queue.length + 1) Action.Pull)).invoked =
        List.count k s.invoked + 1) := by
  obtain ⟨hr, hi⟩ : s.running = s.queue.processing ∧ s.queue.Inv := by
    rw [hreach]
    exact Pool.run_inv pre {} rfl WorkQueue.Inv_empty
  obtain ⟨hr1, hi1⟩ := Pool.step_inv hr hi (Action.Add k)
  obtain ⟨hr2, hi2⟩ := Pool.run_inv acts _ hr1 hi1
  have hq : k ∉ s.queue.queue := fun h => hclean (hi.queue_dirty k h)
  obtain ⟨hdirty, hsame, hnew⟩ := WorkQueue.Add_fresh hclean hopen
  refine ⟨?_, ?_, ?_, ?_, ?_, ?_, ?_⟩
  · rw [hr]; exact hi.processing_nodup
  · intro key a hkey
    exact Pool.step_no_second_start hr hi hkey a
  · exact Pool.run_Add_replicate s k (n + 1)
  · rw [hr2]; exact hi2.processing_nodup
  · rw [Pool.run_conserves k acts _ hr1 hi1 hacts]
    show List.count k s.invoked + (s.queue.Add k).owed k = _
    unfold WorkQueue.owed
    rw [if_pos hdirty]
  · intro hk
    have hp : k ∉ s.queue.processing := fun h => hk (by rw [hr]; exact h)
    refine ⟨?_, Pool.pending_delivered hi hclean hopen hp⟩
    show List.count k (s.queue.Add k).queue = 1
    rw [hnew hp, List.count_append, List.count_eq_zero_of_not_mem hq]
    simp
  · intro hk
    have hp : k ∈ s.queue.processing := by rw [← hr]; exact hk
    refine ⟨?_, fun failed => Pool.active_delivered hr hi hclean hopen hp failed⟩
    show k ∉ (s.queue.Add k).queue
    rw [hsame hp]; exact hq

theorem Pool_dedup_witness :
    inFlightPool.running.Nodup ∧
    (∀ key a, key ∈ inFlightPool.running →
      List.count key (inFlightPool.step a).invoked = List.count key inFlightPool.invoked) ∧
    inFlightPool.run (List.replicate (0 + 2) (Action.Add "acme")) =
      inFlightPool.step (Action.Add "acme") ∧
    ((inFlightPool.step (Action.Add "acme")).run
      [Action.Pull, Action.Finish "acme" false, Action.Pull]).running.Nodup ∧
    List.count "acme" ((inFlightPool.step (Action.Add "acme")).run
        [Action.Pull, Action.Finish "acme" false, Action.Pull]).invoked +
      ((inFlightPool.step (Action.Add "acme")).run
        [Action.Pull, Action.Finish "acme" false, Action.Pull]).queue.owed "acme" =
      List.count "acme" inFlightPool.invoked + 1 ∧
    ("acme" ∉ inFlightPool.running →
      List.count "acme" (inFlightPool.step (Action.Add "acme")).queue.queue = 1 ∧
      List.count "acme" ((inFlightPool.step (Action.Add "acme")).run
          (List.replicate (inFlightPool.queue.queue.length + 1) Action.Pull)).invoked =
        List.count "acme" inFlightPool.invoked + 1) ∧
    ("acme" ∈ inFlightPool.running →
      "acme" ∉ (inFlightPool.step (Action.Add "acme")).queue.queue ∧
      ∀ failed, List.count "acme" ((inFlightPool.step (Action.Add "acme")).run
          (Action.Finish "acme" failed ::
            List.replicate (inFlightPool.queue.queue.length + 1) Action.Pull)).invoked =
        List.count "acme" inFlightPool.invoked + 1) :=
  Pool_dedup inFlightPool [Action.Add "acme", Action.Pull]
    [Action.Pull, Action.Finish "acme" false, Action.Pull] "acme" 0 rfl (by decide) rfl
    (by decide)

end AllSpark
